import Mathlib

/-!
# SPIKE: policy engine, request guards, routes and root-key share distribution

A shallow embedding of the parts of SPIKE Nexus that decide access and keep the
policies (`app/nexus/internal/state/base/policy.go`,
`app/nexus/internal/state/persist/policy.go`), guard requests
(`app/nexus/internal/route/secret/delete_intercept.go`,
`app/nexus/internal/route/acl/policy/list_intercept.go`), select handlers
(`app/nexus/internal/route/base/route.go`), collect pilot shards
(`app/nexus/internal/route/operator/restore.go`) and hand root-key shares to the
keepers (`app/nexus/internal/initialization/recovery/update.go`), of the
keeper route that serves a shard (`app/keeper/internal/route/store/shard.go`),
and of the Pilot commands that write and read recovery files
(`app/spike/internal/cmd/operator/recover.go`, `restore.go`) and undelete
secrets (`app/spike/internal/cmd/secret/undelete.go`).

Go slices are Lean lists, a `nil` pointer is `none`, a panic is the `none`
result of a function returning `Option`, and calls into libraries or into
packages outside these files are parameters of the embedding.
-/

namespace Spike

/-! ## Regular expressions (Go's `regexp` package) -/

/-- Compiled regular expression, the `*regexp.Regexp` held by a policy, as the
matcher sees it: for a contiguous piece of an input, the text before it and the
text after it, whether the piece is a match of the expression at that place.
The text around the piece is what the anchors `^`, `$`, `\A`, `\z` and the word
boundary `\b` of Go's syntax look at. -/
structure Regexp where
  accepts : List Char → List Char → List Char → Bool

/-- Every way to cut a text into the part before a contiguous piece, the piece,
and the part after it. -/
def cuts (l : List Char) : List (List Char × List Char × List Char) :=
  (List.range (l.length + 1)).flatMap fun i =>
    (l.drop i).inits.map fun piece => (l.take i, piece, (l.drop i).drop piece.length)

/-- Go's `(*Regexp).MatchString`: reports whether the string CONTAINS a match of
the expression, that is, whether some contiguous piece of `s`, where it stands,
is a match. The search itself adds no anchor: only an expression that carries
anchors is held to the start or the end of `s`. -/
def MatchString (re : Regexp) (s : String) : Bool :=
  (cuts s.toList).any fun c => re.accepts c.1 c.2.1 c.2.2

/-- An expression without anchors or boundaries, given by its language: a piece
is a match when it belongs to the language, wherever it stands. -/
def unanchored (r : RegularExpression Char) : Regexp :=
  ⟨fun _ piece _ => r.rmatch piece⟩

/-- The expression `^r$`, for `r` without anchors or boundaries: a piece is a
match when it belongs to the language of `r` and nothing stands before it or
after it. -/
def anchored (r : RegularExpression Char) : Regexp :=
  ⟨fun before piece after => before.isEmpty && after.isEmpty && r.rmatch piece⟩

/-- The expression that matches exactly the text `cs`, wherever it stands. -/
def literal (cs : List Char) : Regexp :=
  ⟨fun _ piece _ => decide (piece = cs)⟩

/-- Characters with a special meaning in Go's regular-expression syntax. -/
def isMetaChar (c : Char) : Bool :=
  "\\.+*?()|[]\x7b\x7d^$".toList.contains c

/-- Go's `regexp.Compile`. A pattern without metacharacters compiles to the
expression matching exactly that text, and never fails; every other pattern is
handed to `ext`, the library's answer for it (`none` is a compilation error).
`Compile` adds no anchors: the expression is the pattern as written. -/
def Compile (ext : String → Option Regexp) (pattern : String) : Option Regexp :=
  if pattern.toList.all (fun c => !isMetaChar c) then some (literal pattern.toList)
  else ext pattern

/-! ## Policies -/

/-- Permission values of `data.PolicyPermission`. -/
inductive PolicyPermission
  | PermissionRead
  | PermissionWrite
  | PermissionList
  | PermissionSuper
  deriving DecidableEq, Repr

open PolicyPermission

/-- The fields of `data.Policy` that the policy engine reads and writes.
`CreatedAt` is a time stamp with `0` the zero time; `IdRegex` and `PathRegex`
are pointers, `none` when `nil`. -/
structure Policy where
  Id : String
  Name : String
  SpiffeIdPattern : String
  PathPattern : String
  Permissions : List PolicyPermission
  CreatedAt : Nat
  IdRegex : Option Regexp
  PathRegex : Option Regexp

/-- The in-memory policy store `policies` (a `sync.Map` from policy id to
policy), as the list of its entries in the order `Range` visits them. -/
abbrev PolicyStore := List (String × Policy)

/-- `ListPolicies`: every stored policy, in `Range` order. -/
def ListPolicies (policies : PolicyStore) : List Policy :=
  policies.map Prod.snd

/-- Modelled from the spec: the helper `contains` of package `base` is called
by `CheckAccess` but its body is defined outside the sources embedded here; the
specification words the test as `Super ∈ permissions`, membership in the
permission list. -/
def contains (permissions : List PolicyPermission) (permission : PolicyPermission) : Bool :=
  permissions.any (fun p => decide (p = permission))

/-- Modelled from the spec: the helper `hasAllPermissions` of package `base` is
called by `CheckAccess` but its body is defined outside the sources embedded
here; the specification words the test as `wants ⊆ permissions`. -/
def hasAllPermissions (haves wants : List PolicyPermission) : Bool :=
  wants.all (fun want => contains haves want)

/-- `MatchString` through a pointer: calling it on a `nil` expression panics
(`none`). -/
def matchRegex (re : Option Regexp) (s : String) : Option Bool :=
  re.map (fun r => MatchString r s)

/-- The loop of `CheckAccess` over the listed policies. `none` is the panic of
a `MatchString` call on a `nil` expression. -/
def checkPolicies (spiffeId path : String) (wants : List PolicyPermission) :
    List Policy → Option Bool
  | [] => some false
  | policy :: rest =>
    if policy.SpiffeIdPattern = "*" ∧ policy.PathPattern = "*" then
      if hasAllPermissions policy.Permissions wants then some true
      else checkPolicies spiffeId path wants rest
    else
      match (if policy.SpiffeIdPattern ≠ "*" then matchRegex policy.IdRegex spiffeId
             else some true) with
      | none => none
      | some false => checkPolicies spiffeId path wants rest
      | some true =>
        match (if policy.PathPattern ≠ "*" then matchRegex policy.PathRegex path
               else some true) with
        | none => none
        | some false => checkPolicies spiffeId path wants rest
        | some true =>
          if contains policy.Permissions PermissionSuper then some true
          else if hasAllPermissions policy.Permissions wants then some true
          else checkPolicies spiffeId path wants rest

/-- `CheckAccess`. `IsPilot` is `auth.IsPilot`, a predicate on SPIFFE ids that
lives outside these files. -/
def CheckAccess (IsPilot : String → Bool) (policies : PolicyStore)
    (spiffeId path : String) (wants : List PolicyPermission) : Option Bool :=
  if IsPilot spiffeId then some true
  else checkPolicies spiffeId path wants (ListPolicies policies)

/-- Calls made to package `persist`, which mirrors the store to the backend. -/
inductive PersistCall
  | StorePolicy (policy : Policy)
  | DeletePolicy (id : String)

/-- State of the policy engine: the in-memory store and the calls sent to the
persistence layer so far, oldest first. -/
structure PolicyState where
  policies : PolicyStore
  persisted : List PersistCall

/-- Errors returned by the policy engine. The two `invalid…Pattern` values are
`errors.Join(ErrInvalidPolicy, …)` with the compilation error of the named
pattern. -/
inductive PolicyError
  | ErrPolicyNotFound
  | ErrPolicyExists
  | ErrInvalidPolicy
  | invalidSpiffeIdPattern
  | invalidPathPattern
  deriving DecidableEq, Repr

/-- The zero value `data.Policy{}`. -/
def Policy.zero : Policy :=
  { Id := "", Name := "", SpiffeIdPattern := "", PathPattern := "", Permissions := [],
    CreatedAt := 0, IdRegex := none, PathRegex := none }

/-- `sync.Map.Store`: the entry under `key` is replaced, or added. -/
def mapStore (m : PolicyStore) (key : String) (value : Policy) : PolicyStore :=
  m.filter (fun e => e.1 ≠ key) ++ [(key, value)]

/-- `CreatePolicy`. `ext` is the regexp library behind `Compile`, `newId` the
string of `uuid.New()` and `now` the reading of `time.Now()`. The result is the
returned pair (policy, error; `none` for `nil`) together with the state after
the call. -/
def CreatePolicy (ext : String → Option Regexp) (newId : String) (now : Nat)
    (st : PolicyState) (policy : Policy) : (Policy × Option PolicyError) × PolicyState :=
  if policy.Name = "" then ((Policy.zero, some .ErrInvalidPolicy), st)
  else if (ListPolicies st.policies).any (fun p => p.Name = policy.Name) then
    ((Policy.zero, some .ErrPolicyExists), st)
  else
    match (if policy.SpiffeIdPattern ≠ "*" then
             (Compile ext policy.SpiffeIdPattern).map some
           else some policy.IdRegex) with
    | none => ((Policy.zero, some .invalidSpiffeIdPattern), st)
    | some idRegex =>
      match (if policy.PathPattern ≠ "*" then
               (Compile ext policy.PathPattern).map some
             else some policy.PathRegex) with
      | none => ((Policy.zero, some .invalidPathPattern), st)
      | some pathRegex =>
        let created : Policy :=
          { policy with
            IdRegex := idRegex
            PathRegex := pathRegex
            Id := newId
            CreatedAt := if policy.CreatedAt = 0 then now else policy.CreatedAt }
        ((created, none),
          { policies := mapStore st.policies created.Id created
            persisted := st.persisted ++ [.StorePolicy created] })

/-! ## Readings of "a policy matches" -/

/-- Unanchored reading of a pattern: the policy carries a compiled expression
and some contiguous piece of the input, where it stands, is a match of it. -/
def containsMatch (re : Option Regexp) (s : String) : Prop :=
  ∃ r, re = some r ∧ ∃ before piece after,
    before ++ piece ++ after = s.toList ∧ r.accepts before piece after = true

/-- Anchored reading of a pattern: the policy carries a compiled expression and
the entire input, with nothing before or after it, is a match of it. -/
def entireMatch (re : Option Regexp) (s : String) : Prop :=
  ∃ r, re = some r ∧ r.accepts [] s.toList [] = true

/-- A policy matches `(id, path)` in the words of the specification: both
patterns are `"*"`, or every pattern other than `"*"` has a regex that matches
its input, where `matchesInput` says what it is for a regex to match. -/
def policyMatches (matchesInput : Option Regexp → String → Prop) (p : Policy)
    (id path : String) : Prop :=
  (p.SpiffeIdPattern = "*" ∧ p.PathPattern = "*") ∨
  ((p.SpiffeIdPattern ≠ "*" → matchesInput p.IdRegex id) ∧
   (p.PathPattern ≠ "*" → matchesInput p.PathRegex path))

/-- What the call `re.MatchString(s)` answers `true` on. -/
def matchStringTrue (re : Option Regexp) (s : String) : Prop :=
  matchRegex re s = some true

instance (re : Option Regexp) (s : String) : Decidable (matchStringTrue re s) := by
  unfold matchStringTrue; infer_instance

instance (p : Policy) (id path : String) :
    Decidable (policyMatches matchStringTrue p id path) := by
  unfold policyMatches; infer_instance

/-- The permissions of a policy grant `wants` in the words of the
specification: `Super ∈ permissions` or `wants ⊆ permissions`. -/
def permissionsGrant (p : Policy) (wants : List PolicyPermission) : Prop :=
  PermissionSuper ∈ p.Permissions ∨ ∀ w ∈ wants, w ∈ p.Permissions

/-- Every pattern of the policy other than `"*"` has its compiled expression,
as `CreatePolicy` leaves it. -/
def Policy.compiled (p : Policy) : Prop :=
  (p.SpiffeIdPattern ≠ "*" → p.IdRegex.isSome = true) ∧
  (p.PathPattern ≠ "*" → p.PathRegex.isSome = true)

instance (p : Policy) : Decidable p.compiled := by
  unfold Policy.compiled; infer_instance

/-- Every stored policy has its compiled expressions. -/
def storeCompiled (policies : PolicyStore) : Prop :=
  ∀ p ∈ ListPolicies policies, p.compiled

instance (policies : PolicyStore) : Decidable (storeCompiled policies) := by
  unfold storeCompiled; infer_instance

/-- A pattern passes in the loop of `CheckAccess`: it is `"*"`, or the call of
`MatchString` on its compiled expression answers `true`. -/
def patternPasses (pattern : String) (re : Option Regexp) (s : String) : Bool :=
  decide (pattern = "*") || (matchRegex re s == some true)

/-- What one policy contributes to the loop of `CheckAccess`: with both
patterns `"*"` only `hasAllPermissions` is asked; otherwise both patterns must
pass and then `Super` or `hasAllPermissions` decides. -/
def loopGrants (p : Policy) (id path : String) (wants : List PolicyPermission) : Bool :=
  if p.SpiffeIdPattern = "*" ∧ p.PathPattern = "*" then hasAllPermissions p.Permissions wants
  else patternPasses p.SpiffeIdPattern p.IdRegex id &&
       patternPasses p.PathPattern p.PathRegex path &&
       (contains p.Permissions PermissionSuper || hasAllPermissions p.Permissions wants)

/-! ## Restore route: app/nexus/internal/route/operator/restore.go -/

/-- The field of `reqres.RestoreRequest` that the route reads. -/
structure RestoreRequest where
  Shard : String
  deriving DecidableEq, Repr

/-- One call of the route, as far as the handler can observe it: the SPIFFE id
in the peer certificate (`none` when there is none), what `net.ReadRequestBody`
returns (`none` for `nil`), what `net.HandleRequest` returns (`none` for `nil`)
and whether `net.MarshalBody` produces a body. -/
structure RestoreCall where
  peerSpiffeId : Option String
  requestBody : Option String
  request : Option RestoreRequest
  marshalOk : Bool

/-- `data.RestorationStatus`; the counters are Go `int`s. -/
structure RestorationStatus where
  ShardsCollected : Int
  ShardsRemaining : Int
  Restored : Bool
  deriving DecidableEq, Repr

/-- Errors a route handler returns. -/
inductive RouteError
  | ErrReadFailure
  | ErrParseFailure
  | ErrMarshalFailure
  | ErrUnauthorized
  | ErrNotFound
  deriving DecidableEq, Repr

/-- `recovery.RestoreBackingStoreUsingPilotShards`, which lives outside these
files. It receives the slice `shards`: it may overwrite its elements but cannot
change the length of the package variable. It returns nothing to the route;
`run` gives the elements after the call and whether the root key was rebuilt. -/
structure PilotRestore where
  run : List String → List String × Bool
  length_run : ∀ l, (run l).1.length = l.length

/-- What one call of `RouteRestore` leaves behind: the package variable
`shards`, the returned error (`none` for `nil`), the response written by the
handler itself (status code and body), and the argument of
`RestoreBackingStoreUsingPilotShards` when it was called. -/
structure RestoreOutcome where
  shards : List String
  err : Option RouteError
  response : Option (Nat × RestorationStatus)
  reconstruction : Option (List String)

/-- `RouteRestore`, from the package variable `shards` before the call. -/
def RouteRestore (R : PilotRestore) (shards : List String) (c : RestoreCall) :
    RestoreOutcome :=
  match c.requestBody with
  | none => { shards := shards, err := some .ErrReadFailure, response := none,
              reconstruction := none }
  | some _ =>
    match c.request with
    | none => { shards := shards, err := some .ErrParseFailure, response := none,
                reconstruction := none }
    | some request =>
      let shard := request.Shard
      let appended := shards ++ [shard]
      let shards1 := if appended.length = 2 then (R.run appended).1 else appended
      let reconstruction := if appended.length = 2 then some appended else none
      if c.marshalOk then
        { shards := shards1, err := none,
          response := some (200,
            { ShardsCollected := (shards1.length : Int)
              ShardsRemaining := 2 - (shards1.length : Int)
              Restored := decide (shards1.length = 2) }),
          reconstruction := reconstruction }
      else
        { shards := shards1, err := some .ErrMarshalFailure, response := none,
          reconstruction := reconstruction }

/-- A sequence of calls of `RouteRestore`, each starting from the `shards` the
previous one left; the outcomes are listed in call order. -/
def restoreSession (R : PilotRestore) : List String → List RestoreCall → List RestoreOutcome
  | _, [] => []
  | shards, c :: cs =>
    (RouteRestore R shards c) :: restoreSession R (RouteRestore R shards c).shards cs

/-- A well-formed restore call carrying `shard`, from a peer with id `peer`. -/
def restoreCall (peer : Option String) (shard : String) : RestoreCall :=
  { peerSpiffeId := peer, requestBody := some shard, request := some ⟨shard⟩,
    marshalOk := true }

/-! ## Scalars of the group P-256 -/

/-- Order of the group P-256, the modulus of its scalar field. -/
def P256.order : Nat :=
  0xffffffff00000000ffffffffffffffffbce6faada7179e84f3b9cac2fc632551

/-- A `group.Scalar` of `group.P256`: an integer modulo the group order. -/
abbrev Scalar := ZMod P256.order

/-- `secretsharing.Share`: the evaluation point and the value there. -/
structure Share where
  ID : Scalar
  Value : Scalar
  deriving DecidableEq

/-- A byte string read as a big-endian number. -/
def beToNat (bs : List Nat) : Nat :=
  bs.foldl (fun acc b => acc * 256 + b) 0

/-- The `len` low bytes of `v`, most significant first. -/
def natToBE : Nat → Nat → List Nat
  | 0, _ => []
  | len + 1, v => natToBE len (v / 256) ++ [v % 256]

/-- Modelled from the spec: `MarshalBinary` of a P-256 scalar belongs to the
group library, not to these files; the specification has a scalar "serialized
big-endian to 32 bytes". -/
def MarshalBinary (s : Scalar) : List Nat :=
  natToBE 32 s.val

/-- Modelled from the spec: the root key "interpreted as a scalar", the
big-endian number of its bytes in the scalar field. -/
def rootScalar (rk : List Nat) : Scalar :=
  ((beToNat rk : Nat) : Scalar)

/-- A 32-byte root key interpretable as a P-256 scalar: 32 bytes whose
big-endian number is below the group order. -/
def interpretable (rk : List Nat) : Prop :=
  rk.length = 32 ∧ (∀ b ∈ rk, b < 256) ∧ beToNat rk < P256.order

instance (rk : List Nat) : Decidable (interpretable rk) := by
  unfold interpretable; infer_instance

/-- `group.P256.NewScalar().SetUint64(v)`. -/
def SetUint64 (v : Nat) : Scalar :=
  ((v % 2 ^ 64 : Nat) : Scalar)

/-- The conversion `uint64(kid)` of a Go `int`. -/
def uint64 (kid : Int) : Nat :=
  (kid % 2 ^ 64).toNat

/-- Value of a run of decimal digits; `none` when the run is empty or holds
another character. -/
def digitsValue (cs : List Char) : Option Nat :=
  if cs.isEmpty then none
  else cs.foldl (fun acc c => acc.bind fun n =>
      if c.isDigit then some (10 * n + (c.toNat - '0'.toNat)) else none) (some 0)

/-- Go's `strconv.Atoi` for a 64-bit `int`: an optional sign, then decimal
digits; `none` on a syntax error or a value out of range. -/
def Atoi (s : String) : Option Int :=
  let signed : Bool × List Char :=
    match s.toList with
    | '-' :: ds => (true, ds)
    | '+' :: ds => (false, ds)
    | ds => (false, ds)
  match digitsValue signed.2 with
  | none => none
  | some n =>
    let v : Int := if signed.1 then -(n : Int) else (n : Int)
    if -(2 ^ 63 : Int) ≤ v ∧ v < 2 ^ 63 then some v else none

/-- The number `strconv.Atoi` returns next to its error, for a 64-bit `int`:
the value of the text when it parses, the nearest bound of `int` when the
digits give a number out of range, and 0 on a syntax error. -/
def AtoiValue (s : String) : Int :=
  let signed : Bool × List Char :=
    match s.toList with
    | '-' :: ds => (true, ds)
    | '+' :: ds => (false, ds)
    | ds => (false, ds)
  match digitsValue signed.2 with
  | none => 0
  | some n =>
    let v : Int := if signed.1 then -(n : Int) else (n : Int)
    if v < -(2 ^ 63 : Int) then -(2 ^ 63 : Int)
    else if (2 ^ 63 : Int) ≤ v then 2 ^ 63 - 1
    else v

/-! ## Shamir engine, from the specification -/

/-- Value at `x` of the polynomial with coefficients `coeffs`, constant term
first. -/
def evalPoly (coeffs : List Scalar) (x : Scalar) : Scalar :=
  coeffs.foldr (fun c acc => c + x * acc) 0

/-- Modelled from the spec: `split(root, t, n)`, whose code (`computeShares`
and the secret-sharing library) is defined outside the sources embedded here.
It "builds a degree-`t-1` polynomial over the P-256 scalar field whose constant
term is `root` interpreted as a scalar, evaluates it at ids `1..n`"; the other
coefficients come from `sample`, the sampler seeded from the root key. -/
def split (sample : List Nat → Nat → Scalar) (root : List Nat) (t n : Nat) : List Share :=
  let coeffs := rootScalar root :: (List.range (t - 1)).map (fun j => sample root j)
  (List.range n).map fun i =>
    { ID := ((i + 1 : Nat) : Scalar), Value := evalPoly coeffs ((i + 1 : Nat) : Scalar) }

/-- Lagrange interpolation at 0 through the points given by the shares. -/
def lagrangeAtZero (shares : List Share) : Scalar :=
  (shares.map fun s =>
    s.Value * ((shares.filter fun r => r.ID ≠ s.ID).map fun r => r.ID * (r.ID - s.ID)⁻¹).prod).sum

/-- Modelled from the spec: the scalar rebuilt by `reconstruct`: "Lagrange
interpolation at 0", which "fails if fewer than `t` distinct `id`s are
provided, or if any `id` is zero". The argument is a set keyed by id; a list
with a repeated id is not one and is refused. -/
def recover (t : Nat) (shares : List Share) : Option Scalar :=
  if shares.length < t ∨ ¬ (shares.map fun s => s.ID).Nodup ∨
      (0 : Scalar) ∈ shares.map (fun s => s.ID)
  then none
  else some (lagrangeAtZero shares)

/-- Modelled from the spec: `reconstruct(shares)`, the rebuilt scalar
"serialized big-endian to 32 bytes". -/
def reconstruct (t : Nat) (shares : List Share) : Option (List Nat) :=
  (recover t shares).map MarshalBinary

/-- Modelled from the spec: `computeShares`, whose body is defined outside the
sources embedded here: the root secret as a scalar, and the `split` of the root
key held in state. -/
def computeShares (sample : List Nat → Nat → Scalar) (t n : Nat) (rootKey : List Nat) :
    Scalar × List Share :=
  (rootScalar rootKey, split sample rootKey t n)

/-- Modelled from the spec: `sanityCheck`, whose body is defined outside the
sources embedded here: "reconstruction of the generated shares equals the
input `root`; if not, panic". `false` is the panic. -/
def sanityCheck (t : Nat) (secret : Scalar) (shares : List Share) : Bool :=
  recover t shares == some secret

/-- Modelled from the spec: `state.RootKeyZero`, whose body is defined outside
the sources embedded here: the root key is "the zero vector". -/
def RootKeyZero (rootKey : List Nat) : Bool :=
  rootKey.all (fun b => b == 0)

/-! ## Share distribution: app/nexus/internal/initialization/recovery/update.go -/

/-- `reqres.ShardContributionRequest`; `Shard` is a `*[32]byte`. -/
structure ShardContributionRequest where
  KeeperId : String
  Shard : List Nat
  deriving DecidableEq, Repr

/-- What `update.go` calls outside its own file. `joinPath` is `url.JoinPath`
with the contribute path (`none` on error), `createClient` tells whether
`CreateMtlsClientWithPredicate` succeeds while the named keeper is processed,
`computeShares` maps the root key held in state to the root secret and its
shares, `sanityCheck` is `false` when the check ends the process,
`marshalBinary` is `Value.MarshalBinary()` (`none` on error), `jsonMarshal` is
`json.Marshal` (`none` on error) and `post` tells whether `net.Post` to the
given URL with the given body succeeds. -/
structure Recovery where
  joinPath : String → Option String
  createClient : String → Bool
  computeShares : List Nat → Scalar × List Share
  sanityCheck : Scalar → List Share → Bool
  marshalBinary : Scalar → Option (List Nat)
  jsonMarshal : ShardContributionRequest → Option (List Nat)
  post : String → List Nat → Bool

/-- `mustUpdateRecoveryInfo`: the root key in state after `SetRootKey(rk)`, and
the returned shares; `none` when `sanityCheck` ends the process instead. -/
def mustUpdateRecoveryInfo (W : Recovery) (rk : List Nat) : List Nat × Option (List Share) :=
  let rootKey := rk
  let computed := W.computeShares rootKey
  if W.sanityCheck computed.1 computed.2 then (rootKey, some computed.2)
  else (rootKey, none)

/-- How the loop body of `sendShardsToKeepers` ends for one keeper. -/
inductive KeeperExit
  | joinPathFailed
  | clientFailed
  | rootKeyZero
  | sanityCheckFailed
  | nilShare
  | shareNotFound
  | marshalFailed
  | badLength
  | jsonFailed
  | posted (ok : Bool)
  deriving DecidableEq, Repr

/-- The two exits that end the whole call: the process ends in `sanityCheck`,
or `share.ID.IsZero()` is called on the unset share, whose `ID` is `nil`. -/
def KeeperExit.aborts : KeeperExit → Bool
  | .sanityCheckFailed => true
  | .nilShare => true
  | _ => false

/-- A request handed to `net.Post`: the keeper being processed, the URL, the
request as it was marshalled and the marshalled body. -/
structure PostEvent where
  keeperId : String
  url : String
  request : ShardContributionRequest
  body : List Nat
  deriving DecidableEq, Repr

/-- `copy(shard[:], contribution)` into a fresh `[32]byte`. -/
def copy32 (contribution : List Nat) : List Nat :=
  contribution.take 32 ++ List.replicate (32 - contribution.length) 0

/-- The search for the keeper's share: the first share whose `ID` equals the
scalar of the keeper id; `none` is the unset `share` (no share has that `ID`,
or `Atoi` fails on every round). -/
def findKeeperShare (keeperId : String) (rootShares : List Share) : Option Share :=
  match Atoi keeperId with
  | none => none
  | some kid => rootShares.find? (fun sr => sr.ID == SetUint64 (uint64 kid))

/-- One round of the loop of `sendShardsToKeepers`, for the keeper
`(keeperId, keeperApiRoot)`, with `rootKey` the root key held in state. -/
def sendShardToKeeper (W : Recovery) (rootKey : List Nat) (keeperId keeperApiRoot : String) :
    KeeperExit × Option PostEvent :=
  match W.joinPath keeperApiRoot with
  | none => (.joinPathFailed, none)
  | some u =>
    if W.createClient keeperId = false then (.clientFailed, none)
    else if RootKeyZero rootKey then (.rootKeyZero, none)
    else
      let computed := W.computeShares rootKey
      if W.sanityCheck computed.1 computed.2 = false then (.sanityCheckFailed, none)
      else
        match findKeeperShare keeperId computed.2 with
        | none => (.nilShare, none)
        | some share =>
          if share.ID = 0 then (.shareNotFound, none)
          else
            match W.marshalBinary share.Value with
            | none => (.marshalFailed, none)
            | some contribution =>
              if contribution.length ≠ 32 then (.badLength, none)
              else
                let scr : ShardContributionRequest :=
                  { KeeperId := "", Shard := copy32 contribution }
                match W.jsonMarshal scr with
                | none => (.jsonFailed, none)
                | some md =>
                  (.posted (W.post u md),
                    some { keeperId := keeperId, url := u, request := scr, body := md })

/-- What a call of `sendShardsToKeepers` did: the requests posted, in order,
and whether the call was cut short. -/
structure SendResult where
  posts : List PostEvent
  aborted : Bool

/-- `sendShardsToKeepers` over the entries of the `keepers` map in the order
the `range` visits them; `rootKeyAt` is the root key held in state while the
named keeper is processed. -/
def sendShardsToKeepers (W : Recovery) (rootKeyAt : String → List Nat) :
    List (String × String) → SendResult
  | [] => { posts := [], aborted := false }
  | keeper :: rest =>
    let step := sendShardToKeeper W (rootKeyAt keeper.1) keeper.1 keeper.2
    if step.1.aborts then { posts := [], aborted := true }
    else
      let after := sendShardsToKeepers W rootKeyAt rest
      { posts := step.2.toList ++ after.posts, aborted := after.aborted }

/-- The recovery environment whose share computation, check and serialization
are the Shamir engine of the specification with threshold `t` and `n` shares;
everything else is taken from `net`. -/
def shamirRecovery (net : Recovery) (sample : List Nat → Nat → Scalar) (t n : Nat) : Recovery :=
  { net with
    computeShares := computeShares sample t n
    sanityCheck := sanityCheck t
    marshalBinary := fun s => some (MarshalBinary s) }

/-! ## Arithmetic used to certify the group order -/

/-- Modular power by repeated squaring, `a ^ e % m` when `e < 2 ^ fuel`. -/
def powMod (m : Nat) : Nat → Nat → Nat → Nat
  | 0, _, _ => 1 % m
  | fuel + 1, a, e =>
    if e = 0 then 1 % m
    else if e % 2 = 1 then a * powMod m fuel (a * a % m) (e / 2) % m
    else powMod m fuel (a * a % m) (e / 2)

/-- Lucas test of `p` with base `a`, given `p - 1` as a product of powers. -/
def lucasCheck (p a : Nat) (fs : List (Nat × Nat)) : Bool :=
  decide (1 < p) && decide (p - 1 < 2 ^ 256) &&
  decide ((fs.map fun f => f.1 ^ f.2).prod = p - 1) &&
  decide (powMod p 256 a (p - 1) = 1) &&
  fs.all (fun f => decide (powMod p 256 a ((p - 1) / f.1) ≠ 1))

/-! ## Example values -/

/-- A policy with both patterns `"*"` and the single permission `Super`. -/
def superEverywhere : Policy :=
  { Id := "id-0", Name := "admin", SpiffeIdPattern := "*", PathPattern := "*",
    Permissions := [PermissionSuper], CreatedAt := 1, IdRegex := none, PathRegex := none }

/-- The policy handed to `CreatePolicy` in the example of the path pattern
`secrets`: any id, read permission. -/
def secretsInput : Policy :=
  { Id := "", Name := "p", SpiffeIdPattern := "*", PathPattern := "secrets",
    Permissions := [PermissionRead], CreatedAt := 0, IdRegex := none, PathRegex := none }

/-- The store after `CreatePolicy(secretsInput)` on an empty store. -/
def secretsStore : PolicyStore :=
  (CreatePolicy (fun _ => none) "id-1" 1 { policies := [], persisted := [] } secretsInput).2.policies

/-- A root key: 31 zero bytes, then 42. -/
def demoRootKey : List Nat :=
  List.replicate 31 0 ++ [42]

/-- A sampler that is a function of the root key alone. -/
def demoSample : List Nat → Nat → Scalar :=
  fun rk j => ((beToNat rk + 7 * (j + 1) : Nat) : Scalar)

/-- A recovery environment in which every outside call succeeds: shares of
threshold 2 for 3 keepers, 32-byte big-endian serialization, and a body that
is the shard itself. -/
def demoRecovery : Recovery :=
  { joinPath := fun root => some (root ++ "/v1/store/contribute")
    createClient := fun _ => true
    computeShares := computeShares demoSample 2 3
    sanityCheck := fun _ _ => true
    marshalBinary := fun s => some (MarshalBinary s)
    jsonMarshal := fun scr => some scr.Shard
    post := fun _ _ => true }

/-- Three keepers, named by the ids of their shares. -/
def demoKeepers : List (String × String) :=
  [("1", "https://keeper1"), ("2", "https://keeper2"), ("3", "https://keeper3")]

/-- The request posted to keeper 2 in the example. -/
def demoPost : PostEvent :=
  { keeperId := "2", url := "https://keeper2/v1/store/contribute",
    request := { KeeperId := "", Shard := List.replicate 31 0 ++ [140] },
    body := List.replicate 31 0 ++ [140] }

/-! ## Policy store operations: state/base/policy.go, state/persist/policy.go -/

/-- `sync.Map.Load`: the value stored under `key`, `none` when absent. -/
def mapLoad (m : PolicyStore) (key : String) : Option Policy :=
  (m.find? (fun e => e.1 = key)).map Prod.snd

/-- `sync.Map.Delete`: the entry under `key` is removed. -/
def mapDelete (m : PolicyStore) (key : String) : PolicyStore :=
  m.filter (fun e => e.1 ≠ key)

/-- The persistence backend as `persist.ReadPolicy` sees it: what
`doRetry(be.LoadPolicy(ctx, id))` gives for an id - `none` for an error after
the retries, `some ptr` for the returned pointer (`ptr` is `none` for `nil`).
The backend is outside these files; any behaviour is a value of this type. -/
structure Backend where
  LoadPolicy : String → Option (Option Policy)

/-- `persist.ReadPolicy`, with `be` the result of `Backend()` (`none` for
`nil`). -/
def ReadPolicy (be : Option Backend) (id : String) : Option Policy :=
  match be with
  | none => none
  | some be =>
    if id = "" then none
    else
      match be.LoadPolicy id with
      | none => none
      | some cachedPolicy => cachedPolicy

/-- `GetPolicy`, with `be` the backend at the time of the call: the returned
pair (policy, error) and the state after the call. -/
def GetPolicy (be : Option Backend) (st : PolicyState) (id : String) :
    (Policy × Option PolicyError) × PolicyState :=
  match mapLoad st.policies id with
  | some value => ((value, none), st)
  | none =>
    match ReadPolicy be id with
    | none => ((Policy.zero, some .ErrPolicyNotFound), st)
    | some cachedPolicy =>
      ((cachedPolicy, none), { st with policies := mapStore st.policies id cachedPolicy })

/-- `DeletePolicy`: the returned error and the state after the call. The call
`persist.DeletePolicy(id)` returns nothing; whether the backend obeyed is not
visible here. -/
def DeletePolicy (st : PolicyState) (id : String) : Option PolicyError × PolicyState :=
  match mapLoad st.policies id with
  | none => (some .ErrPolicyNotFound, st)
  | some _ =>
    (none, { policies := mapDelete st.policies id
             persisted := st.persisted ++ [.DeletePolicy id] })

/-- `ListPoliciesByPath`. -/
def ListPoliciesByPath (policies : PolicyStore) (pathPattern : String) : List Policy :=
  (ListPolicies policies).filter (fun policy => policy.PathPattern = pathPattern)

/-- `ListPoliciesBySpiffeId`. -/
def ListPoliciesBySpiffeId (policies : PolicyStore) (spiffeIdPattern : String) : List Policy :=
  (ListPolicies policies).filter (fun policy => policy.SpiffeIdPattern = spiffeIdPattern)

/-- `errors.Is(err, ErrInvalidPolicy)`: the error is `ErrInvalidPolicy` or a
join that holds it. -/
def PolicyError.wrapsInvalidPolicy : PolicyError → Bool
  | .ErrInvalidPolicy => true
  | .invalidSpiffeIdPattern => true
  | .invalidPathPattern => true
  | _ => false

/-- One call into the policy engine. `create` carries the fresh uuid and the
clock reading, `get` the backend at the time of the call. -/
inductive PolicyOp
  | create (newId : String) (now : Nat) (policy : Policy)
  | get (be : Option Backend) (id : String)
  | delete (id : String)
  | list
  | listByPath (pathPattern : String)
  | listBySpiffeId (spiffeIdPattern : String)

/-- The state after one call. The list operations only read. -/
def PolicyOp.apply (ext : String → Option Regexp) (st : PolicyState) : PolicyOp → PolicyState
  | .create newId now policy => (CreatePolicy ext newId now st policy).2
  | .get be id => (GetPolicy be st id).2
  | .delete id => (DeletePolicy st id).2
  | .list => st
  | .listByPath _ => st
  | .listBySpiffeId _ => st

/-- The state after a sequence of calls, first call first. -/
def runPolicyOps (ext : String → Option Regexp) (st : PolicyState) (ops : List PolicyOp) :
    PolicyState :=
  ops.foldl (PolicyOp.apply ext) st

/-- No two stored policies have the same `Name`. -/
def namesUnique (policies : PolicyStore) : Prop :=
  ((ListPolicies policies).map (fun p => p.Name)).Nodup

instance (policies : PolicyStore) : Decidable (namesUnique policies) := by
  unfold namesUnique; infer_instance

/-- A call that cannot take the fall-back of `GetPolicy` with a policy from the
backend: every `get` is made while `persist.ReadPolicy` answers `nil`. -/
def PolicyOp.noBackendHit : PolicyOp → Prop
  | .get be id => ReadPolicy be id = none
  | _ => True

/-! ## Request guards: route/secret/delete_intercept.go, route/acl/policy/list_intercept.go -/

/-- The `Err` field of a response body (`data.ErrorCode`). -/
inductive ErrorCode
  | empty
  | ErrBadInput
  | ErrUnauthorized
  | ErrNotFound
  deriving DecidableEq, Repr

/-- What a guard returns as its `error`: the error of `spiffe.IdFromRequest`,
the error of `validation.ValidatePath`, or `errors.ErrUnauthorized`. -/
inductive GuardError
  | idFromRequest
  | validatePath
  | ErrUnauthorized
  deriving DecidableEq, Repr

/-- What a guard sees of a request and of the libraries it calls:
`idFromRequest` is the id `spiffe.IdFromRequest(r)` extracts (`none` on
error), `ValidateSpiffeId` and `ValidatePath` tell whether the validators of
package `validation` return `nil`. -/
structure GuardCall where
  idFromRequest : Option String
  ValidateSpiffeId : String → Bool
  ValidatePath : String → Bool

/-- What a guard did: the calls of `net.Respond` in order (status code and
`Err` of the body), and the returned error (`none` for `nil`). -/
structure GuardOutcome where
  responses : List (Nat × ErrorCode)
  err : Option GuardError
  deriving DecidableEq, Repr

/-- `guardDeleteSecretRequest` for a request with path `path`. The result is
`none` when `CheckAccess` panics. -/
def guardDeleteSecretRequest (IsPilot : String → Bool) (policies : PolicyStore)
    (c : GuardCall) (path : String) : Option GuardOutcome :=
  match c.idFromRequest with
  | none => some { responses := [(401, .ErrUnauthorized)], err := some .idFromRequest }
  | some spiffeid =>
    let written : List (Nat × ErrorCode) :=
      if c.ValidateSpiffeId spiffeid = false then [(401, .ErrUnauthorized)] else []
    if c.ValidatePath path = false then
      some { responses := written ++ [(400, .ErrBadInput)], err := some .validatePath }
    else
      match CheckAccess IsPilot policies spiffeid path [PermissionWrite] with
      | none => none
      | some allowed =>
        if allowed = false then
          some { responses := written ++ [(401, .ErrUnauthorized)],
                 err := some .ErrUnauthorized }
        else some { responses := written, err := none }

/-- `guardListPolicyRequest`. The result is `none` when `CheckAccess`
panics. -/
def guardListPolicyRequest (IsPilot : String → Bool) (policies : PolicyStore)
    (c : GuardCall) : Option GuardOutcome :=
  match c.idFromRequest with
  | none => some { responses := [(401, .ErrUnauthorized)], err := some .ErrUnauthorized }
  | some spiffeid =>
    if c.ValidateSpiffeId spiffeid = false then
      some { responses := [(401, .ErrUnauthorized)], err := some .ErrUnauthorized }
    else
      match CheckAccess IsPilot policies spiffeid "spike/system/acl" [PermissionList] with
      | none => none
      | some allowed =>
        if allowed = false then
          some { responses := [(401, .ErrUnauthorized)], err := some .ErrUnauthorized }
        else some { responses := [], err := none }

/-- The policy of `secretsStore`, as `CreatePolicy` returned it. -/
def secretsPolicy : Policy :=
  { secretsInput with
    Id := "id-1", CreatedAt := 1, PathRegex := some (literal "secrets".toList) }

/-- A backend that holds exactly the policy `p`, under its `Id`. -/
def backendHolding (p : Policy) : Backend :=
  { LoadPolicy := fun id => if id = p.Id then some (some p) else some none }

/-- The empty policy engine: nothing stored, nothing sent to persistence. -/
def emptyPolicyState : PolicyState :=
  { policies := [], persisted := [] }

/-- Create the policy named `p`, delete it while the backend fails to delete
its copy, create a policy named `p` again, then get the first one by its id:
the backend still holds it. -/
def resurrectingOps : List PolicyOp :=
  [ .create "id-1" 1 secretsInput,
    .delete "id-1",
    .create "id-2" 2 secretsInput,
    .get (some (backendHolding secretsPolicy)) "id-1" ]

/-- A policy with both patterns `"*"` and the single permission `Write`. -/
def writeEverywhere : Policy :=
  { Id := "id-w", Name := "writers", SpiffeIdPattern := "*", PathPattern := "*",
    Permissions := [PermissionWrite], CreatedAt := 1, IdRegex := none, PathRegex := none }

/-- A request whose peer id is extracted but refused by a validator that
accepts no underscore; the path validator refuses the empty path. -/
def underscoreCall : GuardCall :=
  { idFromRequest := some "spiffe://trust_domain/app"
    ValidateSpiffeId := fun id => id.toList.all (fun ch => ch ≠ '_')
    ValidatePath := fun path => path ≠ "" }

/-! ## Keeper: app/keeper/internal/route/store/shard.go -/

/-- One call of the keeper route, as far as the handler can observe it: what
`net.ReadRequestBody` returns and whether `net.HandleRequest` returns a request
(`reqres.ShardRequest` has no field the handler reads). -/
structure ShardCall where
  requestBody : Option String
  request : Option Unit

/-- `reqres.ShardResponse`; `Shard` is a `[32]byte`. -/
structure ShardResponse where
  Shard : List Nat
  Err : ErrorCode
  deriving DecidableEq, Repr

/-- What one call of `RouteShard` leaves behind: the returned error, the
response handed to `net.Respond` (status code and the body before it is
marshalled) and the buffer `myShard` when the function has returned. -/
structure ShardOutcome where
  err : Option RouteError
  response : Option (Nat × ShardResponse)
  myShard : List Nat
  deriving DecidableEq, Repr

/-- `RouteShard`, with `myShard` the 32 bytes `state.Shard()` points to. -/
def RouteShard (c : ShardCall) (myShard : List Nat) : ShardOutcome :=
  match c.requestBody with
  | none => { err := some .ErrReadFailure, response := none, myShard := myShard }
  | some _ =>
    match c.request with
    | none => { err := some .ErrParseFailure, response := none, myShard := myShard }
    | some _ =>
      let zeroed := myShard.all (fun b => b == 0)
      if zeroed then
        { err := some .ErrNotFound,
          response := some (404, { Shard := List.replicate 32 0, Err := .ErrNotFound }),
          myShard := myShard.map (fun _ => 0) }
      else
        { err := none,
          response := some (200, { Shard := myShard, Err := .empty }),
          myShard := myShard.map (fun _ => 0) }

/-! ## Router: app/nexus/internal/route/base/route.go -/

/-- The action and URL constants of package `net` that `Route` compares
with; their values are declared outside these files. -/
structure ApiConstants where
  ActionNexusDefault : String
  ActionNexusGet : String
  ActionNexusDelete : String
  ActionNexusUndelete : String
  ActionNexusList : String
  SpikeNexusUrlSecrets : String
  SpikeNexusUrlPolicy : String
  SpikeNexusUrlSecretsMetadata : String
  SpikeNexusUrlOperatorRestore : String
  SpikeNexusUrlOperatorRecover : String

/-- The handlers `Route` can select. -/
inductive Handler
  | RoutePutSecret
  | RouteGetSecret
  | RouteDeleteSecret
  | RouteUndeleteSecret
  | RouteListPaths
  | RoutePutPolicy
  | RouteGetPolicy
  | RouteDeletePolicy
  | RouteListPolicies
  | RouteGetSecretMetadata
  | RouteRestore
  | RouteRecover
  | Fallback
  deriving DecidableEq, Repr

/-- The function literal that `Route` hands to `net.RouteFactory`: the `switch`
over `(a, p)`, cases tried in the order of the source. -/
def routeHandler (K : ApiConstants) (a p : String) : Handler :=
  if a = K.ActionNexusDefault ∧ p = K.SpikeNexusUrlSecrets then .RoutePutSecret
  else if a = K.ActionNexusGet ∧ p = K.SpikeNexusUrlSecrets then .RouteGetSecret
  else if a = K.ActionNexusDelete ∧ p = K.SpikeNexusUrlSecrets then .RouteDeleteSecret
  else if a = K.ActionNexusUndelete ∧ p = K.SpikeNexusUrlSecrets then .RouteUndeleteSecret
  else if a = K.ActionNexusList ∧ p = K.SpikeNexusUrlSecrets then .RouteListPaths
  else if a = K.ActionNexusDefault ∧ p = K.SpikeNexusUrlPolicy then .RoutePutPolicy
  else if a = K.ActionNexusGet ∧ p = K.SpikeNexusUrlPolicy then .RouteGetPolicy
  else if a = K.ActionNexusDelete ∧ p = K.SpikeNexusUrlPolicy then .RouteDeletePolicy
  else if a = K.ActionNexusList ∧ p = K.SpikeNexusUrlPolicy then .RouteListPolicies
  else if a = K.ActionNexusGet ∧ p = K.SpikeNexusUrlSecretsMetadata then
    .RouteGetSecretMetadata
  else if a = K.ActionNexusDefault ∧ p = K.SpikeNexusUrlOperatorRestore then .RouteRestore
  else if a = K.ActionNexusDefault ∧ p = K.SpikeNexusUrlOperatorRecover then .RouteRecover
  else .Fallback

/-- The twelve cases of the `switch`, in the order of the source. -/
def routeCases (K : ApiConstants) : List ((String × String) × Handler) :=
  [ ((K.ActionNexusDefault, K.SpikeNexusUrlSecrets), .RoutePutSecret),
    ((K.ActionNexusGet, K.SpikeNexusUrlSecrets), .RouteGetSecret),
    ((K.ActionNexusDelete, K.SpikeNexusUrlSecrets), .RouteDeleteSecret),
    ((K.ActionNexusUndelete, K.SpikeNexusUrlSecrets), .RouteUndeleteSecret),
    ((K.ActionNexusList, K.SpikeNexusUrlSecrets), .RouteListPaths),
    ((K.ActionNexusDefault, K.SpikeNexusUrlPolicy), .RoutePutPolicy),
    ((K.ActionNexusGet, K.SpikeNexusUrlPolicy), .RouteGetPolicy),
    ((K.ActionNexusDelete, K.SpikeNexusUrlPolicy), .RouteDeletePolicy),
    ((K.ActionNexusList, K.SpikeNexusUrlPolicy), .RouteListPolicies),
    ((K.ActionNexusGet, K.SpikeNexusUrlSecretsMetadata), .RouteGetSecretMetadata),
    ((K.ActionNexusDefault, K.SpikeNexusUrlOperatorRestore), .RouteRestore),
    ((K.ActionNexusDefault, K.SpikeNexusUrlOperatorRecover), .RouteRecover) ]

/-- A `switch` over `(a, p)` with the given cases in the given order: the
handler of the first case that matches, `Fallback` when none does. -/
def switchOn (cases : List ((String × String) × Handler)) (a p : String) : Handler :=
  match cases.find? (fun e => e.1 = (a, p)) with
  | some e => e.2
  | none => .Fallback

/-- The action constants are pairwise distinct, and so are the URL
constants. -/
def ApiConstants.distinct (K : ApiConstants) : Prop :=
  [K.ActionNexusDefault, K.ActionNexusGet, K.ActionNexusDelete, K.ActionNexusUndelete,
    K.ActionNexusList].Nodup ∧
  [K.SpikeNexusUrlSecrets, K.SpikeNexusUrlPolicy, K.SpikeNexusUrlSecretsMetadata,
    K.SpikeNexusUrlOperatorRestore, K.SpikeNexusUrlOperatorRecover].Nodup

instance (K : ApiConstants) : Decidable K.distinct := by
  unfold ApiConstants.distinct; infer_instance

/-- Modelled from the spec: values for the constants of package `net`, which
are declared outside the sources embedded here, after the table of section 6:
the query parameter `action` is empty, `get`, `delete`, `undelete` or `list`,
and the paths are those of the table. -/
def specConstants : ApiConstants :=
  { ActionNexusDefault := ""
    ActionNexusGet := "get"
    ActionNexusDelete := "delete"
    ActionNexusUndelete := "undelete"
    ActionNexusList := "list"
    SpikeNexusUrlSecrets := "/v1/store/secrets"
    SpikeNexusUrlPolicy := "/v1/store/policies"
    SpikeNexusUrlSecretsMetadata := "/v1/store/secrets/metadata"
    SpikeNexusUrlOperatorRestore := "/v1/operator/restore"
    SpikeNexusUrlOperatorRecover := "/v1/operator/recover" }

/-! ## Buffers of a distribution round: recovery/update.go -/

/-- The memory that holds key material during one round of the loop of
`sendShardsToKeepers`, as it stands when the round ends: the scalar
`rootSecret`, the slice `rootShares`, the `Value` of the selected `share`
(`none` while no share is selected), the bytes of `contribution`, the buffer
`scr.Shard` and the marshalled request `md`. A buffer that was never allocated
is empty. -/
structure RoundBuffers where
  rootSecret : Scalar
  rootShares : List Share
  shareValue : Option Scalar
  contribution : List Nat
  shard : List Nat
  md : List Nat
  deriving DecidableEq

/-- `rootShares[i].Value.SetUint64(0)` for every `i`. -/
def zeroShares (rootShares : List Share) : List Share :=
  rootShares.map (fun s => { s with Value := 0 })

/-- `mem.ClearBytes` and `mem.ClearRawBytes`: every byte becomes zero. -/
def clearBytes (bs : List Nat) : List Nat :=
  bs.map (fun _ => 0)

/-- Every buffer of the round is zero. -/
def RoundBuffers.zeroed (b : RoundBuffers) : Prop :=
  b.rootSecret = 0 ∧ (∀ s ∈ b.rootShares, s.Value = 0) ∧ (∀ v ∈ b.shareValue, v = 0) ∧
  (∀ x ∈ b.contribution, x = 0) ∧ (∀ x ∈ b.shard, x = 0) ∧ (∀ x ∈ b.md, x = 0)

/-- One round of the loop of `sendShardsToKeepers` again, this time keeping
track of the buffers: how the round ends and what the buffers hold then. The
result is `none` for a round that ends before `computeShares` is called. -/
def sendShardToKeeperBuffers (W : Recovery) (rootKey : List Nat)
    (keeperId keeperApiRoot : String) : Option (KeeperExit × RoundBuffers) :=
  match W.joinPath keeperApiRoot with
  | none => none
  | some u =>
    if W.createClient keeperId = false then none
    else if RootKeyZero rootKey then none
    else
      let computed := W.computeShares rootKey
      let fresh : RoundBuffers :=
        { rootSecret := computed.1, rootShares := computed.2, shareValue := none,
          contribution := [], shard := [], md := [] }
      if W.sanityCheck computed.1 computed.2 = false then some (.sanityCheckFailed, fresh)
      else
        match findKeeperShare keeperId computed.2 with
        | none => some (.nilShare, fresh)
        | some share =>
          if share.ID = 0 then
            some (.shareNotFound, { fresh with shareValue := some share.Value })
          else
            let wiped : RoundBuffers :=
              { rootSecret := 0, rootShares := zeroShares computed.2, shareValue := some 0,
                contribution := [], shard := [], md := [] }
            match W.marshalBinary share.Value with
            | none => some (.marshalFailed, wiped)
            | some contribution =>
              if contribution.length ≠ 32 then
                some (.badLength, { wiped with contribution := clearBytes contribution })
              else
                let scr : ShardContributionRequest :=
                  { KeeperId := "", Shard := copy32 contribution }
                match W.jsonMarshal scr with
                | none =>
                  some (.jsonFailed,
                    { wiped with
                      contribution := clearBytes contribution
                      shard := clearBytes scr.Shard })
                | some md =>
                  some (.posted (W.post u md),
                    { wiped with
                      contribution := clearBytes contribution
                      shard := clearBytes scr.Shard
                      md := clearBytes md })

/-- A recovery environment whose share computation hands out a share with
`ID` zero; everything else succeeds. -/
def zeroIdRecovery : Recovery :=
  { demoRecovery with computeShares := fun _ => (42, [{ ID := 0, Value := 7 }]) }

/-! ## Text and bytes: Go's `fmt`, `strings`, `strconv`, `encoding/base64`, `path/filepath` -/

/-- The verb `%d` of `fmt.Sprintf` on an `int`: the decimal digits, after a
minus sign for a negative number. -/
def formatInt (i : Int) : String :=
  if i < 0 then ("-".toList ++ Nat.toDigits 10 i.natAbs).asString
  else (Nat.toDigits 10 i.toNat).asString

/-- `strings.SplitN(s, sep, n)` for a separator of one character and `n ≥ 0`,
on the characters of `s`: at most `n` pieces, the last one the unsplit
remainder; `n = 0` gives no piece at all. -/
def splitN (sep : Char) : Nat → List Char → List (List Char)
  | 0, _ => []
  | 1, s => [s]
  | _ + 2, [] => [[]]
  | n + 2, c :: cs =>
    if c = sep then [] :: splitN sep (n + 1) cs
    else
      match splitN sep (n + 2) cs with
      | [] => [[c]]
      | piece :: pieces => (c :: piece) :: pieces

/-- `strings.SplitN(s, sep, n)` for a separator of one character. -/
def SplitN (s : String) (sep : Char) (n : Nat) : List String :=
  (splitN sep n s.toList).map List.asString

/-- The alphabet of `base64.StdEncoding`. -/
def encodeStd : List Char :=
  "ABCDEFGHIJKLMNOPQRSTUVWXYZabcdefghijklmnopqrstuvwxyz0123456789+/".toList

/-- The character that encodes the 6-bit value `v`. -/
def encodeChar (v : Nat) : Char :=
  encodeStd.getD v 'A'

/-- The decode map of `base64.StdEncoding`: the 6-bit value of a character of
the alphabet, `none` for any other character. -/
def decodeChar (c : Char) : Option Nat :=
  if encodeStd.indexOf c < 64 then some (encodeStd.indexOf c) else none

/-- `base64.StdEncoding.Encode` on a list of bytes: three bytes give four
characters; a remainder of one or two bytes is padded with `=`. -/
def encodeBytes : List Nat → List Char
  | [] => []
  | [a] => [encodeChar (a / 4), encodeChar (a % 4 * 16), '=', '=']
  | [a, b] =>
    [encodeChar (a / 4), encodeChar (a % 4 * 16 + b / 16), encodeChar (b % 16 * 4), '=']
  | a :: b :: c :: rest =>
    encodeChar (a / 4) :: encodeChar (a % 4 * 16 + b / 16) ::
      encodeChar (b % 16 * 4 + c / 64) :: encodeChar (c % 64) :: encodeBytes rest

/-- `base64.StdEncoding.EncodeToString`. -/
def EncodeToString (src : List Nat) : String :=
  (encodeBytes src).asString

/-- The quanta of `base64.StdEncoding.Decode`, on input without line breaks:
four characters of the alphabet give three bytes; the last quantum may end in
`==` (one byte) or `=` (two bytes), and nothing may follow the padding. The
encoding is not strict: the unused low bits of a padded quantum are dropped.
`none` is a `CorruptInputError`. -/
def decodeQuanta : List Char → Option (List Nat)
  | [] => some []
  | c0 :: c1 :: c2 :: c3 :: rest =>
    match decodeChar c0, decodeChar c1 with
    | some v0, some v1 =>
      if c2 = '=' then
        if c3 = '=' ∧ rest = [] then some [v0 * 4 + v1 / 16] else none
      else
        match decodeChar c2 with
        | none => none
        | some v2 =>
          if c3 = '=' then
            if rest = [] then some [v0 * 4 + v1 / 16, v1 % 16 * 16 + v2 / 4] else none
          else
            match decodeChar c3, decodeQuanta rest with
            | some v3, some bytes =>
              some ((v0 * 4 + v1 / 16) :: (v1 % 16 * 16 + v2 / 4) :: (v2 % 4 * 64 + v3) :: bytes)
            | _, _ => none
    | _, _ => none
  | _ => none

/-- `base64.StdEncoding.DecodeString`: carriage returns and line feeds are
skipped, the rest is decoded quantum by quantum; `none` when the call returns
an error. -/
def DecodeString (s : String) : Option (List Nat) :=
  decodeQuanta (s.toList.filter (fun c => c ≠ '\r' ∧ c ≠ '\n'))

/-! ## Pilot commands: app/spike/internal/cmd/operator/recover.go, restore.go -/

/-- The text the recover command writes into the file of shard `i`:
`fmt.Sprintf("spike:%d:%s", i, encodedShard)` with `encodedShard` the standard
base64 of the shard. -/
def recoveryText (i : Int) (shard : List Nat) : String :=
  "spike:" ++ formatInt i ++ ":" ++ EncodeToString shard

/-- How the `Run` function of the restore command goes on from the text it
read from the terminal, up to its call of the API: one of the three
`log.FatalLn` exits, the run-time panic of an index out of range, or the call
`api.Restore(ix, &ss)`. -/
inductive RestoreRun
  | invalidShardFormat
  | failedToDecode
  | indexOutOfRange
  | invalidShardLength (len : Nat)
  | Restore (ix : Int) (ss : List Nat)
  deriving DecidableEq, Repr

/-- The loop `for i := 0; i < 32; i++ { decodedShard[i] = 0 }` on a slice:
the slice after the loop, `none` when an index is out of range. -/
def zeroFirst32 (decodedShard : List Nat) : Option (List Nat) :=
  (List.range 32).foldlM
    (fun buf i => if i < buf.length then some (buf.set i 0) else none) decodedShard

/-- The restore command from the text `shard` that `term.ReadPassword`
returned: split, decode, check the length, copy into `ss`, convert the index
(`ix, _ := strconv.Atoi(index)`: the error is dropped and `ix` is whatever
number `Atoi` returned with it) and call the API. -/
def restoreRun (shard : String) : RestoreRun :=
  match SplitN shard ':' 3 with
  | [_, index, base64Data] =>
    match DecodeString base64Data with
    | none => .failedToDecode
    | some decodedShard =>
      if decodedShard.length ≠ 32 then
        match zeroFirst32 decodedShard with
        | none => .indexOutOfRange
        | some _ => .invalidShardLength decodedShard.length
      else
        .Restore (AtoiValue index) (decodedShard.take 32)
  | _ => .invalidShardFormat

/-- The loop of `filepath.Ext`, from the last character backwards: `before`
is the part of the path not yet looked at, last character first, and `suffix`
the characters already passed. A path separator ends the search with the empty
extension, a dot with the suffix that starts at it. -/
def extLoop : List Char → List Char → List Char
  | [], _ => []
  | c :: before, suffix =>
    if c = '/' then []
    else if c = '.' then c :: suffix
    else extLoop before (c :: suffix)

/-- `filepath.Ext`: the suffix beginning at the final dot of the final element
of the path, empty when there is no such dot. -/
def Ext (path : String) : String :=
  (extLoop path.toList.reverse []).asString

/-- `strings.HasPrefix`. -/
def HasPrefix (s start : String) : Bool :=
  start.toList.isPrefixOf s.toList

/-- The base name of the file the recover command writes shard `i` to:
`fmt.Sprintf("%s/spike.recovery.%d.txt", recoverDir, i)` without the
directory. -/
def recoveryFileName (i : Int) : String :=
  "spike.recovery." ++ formatInt i ++ ".txt"

/-- The test the cleanup loop of the recover command makes on the name of a
directory entry before it calls `os.Remove`. -/
def isOldRecoveryFile (name : String) : Bool :=
  decide (name ≠ "") && decide (Ext name = ".txt") && HasPrefix name "spike.recovery"

/-- The cleanup loop of the recover command over the entries that
`os.ReadDir` returned: the names handed to `os.Remove`, in order. -/
def cleanupRemoves (files : List String) : List String :=
  files.filter isOldRecoveryFile

/-- A recovery directory holding the files of shards 0 and 1 and other
files. -/
def demoDirectory : List String :=
  ["spike.recovery.0.txt", "spike.recovery-notes.txt", "notes.txt", "spike.recoveryX.txt",
    "spike.recovery.1.txt", "spike.recovery.txt", "spike.recovery.2.bak", "spike.recovery"]

/-! ## Undelete command: app/spike/internal/cmd/secret/undelete.go -/

/-- `unicode.IsSpace`: the white space of Unicode - tab, line feed, vertical
tab, form feed, carriage return, space, U+0085, U+00A0, and the characters of
category `Z` above Latin-1. -/
def isSpace (c : Char) : Bool :=
  decide (c.toNat ∈ [0x09, 0x0A, 0x0B, 0x0C, 0x0D, 0x20, 0x85, 0xA0, 0x1680, 0x2028, 0x2029,
    0x202F, 0x205F, 0x3000]) || decide (0x2000 ≤ c.toNat ∧ c.toNat ≤ 0x200A)

/-- `strings.TrimSpace`: the text without its leading and trailing white
space. -/
def TrimSpace (s : String) : String :=
  ((s.toList.dropWhile isSpace).reverse.dropWhile isSpace).reverse.asString

/-- `strings.Split(s, sep)` for a separator of one character, on the
characters of `s`: the pieces between the separators, one piece more than
there are separators. -/
def splitAll (sep : Char) : List Char → List (List Char)
  | [] => [[]]
  | c :: cs =>
    if c = sep then [] :: splitAll sep cs
    else
      match splitAll sep cs with
      | [] => [[c]]
      | piece :: pieces => (c :: piece) :: pieces

/-- `strings.Split(s, sep)` for a separator of one character. -/
def Split (s : String) (sep : Char) : List String :=
  (splitAll sep s.toList).map List.asString

/-- What `spike.CheckInitState` gave the command: an error, the state
`data.NotInitialized`, or any other state. -/
inductive InitCheck
  | failed
  | NotInitialized
  | initialized
  deriving DecidableEq, Repr

/-- How the `Run` function of the undelete command goes, up to its call of
the API: it returns after one of its messages, or it calls
`spike.UndeleteSecret(source, path, versionList)`. -/
inductive UndeleteRun
  | initCheckFailed
  | notInitialized
  | invalidVersion (v : String)
  | negativeVersion (v : String)
  | UndeleteSecret (path : String) (versionList : List String)
  deriving DecidableEq, Repr

/-- The loop that parses and validates the versions: the message it returns
with, `none` when it runs to its end. -/
def validateVersions : List String → Option UndeleteRun
  | [] => none
  | v :: rest =>
    match Atoi (TrimSpace v) with
    | none => some (.invalidVersion v)
    | some version =>
      if version < 0 then some (.negativeVersion v) else validateVersions rest

/-- The undelete command, for the argument `path` and the value `versions` of
the flag `--versions`. -/
def undeleteRun (state : InitCheck) (path versions : String) : UndeleteRun :=
  match state with
  | .failed => .initCheckFailed
  | .NotInitialized => .notInitialized
  | .initialized =>
    let versions := if versions = "" then "0" else versions
    let versionList := Split versions ','
    match validateVersions versionList with
    | some message => message
    | none => .UndeleteSecret path versionList

/-- An item of the version list is valid: trimmed of surrounding white space
it parses as a decimal integer, and that integer is not negative. -/
def validVersion (item : String) : Prop :=
  ∃ n : Int, Atoi (TrimSpace item) = some n ∧ 0 ≤ n

/-- The comma-separated items of the flag `--versions`, the empty flag being
read as `0`. -/
def versionItems (versions : String) : List String :=
  Split (if versions = "" then "0" else versions) ','

/-! ## Compiled expressions of stored policies -/

/-- A call that brings no policy without its compiled expressions into the
store: every policy that `persist.ReadPolicy` hands to `GetPolicy` has them. -/
def PolicyOp.backendCompiled : PolicyOp → Prop
  | .get be id => ∀ p, ReadPolicy be id = some p → p.compiled
  | _ => True

/-- A policy as read back from a record `{id, name, spiffeIdPattern,
pathPattern, permissions, createdAt}`: the record holds the patterns as text
and no compiled expression, so both pointers are `nil`. -/
def storedRecord : Policy :=
  { Id := "id-7", Name := "db-readers", SpiffeIdPattern := "*", PathPattern := "db",
    Permissions := [PermissionRead], CreatedAt := 1, IdRegex := none, PathRegex := none }

/-- Create the policy for path pattern `secrets`, then get the policy `id-7`,
which is not in memory and which the backend holds as `storedRecord`. -/
def warmingOps : List PolicyOp :=
  [ .create "id-1" 1 secretsInput,
    .get (some (backendHolding storedRecord)) "id-7" ]

/-! ## Example values: an anchored pattern, a failing check -/

/-- The expression `^secrets$`. -/
def anchoredSecrets : Regexp :=
  anchored (("secrets".toList.map RegularExpression.char).foldr RegularExpression.comp
    RegularExpression.epsilon)

/-- A regexp library that compiles the pattern `^secrets$` and refuses every
other pattern with a metacharacter. -/
def anchoredLibrary : String → Option Regexp :=
  fun pattern => if pattern = "^secrets$" then some anchoredSecrets else none

/-- The store after `CreatePolicy`, on an empty store, of the policy with any
id, path pattern `^secrets$` and permission `Read`. -/
def anchoredStore : PolicyStore :=
  (CreatePolicy anchoredLibrary "id-1" 1 emptyPolicyState
    { secretsInput with PathPattern := "^secrets$" }).2.policies

/-- The example environment with a check that fails on every share set. -/
def failingCheckRecovery : Recovery :=
  { demoRecovery with sanityCheck := fun _ _ => false }

/-! # Theorems -/

/-! ## Policy engine -/

theorem contains_iff (ps : List PolicyPermission) (p : PolicyPermission) :
    contains ps p = true ↔ p ∈ ps := by
  simp [contains]

theorem hasAllPermissions_iff (haves wants : List PolicyPermission) :
    hasAllPermissions haves wants = true ↔ ∀ w ∈ wants, w ∈ haves := by
  simp [hasAllPermissions, contains_iff]

theorem mem_cuts (b p a l : List Char) : (b, p, a) ∈ cuts l ↔ b ++ p ++ a = l := by
  simp only [cuts, List.mem_flatMap, List.mem_range, List.mem_map, List.mem_inits,
    Prod.mk.injEq]
  constructor
  · rintro ⟨i, -, piece, ⟨rest, hrest⟩, rfl, rfl, rfl⟩
    have hd : (l.drop i).drop piece.length = rest := by
      rw [← hrest]
      simp
    rw [hd, List.append_assoc, hrest, List.take_append_drop]
  · rintro rfl
    refine ⟨b.length, by simp; omega, p, ⟨a, by simp⟩, by simp, rfl, by simp⟩

theorem MatchString_iff (re : Regexp) (s : String) :
    MatchString re s = true ↔
      ∃ before piece after, before ++ piece ++ after = s.toList ∧
        re.accepts before piece after = true := by
  simp only [MatchString, List.any_eq_true]
  constructor
  · rintro ⟨⟨b, p, a⟩, hmem, hacc⟩
    exact ⟨b, p, a, (mem_cuts b p a _).mp hmem, hacc⟩
  · rintro ⟨b, p, a, hcut, hacc⟩
    exact ⟨(b, p, a), (mem_cuts b p a _).mpr hcut, hacc⟩

theorem matchStringTrue_iff (re : Option Regexp) (s : String) :
    matchStringTrue re s ↔ containsMatch re s := by
  cases re with
  | none => simp [matchStringTrue, matchRegex, containsMatch]
  | some r => simp [matchStringTrue, matchRegex, containsMatch, MatchString_iff]

theorem MatchString_literal (cs : List Char) (s : String) :
    MatchString (literal cs) s = true ↔ cs <:+: s.toList := by
  rw [MatchString_iff]
  constructor
  · rintro ⟨b, p, a, hcut, hacc⟩
    have hp : p = cs := by simpa [literal] using hacc
    subst hp
    exact ⟨b, a, hcut⟩
  · rintro ⟨b, a, hcut⟩
    exact ⟨b, cs, a, hcut, by simp [literal]⟩

theorem MatchString_unanchored (r : RegularExpression Char) (s : String) :
    MatchString (unanchored r) s = true ↔ ∃ u, u <:+: s.toList ∧ u ∈ r.matches' := by
  rw [MatchString_iff]
  constructor
  · rintro ⟨b, p, a, hcut, hacc⟩
    exact ⟨p, ⟨b, a, hcut⟩, (RegularExpression.rmatch_iff_matches' r p).mp hacc⟩
  · rintro ⟨u, ⟨b, a, hcut⟩, hu⟩
    exact ⟨b, u, a, hcut, (RegularExpression.rmatch_iff_matches' r u).mpr hu⟩

theorem MatchString_anchored (r : RegularExpression Char) (s : String) :
    MatchString (anchored r) s = true ↔ s.toList ∈ r.matches' := by
  rw [MatchString_iff]
  constructor
  · rintro ⟨b, p, a, hcut, hacc⟩
    simp only [anchored, Bool.and_eq_true, List.isEmpty_iff] at hacc
    obtain ⟨⟨rfl, rfl⟩, hp⟩ := hacc
    simp only [List.nil_append, List.append_nil] at hcut
    rw [← hcut]
    exact (RegularExpression.rmatch_iff_matches' r p).mp hp
  · intro h
    refine ⟨[], s.toList, [], by simp, ?_⟩
    simp only [anchored, List.isEmpty_nil, Bool.true_and]
    exact (RegularExpression.rmatch_iff_matches' r _).mpr h

theorem checkPolicies_cons (id path : String) (wants : List PolicyPermission)
    (p : Policy) (rest : List Policy) (hp : p.compiled) :
    checkPolicies id path wants (p :: rest) =
      if loopGrants p id path wants then some true else checkPolicies id path wants rest := by
  obtain ⟨hid, hpath⟩ := hp
  rw [checkPolicies, loopGrants]
  by_cases h1 : p.SpiffeIdPattern = "*" ∧ p.PathPattern = "*"
  · simp only [h1, and_self, if_true]
  · rw [if_neg h1, if_neg h1]
    by_cases hi : p.SpiffeIdPattern = "*"
    · have hq : p.PathPattern ≠ "*" := fun hq => h1 ⟨hi, hq⟩
      obtain ⟨r, hr⟩ := Option.isSome_iff_exists.mp (hpath hq)
      simp only [hi, hq, hr, patternPasses, matchRegex, ne_eq, not_true_eq_false,
        not_false_eq_true, if_true, if_false, Option.map_some', decide_True, decide_False,
        Bool.true_or, Bool.false_or, Bool.true_and]
      cases MatchString r path <;> cases contains p.Permissions PermissionSuper <;> simp
    · obtain ⟨r, hr⟩ := Option.isSome_iff_exists.mp (hid hi)
      simp only [hi, hr, patternPasses, matchRegex, ne_eq, not_false_eq_true, if_true,
        Option.map_some', decide_False, Bool.false_or]
      cases MatchString r id
      · simp
      · by_cases hq : p.PathPattern = "*"
        · cases contains p.Permissions PermissionSuper <;> simp [hq]
        · obtain ⟨r2, hr2⟩ := Option.isSome_iff_exists.mp (hpath hq)
          simp only [hq, hr2, not_false_eq_true, if_true, Option.map_some', decide_False,
            Bool.false_or]
          cases MatchString r2 path <;> cases contains p.Permissions PermissionSuper <;> simp

theorem checkPolicies_compiled (id path : String) (wants : List PolicyPermission)
    (ps : List Policy) (hwf : ∀ p ∈ ps, p.compiled) :
    checkPolicies id path wants ps = some (ps.any (fun p => loopGrants p id path wants)) := by
  induction ps with
  | nil => rfl
  | cons p rest ih =>
    rw [checkPolicies_cons id path wants p rest (hwf p (List.mem_cons_self _ _)),
      ih (fun q hq => hwf q (List.mem_cons_of_mem _ hq)), List.any_cons]
    cases loopGrants p id path wants <;> simp

theorem checkPolicies_true_grants (id path : String) (wants : List PolicyPermission)
    (ps : List Policy) (h : checkPolicies id path wants ps = some true) :
    ∃ p ∈ ps, loopGrants p id path wants = true := by
  induction ps with
  | nil => simp [checkPolicies] at h
  | cons p rest ih =>
    by_cases hg : loopGrants p id path wants = true
    · exact ⟨p, List.mem_cons_self _ _, hg⟩
    · have hrest : checkPolicies id path wants rest = some true := by
        rw [checkPolicies] at h
        rw [loopGrants] at hg
        by_cases h1 : p.SpiffeIdPattern = "*" ∧ p.PathPattern = "*"
        · rw [if_pos h1] at h hg
          simpa [hg] using h
        · rw [if_neg h1] at h hg
          simp only [patternPasses, matchRegex] at hg
          simp only [matchRegex] at h
          by_cases hi : p.SpiffeIdPattern = "*" <;> by_cases hq : p.PathPattern = "*" <;>
            rcases hr : p.IdRegex with _ | r <;> rcases hr2 : p.PathRegex with _ | r2 <;>
            simp [hi, hq, hr, hr2] at h hg h1 <;>
            (try cases hm : MatchString r id) <;> (try cases hm2 : MatchString r2 path) <;>
            cases hc : contains p.Permissions PermissionSuper <;>
            cases hh : hasAllPermissions p.Permissions wants <;> simp_all
      obtain ⟨q, hq, hqg⟩ := ih hrest
      exact ⟨q, List.mem_cons_of_mem _ hq, hqg⟩

theorem loopGrants_matches (p : Policy) (id path : String) (wants : List PolicyPermission)
    (h : loopGrants p id path wants = true) :
    policyMatches matchStringTrue p id path ∧ permissionsGrant p wants := by
  rw [loopGrants] at h
  by_cases h1 : p.SpiffeIdPattern = "*" ∧ p.PathPattern = "*"
  · rw [if_pos h1] at h
    exact ⟨Or.inl h1, Or.inr ((hasAllPermissions_iff _ _).mp h)⟩
  · rw [if_neg h1] at h
    simp only [Bool.and_eq_true, Bool.or_eq_true, patternPasses, decide_eq_true_eq,
      beq_iff_eq] at h
    obtain ⟨⟨hid, hpath⟩, hperm⟩ := h
    refine ⟨Or.inr ⟨fun hne => ?_, fun hne => ?_⟩, ?_⟩
    · exact hid.resolve_left hne
    · exact hpath.resolve_left hne
    · rcases hperm with hs | ha
      · exact Or.inl ((contains_iff _ _).mp hs)
      · exact Or.inr ((hasAllPermissions_iff _ _).mp ha)

theorem matches_loopGrants (p : Policy) (id path : String) (wants : List PolicyPermission)
    (hnw : ¬ (p.SpiffeIdPattern = "*" ∧ p.PathPattern = "*"))
    (hm : policyMatches matchStringTrue p id path) (hg : permissionsGrant p wants) :
    loopGrants p id path wants = true := by
  rw [loopGrants, if_neg hnw]
  rcases hm with hw | ⟨hid, hpath⟩
  · exact absurd hw hnw
  · simp only [Bool.and_eq_true, Bool.or_eq_true, patternPasses, decide_eq_true_eq,
      beq_iff_eq]
    refine ⟨⟨?_, ?_⟩, ?_⟩
    · by_cases hi : p.SpiffeIdPattern = "*"
      · exact Or.inl hi
      · exact Or.inr (hid hi)
    · by_cases hq : p.PathPattern = "*"
      · exact Or.inl hq
      · exact Or.inr (hpath hq)
    · rcases hg with hs | ha
      · exact Or.inl ((contains_iff _ _).mpr hs)
      · exact Or.inr ((hasAllPermissions_iff _ _).mpr ha)

theorem policyMatches_congr (p : Policy) (id path : String) :
    policyMatches matchStringTrue p id path ↔ policyMatches containsMatch p id path := by
  simp only [policyMatches, matchStringTrue_iff]

/-- C1, evaluated on the code: with the single stored policy `"*"`, `"*"`,
`{Super}`, a caller that is not a Pilot asking for `Read` on `/foo` is denied,
although that policy matches `(id, path)` and contains `Super` - the right-hand
side of the claimed equivalence holds and `CheckAccess` still returns false. -/
theorem CheckAccess_wildcard_super_denied :
    CheckAccess (fun _ => false) [("id-0", superEverywhere)] "spiffe://x/app" "/foo"
        [PermissionRead] = some false ∧
    (∃ p ∈ ListPolicies [("id-0", superEverywhere)],
        policyMatches matchStringTrue p "spiffe://x/app" "/foo" ∧
        permissionsGrant p [PermissionRead]) := by
  refine ⟨by decide, superEverywhere, by simp [ListPolicies], Or.inl ⟨rfl, rfl⟩, Or.inl ?_⟩
  simp [superEverywhere]

/-- C2: deny by default. For a caller that is not a Pilot, every path and every
list of wanted permissions, if no stored policy matches `(id, path)` then
`CheckAccess` returns false; and it returns false on the empty store. The
stored policies carry their compiled expressions, as `CreatePolicy` leaves
them. -/
theorem CheckAccess_deny_by_default (IsPilot : String → Bool) (policies : PolicyStore)
    (id path : String) (wants : List PolicyPermission)
    (hc : storeCompiled policies) (hnp : IsPilot id = false)
    (hno : ∀ p ∈ ListPolicies policies, ¬ policyMatches matchStringTrue p id path) :
    CheckAccess IsPilot policies id path wants = some false ∧
    CheckAccess IsPilot [] id path wants = some false := by
  constructor
  · rw [CheckAccess, hnp, if_neg (by simp), checkPolicies_compiled id path wants _ hc]
    congr 1
    rw [List.any_eq_false]
    intro p hp hg
    exact hno p hp (loopGrants_matches p id path wants hg).1
  · simp [CheckAccess, hnp, ListPolicies, checkPolicies]

/-- Witness of C2: the store holding the policy for path pattern `secrets`
matches nothing at path `/foo`, and the request is denied. -/
theorem CheckAccess_deny_by_default_witness :
    CheckAccess (fun _ => false) secretsStore "spiffe://x/app" "/foo" [] = some false ∧
    CheckAccess (fun _ => false) [] "spiffe://x/app" "/foo" [] = some false :=
  CheckAccess_deny_by_default (fun _ => false) secretsStore "spiffe://x/app" "/foo" []
    (by decide) rfl (by decide)

/-- C4: a Pilot is granted everything. When `auth.IsPilot` holds for the id,
`CheckAccess` returns true for every path, every list of wanted permissions and
every content of the store - also the empty store, and also a store on which
the loop over the policies would not return. -/
theorem CheckAccess_pilot (IsPilot : String → Bool) (policies : PolicyStore)
    (id path : String) (wants : List PolicyPermission) (h : IsPilot id = true) :
    CheckAccess IsPilot policies id path wants = some true := by
  simp [CheckAccess, h]

/-- Witness of C4: the Pilot is granted `Super` on a store whose only policy
has a pattern without its compiled expression. -/
theorem CheckAccess_pilot_witness :
    CheckAccess (fun id => id == "spiffe://spike.ist/spike/pilot/role/superuser")
      [("id-9", { secretsInput with PathRegex := none })]
      "spiffe://spike.ist/spike/pilot/role/superuser" "/foo" [PermissionSuper] = some true :=
  CheckAccess_pilot _ _ _ _ _ (by decide)

/-- C3 as stated fails: after `CreatePolicy` of a policy with path pattern
`secrets` and permission `Read`, a caller that is not a Pilot is granted `Read`
on `/other/secrets/x`, although no stored policy matches that path in full. -/
theorem CheckAccess_secrets_substring :
    CheckAccess (fun _ => false) secretsStore "spiffe://x/app" "/other/secrets/x"
        [PermissionRead] = some true ∧
    ¬ ∃ p ∈ ListPolicies secretsStore,
        policyMatches entireMatch p "spiffe://x/app" "/other/secrets/x" ∧
        permissionsGrant p [PermissionRead] := by
  refine ⟨by decide, ?_⟩
  rintro ⟨p, hp, hm, -⟩
  have hs : ListPolicies secretsStore = [{ secretsInput with
      Id := "id-1", CreatedAt := 1, PathRegex := some (literal "secrets".toList) }] := by rfl
  rw [hs, List.mem_singleton] at hp
  subst hp
  rcases hm with ⟨-, hw⟩ | ⟨-, hpath⟩
  · exact absurd hw (by decide)
  · obtain ⟨r, hr, hmem⟩ := hpath (by decide)
    have hr2 : r = literal "secrets".toList := by
      simpa [secretsInput] using hr.symm
    subst hr2
    revert hmem
    decide

theorem containsMatch_some (re : Regexp) (s : String) :
    containsMatch (some re) s ↔ MatchString re s = true := by
  rw [← matchStringTrue_iff]
  simp [matchStringTrue, matchRegex]

/-- C3, amended: patterns are matched as `MatchString` does, and no anchor is
added to them. For a caller that is not a Pilot, `CheckAccess` grants only if
some stored policy has `Super` or all wanted permissions and each of its
patterns other than `"*"` has a match of its compiled expression somewhere in
the input - a contiguous piece that is a match where it stands; and every
stored policy with a pattern other than `"*"` that matches in this sense and
has `Super` or all wanted permissions makes `CheckAccess` grant. What is a
match depends on the expression alone: a pattern without metacharacters, as
`regexp.Compile` compiles it on behalf of `CreatePolicy`, has one exactly when
its text occurs in the input; an expression without anchors has one exactly
when some piece of the input belongs to its language; and an expression `^r$`
has one only when the entire input belongs to the language of `r`. -/
theorem CheckAccess_unanchored (IsPilot : String → Bool) (policies : PolicyStore)
    (id path : String) (wants : List PolicyPermission) (hnp : IsPilot id = false) :
    (CheckAccess IsPilot policies id path wants = some true →
      ∃ p ∈ ListPolicies policies,
        policyMatches containsMatch p id path ∧ permissionsGrant p wants) ∧
    (storeCompiled policies →
      ∀ p ∈ ListPolicies policies, ¬ (p.SpiffeIdPattern = "*" ∧ p.PathPattern = "*") →
        policyMatches containsMatch p id path → permissionsGrant p wants →
        CheckAccess IsPilot policies id path wants = some true) ∧
    (∀ (ext : String → Option Regexp) (pattern s : String),
      pattern.toList.all (fun c => !isMetaChar c) = true →
      (containsMatch (Compile ext pattern) s ↔ pattern.toList <:+: s.toList)) ∧
    (∀ (r : RegularExpression Char) (s : String),
      containsMatch (some (unanchored r)) s ↔ ∃ u, u <:+: s.toList ∧ u ∈ r.matches') ∧
    (∀ (r : RegularExpression Char) (s : String),
      containsMatch (some (anchored r)) s ↔ s.toList ∈ r.matches') := by
  refine ⟨?_, ?_, ?_, ?_, ?_⟩
  · intro h
    rw [CheckAccess, hnp, if_neg (by simp)] at h
    obtain ⟨p, hp, hg⟩ := checkPolicies_true_grants id path wants _ h
    have := loopGrants_matches p id path wants hg
    exact ⟨p, hp, (policyMatches_congr p id path).mp this.1, this.2⟩
  · intro hc p hp hnw hm hg
    rw [CheckAccess, hnp, if_neg (by simp), checkPolicies_compiled id path wants _ hc]
    congr 1
    rw [List.any_eq_true]
    exact ⟨p, hp, matches_loopGrants p id path wants hnw
      ((policyMatches_congr p id path).mpr hm) hg⟩
  · intro ext pattern s hplain
    rw [Compile, if_pos hplain, containsMatch_some, MatchString_literal]
  · intro r s
    rw [containsMatch_some, MatchString_unanchored]
  · intro r s
    rw [containsMatch_some, MatchString_anchored]

/-- Witness of C3, amended: the caller `spiffe://x/app` is not a Pilot, and on
the store holding the policy for path pattern `secrets` the halves hold for
the path `/other/secrets/x`, which is granted. On the store whose policy was
created with the path pattern `^secrets$`, the path `secrets` is granted and
the path `/other/secrets/x` is denied: the anchors of the pattern are kept. -/
theorem CheckAccess_unanchored_witness :
    ((CheckAccess (fun _ => false) secretsStore "spiffe://x/app" "/other/secrets/x"
        [PermissionRead] = some true →
      ∃ p ∈ ListPolicies secretsStore,
        policyMatches containsMatch p "spiffe://x/app" "/other/secrets/x" ∧
        permissionsGrant p [PermissionRead]) ∧
    (storeCompiled secretsStore →
      ∀ p ∈ ListPolicies secretsStore, ¬ (p.SpiffeIdPattern = "*" ∧ p.PathPattern = "*") →
        policyMatches containsMatch p "spiffe://x/app" "/other/secrets/x" →
        permissionsGrant p [PermissionRead] →
        CheckAccess (fun _ => false) secretsStore "spiffe://x/app" "/other/secrets/x"
          [PermissionRead] = some true) ∧
    (∀ (ext : String → Option Regexp) (pattern s : String),
      pattern.toList.all (fun c => !isMetaChar c) = true →
      (containsMatch (Compile ext pattern) s ↔ pattern.toList <:+: s.toList)) ∧
    (∀ (r : RegularExpression Char) (s : String),
      containsMatch (some (unanchored r)) s ↔ ∃ u, u <:+: s.toList ∧ u ∈ r.matches') ∧
    (∀ (r : RegularExpression Char) (s : String),
      containsMatch (some (anchored r)) s ↔ s.toList ∈ r.matches')) ∧
    CheckAccess (fun _ => false) secretsStore "spiffe://x/app" "/other/secrets/x"
      [PermissionRead] = some true ∧
    storeCompiled anchoredStore ∧
    CheckAccess (fun _ => false) anchoredStore "spiffe://x/app" "secrets"
      [PermissionRead] = some true ∧
    CheckAccess (fun _ => false) anchoredStore "spiffe://x/app" "/other/secrets/x"
      [PermissionRead] = some false :=
  ⟨CheckAccess_unanchored (fun _ => false) secretsStore "spiffe://x/app" "/other/secrets/x"
      [PermissionRead] rfl,
    by decide, by decide, by decide, by decide⟩

/-! ## Restore route -/

theorem RouteRestore_accepted (R : PilotRestore) (shards : List String) (c : RestoreCall)
    (body : String) (request : RestoreRequest)
    (hb : c.requestBody = some body) (hr : c.request = some request) :
    (RouteRestore R shards c).shards.length = shards.length + 1 ∧
    ((RouteRestore R shards c).reconstruction.isSome = true ↔ shards.length + 1 = 2) := by
  unfold RouteRestore
  simp only [hb, hr]
  by_cases h1 : shards.length = 1
  · cases c.marshalOk <;> simp [h1, R.length_run]
  · cases c.marshalOk <;> simp [h1]

/-- C7, evaluated on the code with `ShamirThreshold = 3`: the route never reads
the threshold. Of three requests on an empty session, the second one (two
shards collected, one short of the threshold) triggers the reconstruction and
answers `{2, 0, true}`; the third one, which brings the count to the threshold,
triggers nothing and answers `{3, -1, false}`. -/
theorem RouteRestore_threshold_three (R : PilotRestore) (a b c : String) :
    (restoreSession R [] [restoreCall none a, restoreCall none b, restoreCall none c]).map
        (fun o => o.response) =
      [some (200, ⟨1, 1, false⟩), some (200, ⟨2, 0, true⟩), some (200, ⟨3, -1, false⟩)] ∧
    (restoreSession R [] [restoreCall none a, restoreCall none b, restoreCall none c]).map
        (fun o => o.reconstruction) =
      [none, some [a, b], none] := by
  have h := R.length_run [a, b]
  simp [restoreSession, RouteRestore, restoreCall, h]

/-- C8, evaluated on the code: a request that repeats the one shard already in
the session is counted again - the response reports two shards collected and
restored, and the reconstruction is triggered on the pair of equal shards. -/
theorem RouteRestore_duplicate_counted (R : PilotRestore) (s : String) :
    (RouteRestore R [s] (restoreCall none s)).response = some (200, ⟨2, 0, true⟩) ∧
    (RouteRestore R [s] (restoreCall none s)).reconstruction = some [s, s] := by
  have h := R.length_run [s, s]
  simp [RouteRestore, restoreCall, h]

/-- C9, evaluated on the code: whatever the reconstruction does with the two
collected shards - also when it fails - the session still holds two shards
when `RouteRestore` returns, and the next request reports three shards
collected, not one. -/
theorem RouteRestore_session_kept (R : PilotRestore) (a b c : String) :
    (RouteRestore R [a] (restoreCall none b)).reconstruction = some [a, b] ∧
    (RouteRestore R [a] (restoreCall none b)).shards.length = 2 ∧
    (RouteRestore R (RouteRestore R [a] (restoreCall none b)).shards
        (restoreCall none c)).response = some (200, ⟨3, -1, false⟩) := by
  have h := R.length_run [a, b]
  simp [RouteRestore, restoreCall, h]

/-- C10, evaluated on the code: the route never looks at the peer. A request
without a SPIFFE id, or with any id at all, is answered `200` with a `nil`
error, its shard is appended to the session, and when it is the second shard
the reconstruction is triggered. -/
theorem RouteRestore_no_guard (R : PilotRestore) (peer : Option String) (s0 s1 : String) :
    (RouteRestore R [] (restoreCall peer s0)).err = none ∧
    (RouteRestore R [] (restoreCall peer s0)).shards = [s0] ∧
    (RouteRestore R [] (restoreCall peer s0)).response = some (200, ⟨1, 1, false⟩) ∧
    (RouteRestore R [s0] (restoreCall peer s1)).err = none ∧
    (RouteRestore R [s0] (restoreCall peer s1)).reconstruction = some [s0, s1] := by
  simp [RouteRestore, restoreCall]

/-! ## Share distribution -/

theorem Atoi_range (s : String) (k : Int) (h : Atoi s = some k) :
    -(2 ^ 63 : Int) ≤ k ∧ k < 2 ^ 63 := by
  unfold Atoi at h
  simp only at h
  generalize (match s.toList with
    | '-' :: ds => (true, ds)
    | '+' :: ds => (false, ds)
    | ds => (false, ds)) = signed at h
  cases hd : digitsValue signed.2 with
  | none => simp [hd] at h
  | some n =>
    simp only [hd, Option.ite_none_right_eq_some, Option.some.injEq] at h
    obtain ⟨hr, rfl⟩ := h
    exact hr

theorem SetUint64_uint64 (k : Int) (h0 : 0 ≤ k) (h1 : k < 2 ^ 63) :
    SetUint64 (uint64 k) = ((k.toNat : Nat) : Scalar) := by
  have h2 : k % 2 ^ 64 = k := Int.emod_eq_of_lt h0 (by omega)
  have h3 : k.toNat < 2 ^ 64 := by omega
  rw [SetUint64, uint64, h2, Nat.mod_eq_of_lt h3]

theorem findKeeperShare_some (keeperId : String) (rootShares : List Share) (share : Share)
    (h : findKeeperShare keeperId rootShares = some share) :
    ∃ kid, Atoi keeperId = some kid ∧ share ∈ rootShares ∧ share.ID = SetUint64 (uint64 kid) := by
  unfold findKeeperShare at h
  split at h
  · exact absurd h (by simp)
  · rename_i kid hkid
    refine ⟨kid, hkid, List.mem_of_find?_eq_some h, ?_⟩
    have := List.find?_some h
    simpa using this

theorem sendShardToKeeper_posted (W : Recovery) (rootKey : List Nat)
    (keeperId keeperApiRoot : String) (ev : PostEvent)
    (h : (sendShardToKeeper W rootKey keeperId keeperApiRoot).2 = some ev) :
    ev.keeperId = keeperId ∧ W.joinPath keeperApiRoot = some ev.url ∧
    RootKeyZero rootKey = false ∧
    W.sanityCheck (W.computeShares rootKey).1 (W.computeShares rootKey).2 = true ∧
    W.jsonMarshal ev.request = some ev.body ∧
    ∃ share, findKeeperShare keeperId (W.computeShares rootKey).2 = some share ∧
      share.ID ≠ 0 ∧ W.marshalBinary share.Value = some ev.request.Shard ∧
      ev.request.Shard.length = 32 := by
  unfold sendShardToKeeper at h
  cases hu : W.joinPath keeperApiRoot with
  | none => simp [hu] at h
  | some u =>
    simp only [hu] at h
    by_cases hc : W.createClient keeperId = false
    · simp [hc] at h
    · rw [if_neg hc] at h
      by_cases hz : RootKeyZero rootKey = true
      · simp [hz] at h
      · rw [if_neg hz] at h
        by_cases hs : W.sanityCheck (W.computeShares rootKey).1 (W.computeShares rootKey).2 = false
        · simp [hs] at h
        · rw [if_neg hs] at h
          cases hshare : findKeeperShare keeperId (W.computeShares rootKey).2 with
          | none => simp [hshare] at h
          | some share =>
            simp only [hshare] at h
            by_cases hid : share.ID = 0
            · simp [hid] at h
            · rw [if_neg hid] at h
              cases hcontr : W.marshalBinary share.Value with
              | none => simp [hcontr] at h
              | some contribution =>
                simp only [hcontr] at h
                by_cases hlen : contribution.length ≠ 32
                · simp [hlen] at h
                · rw [if_neg hlen] at h
                  have hlen32 : contribution.length = 32 := by simpa using hlen
                  have hcopy : copy32 contribution = contribution := by
                    simp [copy32, hlen32, List.take_of_length_le]
                  rw [hcopy] at h
                  cases hmd : W.jsonMarshal { KeeperId := "", Shard := contribution } with
                  | none => simp [hmd] at h
                  | some md =>
                    simp only [hmd, Option.some.injEq] at h
                    subst h
                    exact ⟨rfl, rfl, by simpa using hz, by simpa using hs, hmd, share, rfl,
                      hid, hcontr, hlen32⟩

theorem sendShardsToKeepers_posted (W : Recovery) (rootKeyAt : String → List Nat)
    (keepers : List (String × String)) (ev : PostEvent)
    (h : ev ∈ (sendShardsToKeepers W rootKeyAt keepers).posts) :
    ∃ keeper ∈ keepers,
      (sendShardToKeeper W (rootKeyAt keeper.1) keeper.1 keeper.2).2 = some ev := by
  induction keepers with
  | nil => simp [sendShardsToKeepers] at h
  | cons keeper rest ih =>
    rw [sendShardsToKeepers] at h
    by_cases ha : (sendShardToKeeper W (rootKeyAt keeper.1) keeper.1 keeper.2).1.aborts = true
    · rw [if_pos ha] at h
      simp at h
    · rw [if_neg ha] at h
      dsimp only at h
      rw [List.mem_append, Option.mem_toList, Option.mem_def] at h
      rcases h with h | h
      · exact ⟨keeper, List.mem_cons_self _ _, h⟩
      · obtain ⟨k, hk, hev⟩ := ih h
        exact ⟨k, List.mem_cons_of_mem _ hk, hev⟩

/-- C6: each keeper receives its own share. For every request that
`sendShardsToKeepers` posts while processing a keeper whose id reads as the
integer `k`, some share computed for that round has `ID` equal to
`SetUint64(uint64(k))` - which is the scalar `k` itself when `k ≥ 0` - and the
32-byte shard in the request is the `MarshalBinary` of the `Value` of exactly
that share, the first one in the list with this `ID`; the request is the one
marshalled into the posted body, and it went to the URL of that keeper. -/
theorem sendShardsToKeepers_own_share (W : Recovery) (rootKeyAt : String → List Nat)
    (keepers : List (String × String)) (ev : PostEvent) (k : Int)
    (hev : ev ∈ (sendShardsToKeepers W rootKeyAt keepers).posts)
    (hk : Atoi ev.keeperId = some k) :
    ∃ sr ∈ (W.computeShares (rootKeyAt ev.keeperId)).2,
      sr.ID = SetUint64 (uint64 k) ∧
      (0 ≤ k → sr.ID = ((k.toNat : Nat) : Scalar)) ∧
      (W.computeShares (rootKeyAt ev.keeperId)).2.find?
        (fun s => s.ID == SetUint64 (uint64 k)) = some sr ∧
      W.marshalBinary sr.Value = some ev.request.Shard ∧
      ev.request.Shard.length = 32 ∧
      W.jsonMarshal ev.request = some ev.body ∧
      ∃ apiRoot, (ev.keeperId, apiRoot) ∈ keepers ∧ W.joinPath apiRoot = some ev.url := by
  obtain ⟨keeper, hmem, hstep⟩ := sendShardsToKeepers_posted W rootKeyAt keepers ev hev
  obtain ⟨hid, hurl, -, -, hjson, share, hfind, -, hmarshal, hlen⟩ :=
    sendShardToKeeper_posted W _ _ _ ev hstep
  obtain ⟨kid, hkid, hshare, hsid⟩ := findKeeperShare_some _ _ _ hfind
  rw [← hid] at hkid hfind
  rw [hk] at hkid
  obtain rfl : k = kid := by simpa using hkid
  rw [← hid] at hshare
  refine ⟨share, hshare, hsid, fun h0 => ?_, ?_, hmarshal, hlen, hjson, keeper.2, ?_, hurl⟩
  · rw [hsid]
    exact SetUint64_uint64 k h0 (Atoi_range _ _ hk).2
  · simpa [findKeeperShare, hk] using hfind
  · rw [hid]
    exact hmem

/-! ## The order of P-256 is prime -/

theorem powMod_eq (m : Nat) : ∀ (fuel a e : Nat), e < 2 ^ fuel → powMod m fuel a e = a ^ e % m := by
  intro fuel
  induction fuel with
  | zero =>
    intro a e he
    have : e = 0 := by simpa using he
    subst this
    simp [powMod]
  | succ k ih =>
    intro a e he
    rw [powMod]
    by_cases h0 : e = 0
    · simp [h0]
    · rw [if_neg h0]
      have hlt : e / 2 < 2 ^ k := by
        rw [Nat.div_lt_iff_lt_mul (by norm_num)]
        rw [pow_succ] at he
        exact he
      have hrec := ih (a * a % m) (e / 2) hlt
      have hsq : (a * a % m) ^ (e / 2) % m = (a * a) ^ (e / 2) % m := by
        rw [Nat.pow_mod, Nat.mod_mod, ← Nat.pow_mod]
      have hdecomp : e = 2 * (e / 2) + e % 2 := (Nat.div_add_mod e 2).symm
      by_cases h1 : e % 2 = 1
      · rw [if_pos h1, hrec, hsq]
        conv_rhs => rw [hdecomp, h1, pow_succ, pow_mul, Nat.mul_mod]
        rw [Nat.mul_comm a, Nat.mul_mod, Nat.mod_mod, ← pow_two]
      · rw [if_neg h1, hrec, hsq]
        have h2 : e % 2 = 0 := by omega
        conv_rhs => rw [hdecomp, h2, Nat.add_zero, pow_mul, pow_two]

theorem prime_of_lucasCheck (p a : Nat) (fs : List (Nat × Nat))
    (h : lucasCheck p a fs = true) (hfs : ∀ f ∈ fs, Nat.Prime f.1) : Nat.Prime p := by
  simp only [lucasCheck, Bool.and_eq_true, decide_eq_true_eq, List.all_eq_true] at h
  obtain ⟨⟨⟨⟨hp, hlt⟩, hprod⟩, h1⟩, h2⟩ := h
  have hcast : ∀ e : Nat, e ≤ p - 1 → (((a : ZMod p) ^ e = 1) ↔ powMod p 256 a e = 1) := by
    intro e he
    rw [powMod_eq p 256 a e (lt_of_le_of_lt he hlt)]
    rw [← Nat.cast_pow, ← Nat.cast_one, ZMod.natCast_eq_natCast_iff', Nat.mod_eq_of_lt hp]
  refine lucas_primality p (a : ZMod p) ((hcast _ le_rfl).mpr h1) ?_
  intro q hq hdvd
  rw [← hprod] at hdvd
  obtain ⟨x, hx, hqx⟩ := (Prime.dvd_prod_iff hq.prime).mp hdvd
  obtain ⟨f, hf, rfl⟩ := List.mem_map.mp hx
  have hqf : q = f.1 := (Nat.prime_dvd_prime_iff_eq hq (hfs f hf)).mp (hq.dvd_of_dvd_pow hqx)
  subst hqf
  intro hpow
  exact h2 f hf ((hcast _ (Nat.div_le_self _ _)).mp hpow)

theorem prime_1201 : Nat.Prime 1201 :=
  prime_of_lucasCheck _ 11 [(2, 4), (3, 1), (5, 2)] (by decide)
    (by
      simp only [List.forall_mem_cons, List.not_mem_nil, false_implies, implies_true, and_true]
      exact ⟨by norm_num, by norm_num, by norm_num⟩)

theorem prime_1297 : Nat.Prime 1297 :=
  prime_of_lucasCheck _ 10 [(2, 4), (3, 4)] (by decide)
    (by
      simp only [List.forall_mem_cons, List.not_mem_nil, false_implies, implies_true, and_true]
      exact ⟨by norm_num, by norm_num⟩)

theorem prime_1511 : Nat.Prime 1511 :=
  prime_of_lucasCheck _ 11 [(2, 1), (5, 1), (151, 1)] (by decide)
    (by
      simp only [List.forall_mem_cons, List.not_mem_nil, false_implies, implies_true, and_true]
      exact ⟨by norm_num, by norm_num, by norm_num⟩)

theorem prime_3023 : Nat.Prime 3023 :=
  prime_of_lucasCheck _ 5 [(2, 1), (1511, 1)] (by decide)
    (by
      simp only [List.forall_mem_cons, List.not_mem_nil, false_implies, implies_true, and_true]
      exact ⟨by norm_num, prime_1511⟩)

theorem prime_3407 : Nat.Prime 3407 :=
  prime_of_lucasCheck _ 5 [(2, 1), (13, 1), (131, 1)] (by decide)
    (by
      simp only [List.forall_mem_cons, List.not_mem_nil, false_implies, implies_true, and_true]
      exact ⟨by norm_num, by norm_num, by norm_num⟩)

theorem prime_9547 : Nat.Prime 9547 :=
  prime_of_lucasCheck _ 2 [(2, 1), (3, 1), (37, 1), (43, 1)] (by decide)
    (by
      simp only [List.forall_mem_cons, List.not_mem_nil, false_implies, implies_true, and_true]
      exact ⟨by norm_num, by norm_num, by norm_num, by norm_num⟩)

theorem prime_16879 : Nat.Prime 16879 :=
  prime_of_lucasCheck _ 3 [(2, 1), (3, 1), (29, 1), (97, 1)] (by decide)
    (by
      simp only [List.forall_mem_cons, List.not_mem_nil, false_implies, implies_true, and_true]
      exact ⟨by norm_num, by norm_num, by norm_num, by norm_num⟩)

theorem prime_17449 : Nat.Prime 17449 :=
  prime_of_lucasCheck _ 14 [(2, 3), (3, 1), (727, 1)] (by decide)
    (by
      simp only [List.forall_mem_cons, List.not_mem_nil, false_implies, implies_true, and_true]
      exact ⟨by norm_num, by norm_num, by norm_num⟩)

theorem prime_38189 : Nat.Prime 38189 :=
  prime_of_lucasCheck _ 2 [(2, 2), (9547, 1)] (by decide)
    (by
      simp only [List.forall_mem_cons, List.not_mem_nil, false_implies, implies_true, and_true]
      exact ⟨by norm_num, prime_9547⟩)

theorem prime_104471 : Nat.Prime 104471 :=
  prime_of_lucasCheck _ 11 [(2, 1), (5, 1), (31, 1), (337, 1)] (by decide)
    (by
      simp only [List.forall_mem_cons, List.not_mem_nil, false_implies, implies_true, and_true]
      exact ⟨by norm_num, by norm_num, by norm_num, by norm_num⟩)

theorem prime_126241 : Nat.Prime 126241 :=
  prime_of_lucasCheck _ 7 [(2, 5), (3, 1), (5, 1), (263, 1)] (by decide)
    (by
      simp only [List.forall_mem_cons, List.not_mem_nil, false_implies, implies_true, and_true]
      exact ⟨by norm_num, by norm_num, by norm_num, by norm_num⟩)

theorem prime_155317 : Nat.Prime 155317 :=
  prime_of_lucasCheck _ 5 [(2, 2), (3, 1), (7, 1), (43, 2)] (by decide)
    (by
      simp only [List.forall_mem_cons, List.not_mem_nil, false_implies, implies_true, and_true]
      exact ⟨by norm_num, by norm_num, by norm_num, by norm_num⟩)

theorem prime_3969899 : Nat.Prime 3969899 :=
  prime_of_lucasCheck _ 2 [(2, 1), (19, 1), (104471, 1)] (by decide)
    (by
      simp only [List.forall_mem_cons, List.not_mem_nil, false_implies, implies_true, and_true]
      exact ⟨by norm_num, by norm_num, prime_104471⟩)

theorem prime_9350987 : Nat.Prime 9350987 :=
  prime_of_lucasCheck _ 2 [(2, 1), (17, 1), (229, 1), (1201, 1)] (by decide)
    (by
      simp only [List.forall_mem_cons, List.not_mem_nil, false_implies, implies_true, and_true]
      exact ⟨by norm_num, by norm_num, by norm_num, prime_1201⟩)

theorem prime_187019741 : Nat.Prime 187019741 :=
  prime_of_lucasCheck _ 2 [(2, 2), (5, 1), (9350987, 1)] (by decide)
    (by
      simp only [List.forall_mem_cons, List.not_mem_nil, false_implies, implies_true, and_true]
      exact ⟨by norm_num, by norm_num, prime_9350987⟩)

theorem prime_191039911 : Nat.Prime 191039911 :=
  prime_of_lucasCheck _ 3 [(2, 1), (3, 1), (5, 1), (41, 1), (155317, 1)] (by decide)
    (by
      simp only [List.forall_mem_cons, List.not_mem_nil, false_implies, implies_true, and_true]
      exact ⟨by norm_num, by norm_num, by norm_num, by norm_num, prime_155317⟩)

theorem prime_311245691 : Nat.Prime 311245691 :=
  prime_of_lucasCheck _ 2 [(2, 1), (5, 1), (7, 1), (17, 1), (29, 2), (311, 1)] (by decide)
    (by
      simp only [List.forall_mem_cons, List.not_mem_nil, false_implies, implies_true, and_true]
      exact ⟨by norm_num, by norm_num, by norm_num, by norm_num, by norm_num, by norm_num⟩)

theorem prime_622491383 : Nat.Prime 622491383 :=
  prime_of_lucasCheck _ 5 [(2, 1), (311245691, 1)] (by decide)
    (by
      simp only [List.forall_mem_cons, List.not_mem_nil, false_implies, implies_true, and_true]
      exact ⟨by norm_num, prime_311245691⟩)

theorem prime_1002328039319 : Nat.Prime 1002328039319 :=
  prime_of_lucasCheck _ 19 [(2, 1), (126241, 1), (3969899, 1)] (by decide)
    (by
      simp only [List.forall_mem_cons, List.not_mem_nil, false_implies, implies_true, and_true]
      exact ⟨by norm_num, prime_126241, prime_3969899⟩)

theorem prime_208150935158385979 : Nat.Prime 208150935158385979 :=
  prime_of_lucasCheck _ 2
    [(2, 1), (3, 1), (11, 1), (43, 1), (127, 1), (3023, 1), (191039911, 1)]
    (by decide)
    (by
      simp only [List.forall_mem_cons, List.not_mem_nil, false_implies, implies_true, and_true]
      exact ⟨by norm_num, by norm_num, by norm_num, by norm_num, by norm_num, prime_3023,
        prime_191039911⟩)

set_option maxRecDepth 100000 in
theorem prime_2624747550333869278416773953 : Nat.Prime 2624747550333869278416773953 :=
  prime_of_lucasCheck _ 7
    [(2, 6), (3, 2), (1297, 1), (16879, 1), (208150935158385979, 1)]
    (by decide)
    (by
      simp only [List.forall_mem_cons, List.not_mem_nil, false_implies, implies_true, and_true]
      exact ⟨by norm_num, by norm_num, prime_1297, prime_16879, prime_208150935158385979⟩)

set_option maxRecDepth 100000 in
theorem P256.order_prime : Nat.Prime P256.order :=
  prime_of_lucasCheck _ 7
    [(2, 4), (3, 1), (71, 1), (131, 1), (373, 1), (3407, 1), (17449, 1), (38189, 1),
     (187019741, 1), (622491383, 1), (1002328039319, 1), (2624747550333869278416773953, 1)]
    (by decide)
    (by
      simp only [List.forall_mem_cons, List.not_mem_nil, false_implies, implies_true, and_true]
      exact ⟨by norm_num, by norm_num, by norm_num, by norm_num, by norm_num, prime_3407,
        prime_17449, prime_38189, prime_187019741, prime_622491383, prime_1002328039319,
        prime_2624747550333869278416773953⟩)

/-! ## Lagrange interpolation at zero -/

theorem lagrange_zero_list {F : Type} [Field F] [DecidableEq F] (f : Polynomial F)
    (pts : List F) (hnd : pts.Nodup) (hdeg : f.degree < pts.length) :
    (pts.map fun x =>
      f.eval x * ((pts.filter fun y => y ≠ x).map fun y => y * (y - x)⁻¹).prod).sum
      = f.eval 0 := by
  have hcard : pts.toFinset.card = pts.length := List.toFinset_card_of_nodup hnd
  have hf : f = Lagrange.interpolate pts.toFinset id (fun x => f.eval x) :=
    Lagrange.eq_interpolate (Set.injOn_id _) (by rw [hcard]; exact hdeg)
  conv_rhs => rw [hf]
  rw [Lagrange.interpolate_apply, Polynomial.eval_finset_sum, List.sum_toFinset _ hnd]
  congr 1
  apply List.map_congr_left
  intro x _
  rw [Polynomial.eval_mul, Polynomial.eval_C]
  congr 1
  rw [Lagrange.basis, Polynomial.eval_prod]
  have herase : pts.toFinset.erase x = (pts.filter fun y => y ≠ x).toFinset := by
    ext y
    simp [and_comm]
  rw [herase, List.prod_toFinset _ (hnd.filter _)]
  congr 1
  apply List.map_congr_left
  intro y _
  simp only [Lagrange.basisDivisor, id, Polynomial.eval_mul, Polynomial.eval_C,
    Polynomial.eval_sub, Polynomial.eval_X, zero_sub]
  rw [← neg_sub x y, inv_neg]
  ring

/-! ## Byte strings and scalars -/

theorem beToNat_append (bs : List Nat) (b : Nat) :
    beToNat (bs ++ [b]) = beToNat bs * 256 + b := by
  simp [beToNat, List.foldl_append]

theorem natToBE_beToNat (bs : List Nat) (h : ∀ b ∈ bs, b < 256) :
    natToBE bs.length (beToNat bs) = bs := by
  induction bs using List.reverseRecOn with
  | nil => rfl
  | append_singleton init b ih =>
    have hb : b < 256 := h b (by simp)
    have hinit : ∀ c ∈ init, c < 256 := fun c hc => h c (by simp [hc])
    rw [List.length_append, List.length_singleton, natToBE, beToNat_append]
    have h1 : (beToNat init * 256 + b) / 256 = beToNat init := by omega
    have h2 : (beToNat init * 256 + b) % 256 = b := by omega
    rw [h1, h2, ih hinit]

theorem MarshalBinary_rootScalar (rk : List Nat) (h : interpretable rk) :
    MarshalBinary (rootScalar rk) = rk := by
  obtain ⟨hlen, hbytes, hlt⟩ := h
  have hpos : NeZero P256.order := ⟨by decide⟩
  rw [MarshalBinary, rootScalar, ZMod.val_natCast_of_lt hlt, ← hlen]
  exact natToBE_beToNat rk hbytes

/-! ## Shares of a polynomial -/

theorem evalPoly_zero (c : Scalar) (cs : List Scalar) : evalPoly (c :: cs) 0 = c := by
  simp [evalPoly]

theorem evalPoly_poly (coeffs : List Scalar) :
    ∃ f : Polynomial Scalar, f.degree < coeffs.length ∧ ∀ x, f.eval x = evalPoly coeffs x := by
  induction coeffs with
  | nil => exact ⟨0, by simp, fun x => by simp [evalPoly]⟩
  | cons c cs ih =>
    obtain ⟨g, hg, hev⟩ := ih
    refine ⟨Polynomial.C c + Polynomial.X * g, ?_, fun x => ?_⟩
    · rw [List.length_cons, Polynomial.degree_lt_iff_coeff_zero]
      intro m hm
      rw [Polynomial.degree_lt_iff_coeff_zero] at hg
      obtain ⟨k, rfl⟩ : ∃ k, m = k + 1 := ⟨m - 1, by omega⟩
      rw [Polynomial.coeff_add, Polynomial.coeff_C_succ, Polynomial.coeff_X_mul, zero_add]
      exact hg k (by omega)
    · simp [evalPoly, hev]

theorem lagrangeAtZero_eq (f : Polynomial Scalar) (sel : List Share)
    (hval : ∀ s ∈ sel, s.Value = f.eval s.ID) (hnd : (sel.map fun s => s.ID).Nodup)
    (hdeg : f.degree < sel.length) : lagrangeAtZero sel = f.eval 0 := by
  haveI : Fact (Nat.Prime P256.order) := ⟨P256.order_prime⟩
  have hlen : (sel.map fun s => s.ID).length = sel.length := List.length_map _ _
  rw [← lagrange_zero_list f (sel.map fun s => s.ID) hnd (by rw [hlen]; exact hdeg)]
  rw [lagrangeAtZero, List.map_map]
  congr 1
  apply List.map_congr_left
  intro s hs
  simp only [Function.comp]
  rw [hval s hs, List.filter_map, List.map_map]
  rfl

theorem mem_split (sample : List Nat → Nat → Scalar) (rk : List Nat) (t n : Nat) (s : Share) :
    s ∈ split sample rk t n ↔ ∃ i < n, s =
      { ID := ((i + 1 : Nat) : Scalar),
        Value := evalPoly (rootScalar rk :: (List.range (t - 1)).map (fun j => sample rk j))
          ((i + 1 : Nat) : Scalar) } := by
  simp only [split, List.mem_map, List.mem_range]
  constructor
  · rintro ⟨i, hi, rfl⟩
    exact ⟨i, hi, rfl⟩
  · rintro ⟨i, hi, rfl⟩
    exact ⟨i, hi, rfl⟩

theorem id_cast_inj (n i j : Nat) (hn : n < 2 ^ 64) (hi : i < n) (hj : j < n)
    (h : ((i + 1 : Nat) : Scalar) = ((j + 1 : Nat) : Scalar)) : i = j := by
  have hq : (2 : Nat) ^ 64 < P256.order := by decide
  rw [ZMod.natCast_eq_natCast_iff', Nat.mod_eq_of_lt (by omega), Nat.mod_eq_of_lt (by omega)] at h
  omega

theorem id_cast_ne_zero (n i : Nat) (hn : n < 2 ^ 64) (hi : i < n) :
    ((i + 1 : Nat) : Scalar) ≠ 0 := by
  have hq : (2 : Nat) ^ 64 < P256.order := by decide
  intro h
  rw [ZMod.natCast_zmod_eq_zero_iff_dvd] at h
  exact absurd (Nat.le_of_dvd (by omega) h) (by omega)

theorem recover_split (sample : List Nat → Nat → Scalar) (rk : List Nat) (t n : Nat)
    (sel : List Share) (ht : 1 ≤ t) (hn : n < 2 ^ 64)
    (hsub : ∀ s ∈ sel, s ∈ split sample rk t n) (hnd : sel.Nodup) (hlen : t ≤ sel.length) :
    recover t sel = some (rootScalar rk) := by
  obtain ⟨f, hdeg, hev⟩ :=
    evalPoly_poly (rootScalar rk :: (List.range (t - 1)).map (fun j => sample rk j))
  have hcl : (rootScalar rk :: (List.range (t - 1)).map (fun j => sample rk j)).length = t := by
    simp; omega
  rw [hcl] at hdeg
  have hids : (sel.map fun s => s.ID).Nodup := by
    refine List.Nodup.map_on ?_ hnd
    intro a ha b hb hab
    obtain ⟨i, hi, rfl⟩ := (mem_split sample rk t n a).mp (hsub a ha)
    obtain ⟨j, hj, rfl⟩ := (mem_split sample rk t n b).mp (hsub b hb)
    have : i = j := id_cast_inj n i j hn hi hj hab
    rw [this]
  have hnz : (0 : Scalar) ∉ sel.map (fun s => s.ID) := by
    intro h0
    obtain ⟨s, hs, hs0⟩ := List.mem_map.mp h0
    obtain ⟨i, hi, rfl⟩ := (mem_split sample rk t n s).mp (hsub s hs)
    exact id_cast_ne_zero n i hn hi hs0
  have hval : ∀ s ∈ sel, s.Value = f.eval s.ID := by
    intro s hs
    obtain ⟨i, hi, rfl⟩ := (mem_split sample rk t n s).mp (hsub s hs)
    exact (hev _).symm
  rw [recover, if_neg (by simp only [not_or, not_not, not_lt]; exact ⟨hlen, hids, hnz⟩)]
  rw [lagrangeAtZero_eq f sel hval hids (lt_of_lt_of_le hdeg (by exact_mod_cast hlen)), hev,
    evalPoly_zero]

theorem split_nodup (sample : List Nat → Nat → Scalar) (rk : List Nat) (t n : Nat)
    (hn : n < 2 ^ 64) : (split sample rk t n).Nodup := by
  rw [split]
  refine List.Nodup.map_on ?_ (List.nodup_range n)
  intro i hi j hj hij
  rw [List.mem_range] at hi hj
  exact id_cast_inj n i j hn hi hj (congrArg Share.ID hij)

theorem split_length (sample : List Nat → Nat → Scalar) (rk : List Nat) (t n : Nat) :
    (split sample rk t n).length = n := by
  simp [split]

theorem mustUpdateRecoveryInfo_checked (W : Recovery) (rk : List Nat) (shares : List Share)
    (h : (mustUpdateRecoveryInfo W rk).2 = some shares) :
    shares = (W.computeShares rk).2 ∧
    W.sanityCheck (W.computeShares rk).1 (W.computeShares rk).2 = true := by
  unfold mustUpdateRecoveryInfo at h
  by_cases hs : W.sanityCheck (W.computeShares rk).1 (W.computeShares rk).2 = true
  · simp only [hs, if_true, Option.some.injEq] at h
    exact ⟨h.symm, hs⟩
  · simp [hs] at h

/-- C5: Shamir round trip. For every 32-byte root key interpretable as a P-256
scalar and every `1 ≤ t ≤ n` (`n` a Go `uint`, below `2 ^ 64`), reconstructing
from any `t` distinct shares among the `n` computed ones, in any order, gives
back the root key byte for byte. In the recovery
environment built on this share computation, `mustUpdateRecoveryInfo` passes
the check and returns exactly the computed shares; whenever it returns shares
the check on them has passed, and every request `sendShardsToKeepers` posts
was preceded by a passed check on the shares of that round. The order of the
code holds for every share computation and every check, not only for this
one: in any environment `W`, `mustUpdateRecoveryInfo` returns no shares when
the check fails on the computed shares, and the shares it returns are the
computed ones on which the check has passed; a round of `sendShardsToKeepers`
in which the check fails posts nothing, and every request a call posts belongs
to a round whose computed shares passed the check. -/
theorem shamir_round_trip (net : Recovery) (sample : List Nat → Nat → Scalar)
    (rk : List Nat) (t n : Nat) (sel : List Share)
    (hrk : interpretable rk) (ht : 1 ≤ t) (htn : t ≤ n) (hn : n < 2 ^ 64)
    (hsub : ∀ s ∈ sel, s ∈ split sample rk t n) (hnd : sel.Nodup) (hlen : sel.length = t) :
    reconstruct t sel = some rk ∧
    mustUpdateRecoveryInfo (shamirRecovery net sample t n) rk
      = (rk, some (split sample rk t n)) ∧
    (∀ rk1 shares, (mustUpdateRecoveryInfo (shamirRecovery net sample t n) rk1).2 = some shares →
      shares = split sample rk1 t n ∧ sanityCheck t (rootScalar rk1) shares = true) ∧
    (∀ rootKeyAt keepers ev,
      ev ∈ (sendShardsToKeepers (shamirRecovery net sample t n) rootKeyAt keepers).posts →
      sanityCheck t (rootScalar (rootKeyAt ev.keeperId))
        (split sample (rootKeyAt ev.keeperId) t n) = true) ∧
    (∀ (W : Recovery) (rk1 : List Nat),
      (W.sanityCheck (W.computeShares rk1).1 (W.computeShares rk1).2 = false →
        (mustUpdateRecoveryInfo W rk1).2 = none) ∧
      (∀ shares, (mustUpdateRecoveryInfo W rk1).2 = some shares →
        shares = (W.computeShares rk1).2 ∧
        W.sanityCheck (W.computeShares rk1).1 (W.computeShares rk1).2 = true)) ∧
    (∀ (W : Recovery) (rootKey : List Nat) (keeperId keeperApiRoot : String),
      W.sanityCheck (W.computeShares rootKey).1 (W.computeShares rootKey).2 = false →
      (sendShardToKeeper W rootKey keeperId keeperApiRoot).2 = none) ∧
    (∀ (W : Recovery) (rootKeyAt : String → List Nat) (keepers : List (String × String)),
      ∀ ev ∈ (sendShardsToKeepers W rootKeyAt keepers).posts,
        W.sanityCheck (W.computeShares (rootKeyAt ev.keeperId)).1
          (W.computeShares (rootKeyAt ev.keeperId)).2 = true) := by
  refine ⟨?_, ?_, ?_, ?_, ?_, ?_, ?_⟩
  case refine_5 =>
    intro W rk1
    refine ⟨fun hfail => ?_, fun shares h => mustUpdateRecoveryInfo_checked W rk1 shares h⟩
    simp [mustUpdateRecoveryInfo, hfail]
  case refine_6 =>
    intro W rootKey keeperId keeperApiRoot hfail
    cases hp : (sendShardToKeeper W rootKey keeperId keeperApiRoot).2 with
    | none => rfl
    | some ev =>
      obtain ⟨-, -, -, hs, -⟩ := sendShardToKeeper_posted W rootKey keeperId keeperApiRoot ev hp
      rw [hfail] at hs
      exact absurd hs (by simp)
  case refine_7 =>
    intro W rootKeyAt keepers ev hev
    obtain ⟨keeper, -, hstep⟩ := sendShardsToKeepers_posted W rootKeyAt keepers ev hev
    obtain ⟨hid, -, -, hs, -⟩ := sendShardToKeeper_posted W _ _ _ ev hstep
    rw [hid]
    exact hs
  · rw [reconstruct, recover_split sample rk t n sel ht hn hsub hnd (le_of_eq hlen.symm),
      Option.map_some', MarshalBinary_rootScalar rk hrk]
  · have hall : recover t (split sample rk t n) = some (rootScalar rk) :=
      recover_split sample rk t n _ ht hn (fun s hs => hs) (split_nodup sample rk t n hn)
        (by rw [split_length]; exact htn)
    simp [mustUpdateRecoveryInfo, shamirRecovery, computeShares, sanityCheck, hall]
  · intro rk1 shares h
    obtain ⟨h1, h2⟩ := mustUpdateRecoveryInfo_checked _ rk1 shares h
    rw [h1]
    exact ⟨rfl, h2⟩
  · intro rootKeyAt keepers ev hev
    obtain ⟨keeper, -, hstep⟩ := sendShardsToKeepers_posted _ rootKeyAt keepers ev hev
    obtain ⟨hid, -, -, hs, -⟩ := sendShardToKeeper_posted _ _ _ _ ev hstep
    rw [hid]
    exact hs

/-- Witness of C5: threshold 2 of 3 on the example root key, rebuilt from the
third and the first share; and in the environment whose check fails,
`mustUpdateRecoveryInfo` returns no shares and `sendShardsToKeepers` posts
nothing. -/
theorem shamir_round_trip_witness :
    (reconstruct 2 [{ ID := 3, Value := 189 }, { ID := 1, Value := 91 }] = some demoRootKey ∧
    mustUpdateRecoveryInfo (shamirRecovery demoRecovery demoSample 2 3) demoRootKey
      = (demoRootKey, some (split demoSample demoRootKey 2 3)) ∧
    (∀ rk1 shares,
      (mustUpdateRecoveryInfo (shamirRecovery demoRecovery demoSample 2 3) rk1).2 = some shares →
      shares = split demoSample rk1 2 3 ∧ sanityCheck 2 (rootScalar rk1) shares = true) ∧
    (∀ rootKeyAt keepers ev,
      ev ∈ (sendShardsToKeepers (shamirRecovery demoRecovery demoSample 2 3) rootKeyAt
        keepers).posts →
      sanityCheck 2 (rootScalar (rootKeyAt ev.keeperId))
        (split demoSample (rootKeyAt ev.keeperId) 2 3) = true) ∧
    (∀ (W : Recovery) (rk1 : List Nat),
      (W.sanityCheck (W.computeShares rk1).1 (W.computeShares rk1).2 = false →
        (mustUpdateRecoveryInfo W rk1).2 = none) ∧
      (∀ shares, (mustUpdateRecoveryInfo W rk1).2 = some shares →
        shares = (W.computeShares rk1).2 ∧
        W.sanityCheck (W.computeShares rk1).1 (W.computeShares rk1).2 = true)) ∧
    (∀ (W : Recovery) (rootKey : List Nat) (keeperId keeperApiRoot : String),
      W.sanityCheck (W.computeShares rootKey).1 (W.computeShares rootKey).2 = false →
      (sendShardToKeeper W rootKey keeperId keeperApiRoot).2 = none) ∧
    (∀ (W : Recovery) (rootKeyAt : String → List Nat) (keepers : List (String × String)),
      ∀ ev ∈ (sendShardsToKeepers W rootKeyAt keepers).posts,
        W.sanityCheck (W.computeShares (rootKeyAt ev.keeperId)).1
          (W.computeShares (rootKeyAt ev.keeperId)).2 = true)) ∧
    (mustUpdateRecoveryInfo failingCheckRecovery demoRootKey).2 = none ∧
    (sendShardsToKeepers failingCheckRecovery (fun _ => demoRootKey) demoKeepers).posts = [] ∧
    (sendShardsToKeepers demoRecovery (fun _ => demoRootKey) demoKeepers).posts.map
      (fun ev => ev.keeperId) = ["1", "2", "3"] :=
  ⟨shamir_round_trip demoRecovery demoSample demoRootKey 2 3
      [{ ID := 3, Value := 189 }, { ID := 1, Value := 91 }]
      (by decide) (by decide) (by decide) (by decide) (by decide) (by decide) rfl,
    by decide, by decide, by decide⟩

/-- Witness of C6: in the example, the request posted for keeper `2` carries
the serialization of the value of the share with `ID` 2. -/
theorem sendShardsToKeepers_own_share_witness :
    ∃ sr ∈ (demoRecovery.computeShares demoRootKey).2,
      sr.ID = SetUint64 (uint64 2) ∧
      ((0 : Int) ≤ 2 → sr.ID = (((2 : Int).toNat : Nat) : Scalar)) ∧
      (demoRecovery.computeShares demoRootKey).2.find?
        (fun s => s.ID == SetUint64 (uint64 2)) = some sr ∧
      demoRecovery.marshalBinary sr.Value = some demoPost.request.Shard ∧
      demoPost.request.Shard.length = 32 ∧
      demoRecovery.jsonMarshal demoPost.request = some demoPost.body ∧
      ∃ apiRoot, (demoPost.keeperId, apiRoot) ∈ demoKeepers ∧
        demoRecovery.joinPath apiRoot = some demoPost.url :=
  sendShardsToKeepers_own_share demoRecovery (fun _ => demoRootKey) demoKeepers demoPost 2
    (by decide) (by decide)

/-! ## Policy store operations -/

theorem mapLoad_mapStore (m : PolicyStore) (key : String) (value : Policy) :
    mapLoad (mapStore m key value) key = some value := by
  unfold mapLoad mapStore
  rw [List.find?_append]
  have h : (m.filter (fun e => e.1 ≠ key)).find? (fun e => e.1 = key) = none := by
    rw [List.find?_eq_none]
    intro e he
    have := (List.mem_filter.mp he).2
    simpa using this
  simp [h]

theorem mapLoad_mapDelete (m : PolicyStore) (key : String) :
    mapLoad (mapDelete m key) key = none := by
  unfold mapLoad mapDelete
  have h : (m.filter (fun e => e.1 ≠ key)).find? (fun e => e.1 = key) = none := by
    rw [List.find?_eq_none]
    intro e he
    have := (List.mem_filter.mp he).2
    simpa using this
  simp [h]

theorem CreatePolicy_exists (ext : String → Option Regexp) (newId : String) (now : Nat)
    (st : PolicyState) (policy : Policy) (hN : policy.Name ≠ "")
    (hex : ∃ p ∈ ListPolicies st.policies, p.Name = policy.Name) :
    CreatePolicy ext newId now st policy = ((Policy.zero, some .ErrPolicyExists), st) := by
  have hany : (ListPolicies st.policies).any (fun p => decide (p.Name = policy.Name)) = true := by
    rw [List.any_eq_true]
    obtain ⟨p, hp, hpn⟩ := hex
    exact ⟨p, hp, by simpa using hpn⟩
  rw [CreatePolicy, if_neg hN, if_pos hany]

theorem CreatePolicy_ok_stored (ext : String → Option Regexp) (newId : String) (now : Nat)
    (st : PolicyState) (policy : Policy)
    (hok : (CreatePolicy ext newId now st policy).1.2 = none) :
    policy.Name ≠ "" ∧
    (CreatePolicy ext newId now st policy).1.1.Name = policy.Name ∧
    (CreatePolicy ext newId now st policy).1.1 ∈
      ListPolicies (CreatePolicy ext newId now st policy).2.policies := by
  unfold CreatePolicy at hok ⊢
  by_cases hN : policy.Name = ""
  · simp [hN] at hok
  · rw [if_neg hN] at hok ⊢
    by_cases hany : (ListPolicies st.policies).any (fun p => decide (p.Name = policy.Name)) = true
    · rw [if_pos hany] at hok
      simp at hok
    · rw [if_neg hany] at hok ⊢
      generalize (if policy.SpiffeIdPattern ≠ "*" then
          (Compile ext policy.SpiffeIdPattern).map some else some policy.IdRegex) = r1 at hok ⊢
      cases r1 with
      | none => simp at hok
      | some idRegex =>
        dsimp only at hok ⊢
        generalize (if policy.PathPattern ≠ "*" then
            (Compile ext policy.PathPattern).map some else some policy.PathRegex) = r2 at hok ⊢
        cases r2 with
        | none => simp at hok
        | some pathRegex =>
          refine ⟨hN, rfl, ?_⟩
          simp [ListPolicies, mapStore]

/-- C12: a name that is taken is refused. When the store holds a policy named
as the input (a non-empty name), `CreatePolicy` returns the zero policy with
`ErrPolicyExists` and leaves the state - the in-memory store and what was sent
to persistence - as it was. In particular, after any successful `CreatePolicy`
of a policy with that name, this call returns `ErrPolicyExists`. -/
theorem CreatePolicy_name_taken (ext : String → Option Regexp) (newId : String) (now : Nat)
    (st : PolicyState) (policy : Policy) (hN : policy.Name ≠ "")
    (hex : ∃ p ∈ ListPolicies st.policies, p.Name = policy.Name) :
    CreatePolicy ext newId now st policy = ((Policy.zero, some .ErrPolicyExists), st) ∧
    (∀ (id0 : String) (now0 : Nat) (st0 : PolicyState) (first : Policy),
      first.Name = policy.Name →
      (CreatePolicy ext id0 now0 st0 first).1.2 = none →
      CreatePolicy ext newId now (CreatePolicy ext id0 now0 st0 first).2 policy =
        ((Policy.zero, some .ErrPolicyExists), (CreatePolicy ext id0 now0 st0 first).2)) := by
  refine ⟨CreatePolicy_exists ext newId now st policy hN hex, ?_⟩
  intro id0 now0 st0 first hname hok
  obtain ⟨-, hcn, hmem⟩ := CreatePolicy_ok_stored ext id0 now0 st0 first hok
  exact CreatePolicy_exists ext newId now _ policy hN ⟨_, hmem, hcn.trans hname⟩

/-- Witness of C12: the store already holds the policy named `p`. -/
theorem CreatePolicy_name_taken_witness :
    CreatePolicy (fun _ => none) "id-2" 2 { policies := secretsStore, persisted := [] }
        secretsInput =
      ((Policy.zero, some .ErrPolicyExists), { policies := secretsStore, persisted := [] }) ∧
    (∀ (id0 : String) (now0 : Nat) (st0 : PolicyState) (first : Policy),
      first.Name = secretsInput.Name →
      (CreatePolicy (fun _ => none) id0 now0 st0 first).1.2 = none →
      CreatePolicy (fun _ => none) "id-2" 2 (CreatePolicy (fun _ => none) id0 now0 st0 first).2
          secretsInput =
        ((Policy.zero, some .ErrPolicyExists),
          (CreatePolicy (fun _ => none) id0 now0 st0 first).2)) :=
  CreatePolicy_name_taken (fun _ => none) "id-2" 2 { policies := secretsStore, persisted := [] }
    secretsInput (by decide)
    ⟨{ secretsInput with
        Id := "id-1", CreatedAt := 1, PathRegex := some (literal "secrets".toList) },
      List.mem_singleton.mpr rfl, rfl⟩

/-- C13: a pattern that does not compile is refused. For an input with a
non-empty name that no stored policy has, if its `SpiffeIdPattern` or its
`PathPattern` is not `"*"` and `regexp.Compile` fails on it, `CreatePolicy`
returns the zero policy with an error that wraps `ErrInvalidPolicy`, and the
state after the call is the state before it: the store is unchanged and nothing
was sent to persistence. -/
theorem CreatePolicy_invalid_pattern (ext : String → Option Regexp) (newId : String)
    (now : Nat) (st : PolicyState) (policy : Policy) (hN : policy.Name ≠ "")
    (hun : ∀ p ∈ ListPolicies st.policies, p.Name ≠ policy.Name)
    (hbad : (policy.SpiffeIdPattern ≠ "*" ∧ Compile ext policy.SpiffeIdPattern = none) ∨
            (policy.PathPattern ≠ "*" ∧ Compile ext policy.PathPattern = none)) :
    ∃ e, CreatePolicy ext newId now st policy = ((Policy.zero, some e), st) ∧
      e.wrapsInvalidPolicy = true := by
  have hany : ¬ (ListPolicies st.policies).any (fun p => decide (p.Name = policy.Name)) = true := by
    rw [List.any_eq_true]
    rintro ⟨p, hp, hpn⟩
    exact hun p hp (by simpa using hpn)
  rw [CreatePolicy, if_neg hN, if_neg hany]
  by_cases hi : policy.SpiffeIdPattern = "*"
  · rcases hbad with ⟨h1, -⟩ | ⟨hq, hc⟩
    · exact absurd hi h1
    · exact ⟨.invalidPathPattern, by simp [hi, hq, hc], rfl⟩
  · cases hci : Compile ext policy.SpiffeIdPattern with
    | none => exact ⟨.invalidSpiffeIdPattern, by simp [hi, hci], rfl⟩
    | some r =>
      rcases hbad with ⟨-, hc⟩ | ⟨hq, hc⟩
      · rw [hci] at hc
        exact absurd hc (by simp)
      · exact ⟨.invalidPathPattern, by simp [hi, hci, hq, hc], rfl⟩

/-- Witness of C13: the path pattern `(` does not compile. -/
theorem CreatePolicy_invalid_pattern_witness :
    ∃ e, CreatePolicy (fun _ => none) "id-2" 2 { policies := secretsStore, persisted := [] }
        { secretsInput with Name := "q", PathPattern := "(" } =
        ((Policy.zero, some e), { policies := secretsStore, persisted := [] }) ∧
      e.wrapsInvalidPolicy = true :=
  CreatePolicy_invalid_pattern (fun _ => none) "id-2" 2
    { policies := secretsStore, persisted := [] }
    { secretsInput with Name := "q", PathPattern := "(" } (by decide)
    (by
      intro p hp
      have hs : ListPolicies secretsStore = [{ secretsInput with
          Id := "id-1", CreatedAt := 1, PathRegex := some (literal "secrets".toList) }] := by rfl
      rw [hs, List.mem_singleton] at hp
      subst hp
      decide)
    (Or.inr ⟨by decide, by rfl⟩)

theorem namesUnique_mapStore (m : PolicyStore) (key : String) (value : Policy)
    (h : namesUnique m) (hnew : ∀ p ∈ ListPolicies m, p.Name ≠ value.Name) :
    namesUnique (mapStore m key value) := by
  unfold namesUnique ListPolicies mapStore at *
  rw [List.map_append, List.map_append, List.nodup_append]
  refine ⟨?_, by simp, ?_⟩
  · exact List.Nodup.sublist
      (((List.filter_sublist m).map Prod.snd).map (fun p => p.Name)) h
  · intro a ha hb
    simp only [List.map_cons, List.map_nil, List.mem_singleton] at hb
    obtain ⟨p, hp, rfl⟩ := List.mem_map.mp ha
    obtain ⟨e, he, rfl⟩ := List.mem_map.mp hp
    exact hnew e.2 (List.mem_map.mpr ⟨e, (List.mem_filter.mp he).1, rfl⟩) hb

theorem namesUnique_mapDelete (m : PolicyStore) (key : String) (h : namesUnique m) :
    namesUnique (mapDelete m key) := by
  unfold namesUnique ListPolicies mapDelete at *
  exact List.Nodup.sublist (((List.filter_sublist m).map Prod.snd).map (fun p => p.Name)) h

theorem CreatePolicy_namesUnique (ext : String → Option Regexp) (newId : String) (now : Nat)
    (st : PolicyState) (policy : Policy) (h : namesUnique st.policies) :
    namesUnique (CreatePolicy ext newId now st policy).2.policies := by
  unfold CreatePolicy
  by_cases hN : policy.Name = ""
  · rw [if_pos hN]; exact h
  · rw [if_neg hN]
    by_cases hany : (ListPolicies st.policies).any (fun p => decide (p.Name = policy.Name)) = true
    · rw [if_pos hany]; exact h
    · rw [if_neg hany]
      have hnew : ∀ p ∈ ListPolicies st.policies, p.Name ≠ policy.Name := by
        intro p hp hpn
        exact hany (List.any_eq_true.mpr ⟨p, hp, by simpa using hpn⟩)
      generalize (if policy.SpiffeIdPattern ≠ "*" then
          (Compile ext policy.SpiffeIdPattern).map some else some policy.IdRegex) = r1
      cases r1 with
      | none => exact h
      | some idRegex =>
        dsimp only
        generalize (if policy.PathPattern ≠ "*" then
            (Compile ext policy.PathPattern).map some else some policy.PathRegex) = r2
        cases r2 with
        | none => exact h
        | some pathRegex => exact namesUnique_mapStore _ _ _ h hnew

theorem PolicyOp_apply_namesUnique (ext : String → Option Regexp) (st : PolicyState)
    (op : PolicyOp) (hop : op.noBackendHit) (h : namesUnique st.policies) :
    namesUnique (op.apply ext st).policies := by
  cases op with
  | create newId now policy => exact CreatePolicy_namesUnique ext newId now st policy h
  | get be id =>
    have hr : ReadPolicy be id = none := hop
    simp only [PolicyOp.apply, GetPolicy, hr]
    cases mapLoad st.policies id <;> exact h
  | delete id =>
    simp only [PolicyOp.apply, DeletePolicy]
    cases mapLoad st.policies id with
    | none => exact h
    | some v => exact namesUnique_mapDelete _ _ h
  | list => exact h
  | listByPath p => exact h
  | listBySpiffeId p => exact h

theorem runPolicyOps_namesUnique (ext : String → Option Regexp) (ops : List PolicyOp)
    (st : PolicyState) (hops : ∀ op ∈ ops, op.noBackendHit) (h : namesUnique st.policies) :
    namesUnique (runPolicyOps ext st ops).policies := by
  induction ops generalizing st with
  | nil => exact h
  | cons op rest ih =>
    rw [runPolicyOps, List.foldl_cons]
    exact ih _ (fun o ho => hops o (List.mem_cons_of_mem _ ho))
      (PolicyOp_apply_namesUnique ext st op (hops op (List.mem_cons_self _ _)) h)

/-- C14, evaluated on the code: starting from the empty store, create the
policy named `p`, delete it (the backend keeps its copy), create a policy named
`p` again, then `GetPolicy` the first id: the fall-back loads the old policy
from the backend and stores it without looking at the names, and the store
holds two policies named `p`. -/
theorem GetPolicy_duplicates_name :
    namesUnique emptyPolicyState.policies ∧
    (ListPolicies (runPolicyOps (fun _ => none) emptyPolicyState resurrectingOps).policies).map
        (fun p => (p.Id, p.Name)) = [("id-2", "p"), ("id-1", "p")] ∧
    ¬ namesUnique (runPolicyOps (fun _ => none) emptyPolicyState resurrectingOps).policies := by
  refine ⟨by decide, by decide, by decide⟩

/-- C15: create/get round trip. For every input with a non-empty name that no
stored policy has and with each pattern `"*"` or compilable, `CreatePolicy`
returns no error and a policy `p` whose `Id` is the fresh uuid (whatever the
input `Id` was), whose `Name`, patterns and `Permissions` are the input ones
and whose `CreatedAt` is the input one when that was not the zero time (the
clock reading otherwise); right after, `GetPolicy(p.Id)` returns `p` with no
error and changes nothing, whatever the backend does. -/
theorem CreatePolicy_GetPolicy_round_trip (ext : String → Option Regexp) (newId : String)
    (now : Nat) (st : PolicyState) (policy : Policy) (be : Option Backend)
    (hN : policy.Name ≠ "")
    (hun : ∀ p ∈ ListPolicies st.policies, p.Name ≠ policy.Name)
    (hid : policy.SpiffeIdPattern = "*" ∨ (Compile ext policy.SpiffeIdPattern).isSome = true)
    (hpath : policy.PathPattern = "*" ∨ (Compile ext policy.PathPattern).isSome = true) :
    ∃ p st1, CreatePolicy ext newId now st policy = ((p, none), st1) ∧
      p.Id = newId ∧ p.Name = policy.Name ∧
      p.SpiffeIdPattern = policy.SpiffeIdPattern ∧ p.PathPattern = policy.PathPattern ∧
      p.Permissions = policy.Permissions ∧
      (policy.CreatedAt ≠ 0 → p.CreatedAt = policy.CreatedAt) ∧
      (policy.CreatedAt = 0 → p.CreatedAt = now) ∧
      GetPolicy be st1 p.Id = ((p, none), st1) := by
  have hany : ¬ (ListPolicies st.policies).any (fun p => decide (p.Name = policy.Name)) = true := by
    rw [List.any_eq_true]
    rintro ⟨p, hp, hpn⟩
    exact hun p hp (by simpa using hpn)
  have h1 : ∃ idRegex, (if policy.SpiffeIdPattern ≠ "*" then
      (Compile ext policy.SpiffeIdPattern).map some else some policy.IdRegex) = some idRegex := by
    by_cases hi : policy.SpiffeIdPattern = "*"
    · exact ⟨policy.IdRegex, by simp [hi]⟩
    · obtain ⟨r, hr⟩ := Option.isSome_iff_exists.mp (hid.resolve_left hi)
      exact ⟨some r, by simp [hi, hr]⟩
  have h2 : ∃ pathRegex, (if policy.PathPattern ≠ "*" then
      (Compile ext policy.PathPattern).map some else some policy.PathRegex) = some pathRegex := by
    by_cases hq : policy.PathPattern = "*"
    · exact ⟨policy.PathRegex, by simp [hq]⟩
    · obtain ⟨r, hr⟩ := Option.isSome_iff_exists.mp (hpath.resolve_left hq)
      exact ⟨some r, by simp [hq, hr]⟩
  obtain ⟨idRegex, h1⟩ := h1
  obtain ⟨pathRegex, h2⟩ := h2
  rw [CreatePolicy, if_neg hN, if_neg hany, h1]
  dsimp only
  rw [h2]
  refine ⟨_, _, rfl, rfl, rfl, rfl, rfl, rfl, ?_, ?_, ?_⟩
  · intro h0
    simp [h0]
  · intro h0
    simp [h0]
  · simp only [GetPolicy, mapLoad_mapStore]

/-- Witness of C15: the policy for path pattern `secrets` is created on the
empty store with the uuid `id-1`, and read back while the backend is absent. -/
theorem CreatePolicy_GetPolicy_round_trip_witness :
    ∃ p st1, CreatePolicy (fun _ => none) "id-1" 1 emptyPolicyState secretsInput
        = ((p, none), st1) ∧
      p.Id = "id-1" ∧ p.Name = secretsInput.Name ∧
      p.SpiffeIdPattern = secretsInput.SpiffeIdPattern ∧
      p.PathPattern = secretsInput.PathPattern ∧
      p.Permissions = secretsInput.Permissions ∧
      (secretsInput.CreatedAt ≠ 0 → p.CreatedAt = secretsInput.CreatedAt) ∧
      (secretsInput.CreatedAt = 0 → p.CreatedAt = 1) ∧
      GetPolicy none st1 p.Id = ((p, none), st1) :=
  CreatePolicy_GetPolicy_round_trip (fun _ => none) "id-1" 1 emptyPolicyState secretsInput none
    (by decide) (by intro p hp; simp [emptyPolicyState, ListPolicies] at hp)
    (Or.inl rfl) (Or.inr (by rfl))

theorem GetPolicy_after_delete_not_found (be : Option Backend) (st : PolicyState) (id : String)
    (hdel : (DeletePolicy st id).1 = none) (hbe : ReadPolicy be id = none) :
    GetPolicy be (DeletePolicy st id).2 id =
      ((Policy.zero, some .ErrPolicyNotFound), (DeletePolicy st id).2) := by
  unfold DeletePolicy at hdel ⊢
  cases hl : mapLoad st.policies id with
  | none => simp [hl] at hdel
  | some v => simp only [GetPolicy, mapLoad_mapDelete, hbe]

/-- C16, evaluated on the code: the policy `id-1` is in memory; `DeletePolicy`
returns `nil` and the policy is gone from `ListPolicies`; the backend failed to
delete its copy, and `GetPolicy(id-1)` then returns that policy with a `nil`
error and puts it back into the in-memory store, where `ListPolicies` shows it
again. -/
theorem GetPolicy_after_delete_resurrects :
    (DeletePolicy { policies := secretsStore, persisted := [] } "id-1").1 = none ∧
    ListPolicies (DeletePolicy { policies := secretsStore, persisted := [] } "id-1").2.policies
      = [] ∧
    (GetPolicy (some (backendHolding secretsPolicy))
      (DeletePolicy { policies := secretsStore, persisted := [] } "id-1").2 "id-1").1
      = (secretsPolicy, none) ∧
    ListPolicies (GetPolicy (some (backendHolding secretsPolicy))
      (DeletePolicy { policies := secretsStore, persisted := [] } "id-1").2 "id-1").2.policies
      = [secretsPolicy] := by
  refine ⟨by rfl, by rfl, by rfl, by rfl⟩

/-! ## Request guards -/

/-- C11, evaluated on the code: the extracted id fails `ValidateSpiffeId`; the
guard writes the 401 response and goes on. With a valid path and a stored
policy that grants `Write` it returns `nil`; with an invalid path it writes a
second response and returns the path error. `guardListPolicyRequest` returns
`ErrUnauthorized` right after the same 401 response. -/
theorem guardDeleteSecretRequest_falls_through :
    guardDeleteSecretRequest (fun _ => false) [("id-w", writeEverywhere)] underscoreCall "/foo"
      = some { responses := [(401, .ErrUnauthorized)], err := none } ∧
    guardDeleteSecretRequest (fun _ => false) [("id-w", writeEverywhere)] underscoreCall ""
      = some { responses := [(401, .ErrUnauthorized), (400, .ErrBadInput)],
               err := some .validatePath } ∧
    guardDeleteSecretRequest (fun _ => false) [] underscoreCall "/foo"
      = some { responses := [(401, .ErrUnauthorized), (401, .ErrUnauthorized)],
               err := some .ErrUnauthorized } ∧
    guardListPolicyRequest (fun _ => false) [("id-w", writeEverywhere)] underscoreCall
      = some { responses := [(401, .ErrUnauthorized)], err := some .ErrUnauthorized } := by
  refine ⟨by decide, by decide, by decide, by decide⟩

/-! ## Keeper -/

/-- C17: for every keeper request that is read and parsed, `RouteShard`
answers 404 with `Err = ErrNotFound` and returns `errors.ErrNotFound` exactly
when all bytes of the stored shard are zero; otherwise it answers 200 with a
body whose `Shard` is the stored 32 bytes, byte for byte, and returns `nil`. -/
theorem RouteShard_not_found_iff (c : ShardCall) (myShard : List Nat) (body : String)
    (hb : c.requestBody = some body) (hr : c.request = some ())
    (hlen : myShard.length = 32) :
    (((RouteShard c myShard).response =
          some (404, { Shard := List.replicate 32 0, Err := .ErrNotFound }) ∧
        (RouteShard c myShard).err = some .ErrNotFound) ↔ ∀ b ∈ myShard, b = 0) ∧
    (¬ (∀ b ∈ myShard, b = 0) →
      (RouteShard c myShard).response = some (200, { Shard := myShard, Err := .empty }) ∧
      (RouteShard c myShard).err = none ∧
      ∃ r, (RouteShard c myShard).response = some (200, r) ∧ r.Shard.length = 32) := by
  have hz : (myShard.all (fun b => b == 0) = true) ↔ ∀ b ∈ myShard, b = 0 := by
    simp [List.all_eq_true]
  unfold RouteShard
  simp only [hb, hr]
  by_cases h : myShard.all (fun b => b == 0) = true
  · have h0 := hz.mp h
    rw [if_pos h]
    exact ⟨⟨fun _ => h0, fun _ => ⟨rfl, rfl⟩⟩, fun hn => absurd h0 hn⟩
  · have h0 : ¬ ∀ b ∈ myShard, b = 0 := fun hall => h (hz.mpr hall)
    rw [if_neg h]
    refine ⟨⟨fun hres => ?_, fun hall => absurd hall h0⟩, fun _ => ⟨rfl, rfl, _, rfl, hlen⟩⟩
    simp at hres

/-- Witness of C17: a keeper holding the shard `0, ..., 0, 140`. -/
theorem RouteShard_not_found_iff_witness :
    (((RouteShard ⟨some "{}", some ()⟩ (List.replicate 31 0 ++ [140])).response =
          some (404, { Shard := List.replicate 32 0, Err := .ErrNotFound }) ∧
        (RouteShard ⟨some "{}", some ()⟩ (List.replicate 31 0 ++ [140])).err =
          some .ErrNotFound) ↔ ∀ b ∈ List.replicate 31 0 ++ [140], b = 0) ∧
    (¬ (∀ b ∈ List.replicate 31 0 ++ [140], b = 0) →
      (RouteShard ⟨some "{}", some ()⟩ (List.replicate 31 0 ++ [140])).response =
        some (200, { Shard := List.replicate 31 0 ++ [140], Err := .empty }) ∧
      (RouteShard ⟨some "{}", some ()⟩ (List.replicate 31 0 ++ [140])).err = none ∧
      ∃ r, (RouteShard ⟨some "{}", some ()⟩ (List.replicate 31 0 ++ [140])).response =
        some (200, r) ∧ r.Shard.length = 32) :=
  RouteShard_not_found_iff ⟨some "{}", some ()⟩ (List.replicate 31 0 ++ [140]) "{}" rfl rfl
    (by decide)

/-! ## Router -/

theorem switchOn_nil (a p : String) : switchOn [] a p = .Fallback := rfl

theorem switchOn_cons (a0 p0 : String) (h : Handler)
    (rest : List ((String × String) × Handler)) (a p : String) :
    switchOn (((a0, p0), h) :: rest) a p =
      if a = a0 ∧ p = p0 then h else switchOn rest a p := by
  unfold switchOn
  rw [List.find?_cons]
  by_cases hc : a = a0 ∧ p = p0
  · obtain ⟨rfl, rfl⟩ := hc
    simp
  · have hd : decide (((a0, p0), h).1 = (a, p)) = false := by
      simp only [decide_eq_false_iff_not, Prod.mk.injEq]
      rintro ⟨rfl, rfl⟩
      exact hc ⟨rfl, rfl⟩
    rw [hd, if_neg hc]

theorem routeHandler_eq_switchOn (K : ApiConstants) (a p : String) :
    routeHandler K a p = switchOn (routeCases K) a p := by
  simp only [routeCases, switchOn_cons, switchOn_nil]
  rfl

theorem switchOn_of_mem (cases : List ((String × String) × Handler))
    (hk : (cases.map (fun e => e.1)).Nodup) (a p : String) (h : Handler)
    (hm : ((a, p), h) ∈ cases) : switchOn cases a p = h := by
  induction cases with
  | nil => simp at hm
  | cons e rest ih =>
    obtain ⟨⟨a0, p0⟩, h0⟩ := e
    rw [switchOn_cons]
    rw [List.map_cons, List.nodup_cons] at hk
    rcases List.mem_cons.mp hm with heq | hrest
    · simp only [Prod.mk.injEq] at heq
      obtain ⟨⟨rfl, rfl⟩, rfl⟩ := heq
      simp
    · have hne : ¬ (a = a0 ∧ p = p0) := by
        rintro ⟨rfl, rfl⟩
        exact hk.1 (List.mem_map.mpr ⟨((a, p), h), hrest, rfl⟩)
      rw [if_neg hne]
      exact ih hk.2 hrest

theorem switchOn_of_not_mem (cases : List ((String × String) × Handler)) (a p : String)
    (hm : (a, p) ∉ cases.map (fun e => e.1)) : switchOn cases a p = .Fallback := by
  induction cases with
  | nil => rfl
  | cons e rest ih =>
    obtain ⟨⟨a0, p0⟩, h0⟩ := e
    rw [switchOn_cons]
    rw [List.map_cons, List.mem_cons, not_or] at hm
    have hne : ¬ (a = a0 ∧ p = p0) := by
      rintro ⟨rfl, rfl⟩
      exact hm.1 rfl
    rw [if_neg hne]
    exact ih hm.2

theorem switchOn_perm (cs ds : List ((String × String) × Handler)) (hperm : cs.Perm ds)
    (hk : (ds.map (fun e => e.1)).Nodup) (a p : String) :
    switchOn cs a p = switchOn ds a p := by
  have hkc : (cs.map (fun e => e.1)).Nodup := (hperm.map _).nodup_iff.mpr hk
  by_cases hm : (a, p) ∈ ds.map (fun e => e.1)
  · obtain ⟨e, he, hek⟩ := List.mem_map.mp hm
    obtain ⟨⟨a0, p0⟩, h⟩ := e
    simp only [Prod.mk.injEq] at hek
    obtain ⟨rfl, rfl⟩ := hek
    rw [switchOn_of_mem ds hk _ _ h he, switchOn_of_mem cs hkc _ _ h (hperm.mem_iff.mpr he)]
  · have hmc : (a, p) ∉ cs.map (fun e => e.1) := fun hc => hm ((hperm.map _).mem_iff.mp hc)
    rw [switchOn_of_not_mem ds a p hm, switchOn_of_not_mem cs a p hmc]

theorem routeCases_keys_nodup (K : ApiConstants) (hK : K.distinct) :
    ((routeCases K).map (fun e => e.1)).Nodup := by
  obtain ⟨ha, hp⟩ := hK
  simp only [List.nodup_cons, List.mem_cons, List.mem_singleton, List.not_mem_nil,
    not_or, not_false_eq_true, and_true, List.nodup_nil] at ha hp
  simp only [routeCases, List.map_cons, List.map_nil, List.nodup_cons, List.mem_cons,
    List.mem_singleton, List.not_mem_nil, Prod.mk.injEq, not_or, not_and, not_false_eq_true,
    and_true, List.nodup_nil]
  tauto

theorem routeHandler_of_case (K : ApiConstants) (hK : K.distinct) (a p : String) (h : Handler)
    (hm : ((a, p), h) ∈ routeCases K) : routeHandler K a p = h := by
  rw [routeHandler_eq_switchOn]
  exact switchOn_of_mem _ (routeCases_keys_nodup K hK) a p h hm

/-- C20: with pairwise distinct action constants and pairwise distinct URL
constants, the selector inside `Route` sends each of the twelve documented
`(action, path)` pairs to its own handler; and a `switch` holding the same
twelve cases in any other order selects the same handler for every
`(action, path)`, so the order of the cases does not matter. -/
theorem routeHandler_documented (K : ApiConstants) (hK : K.distinct) :
    routeHandler K K.ActionNexusDefault K.SpikeNexusUrlSecrets = .RoutePutSecret ∧
    routeHandler K K.ActionNexusGet K.SpikeNexusUrlSecrets = .RouteGetSecret ∧
    routeHandler K K.ActionNexusDelete K.SpikeNexusUrlSecrets = .RouteDeleteSecret ∧
    routeHandler K K.ActionNexusUndelete K.SpikeNexusUrlSecrets = .RouteUndeleteSecret ∧
    routeHandler K K.ActionNexusList K.SpikeNexusUrlSecrets = .RouteListPaths ∧
    routeHandler K K.ActionNexusDefault K.SpikeNexusUrlPolicy = .RoutePutPolicy ∧
    routeHandler K K.ActionNexusGet K.SpikeNexusUrlPolicy = .RouteGetPolicy ∧
    routeHandler K K.ActionNexusDelete K.SpikeNexusUrlPolicy = .RouteDeletePolicy ∧
    routeHandler K K.ActionNexusList K.SpikeNexusUrlPolicy = .RouteListPolicies ∧
    routeHandler K K.ActionNexusGet K.SpikeNexusUrlSecretsMetadata = .RouteGetSecretMetadata ∧
    routeHandler K K.ActionNexusDefault K.SpikeNexusUrlOperatorRestore = .RouteRestore ∧
    routeHandler K K.ActionNexusDefault K.SpikeNexusUrlOperatorRecover = .RouteRecover ∧
    (∀ cs : List ((String × String) × Handler), cs.Perm (routeCases K) →
      ∀ a p, switchOn cs a p = routeHandler K a p) := by
  refine ⟨?_, ?_, ?_, ?_, ?_, ?_, ?_, ?_, ?_, ?_, ?_, ?_, ?_⟩
  case refine_13 =>
    intro cs hperm a p
    rw [routeHandler_eq_switchOn]
    exact switchOn_perm cs _ hperm (routeCases_keys_nodup K hK) a p
  all_goals exact routeHandler_of_case K hK _ _ _ (by simp [routeCases])

/-- Witness of C20: the constants of the table of endpoints are pairwise
distinct. -/
theorem routeHandler_documented_witness :
    routeHandler specConstants "" "/v1/store/secrets" = .RoutePutSecret ∧
    routeHandler specConstants "get" "/v1/store/secrets" = .RouteGetSecret ∧
    routeHandler specConstants "delete" "/v1/store/secrets" = .RouteDeleteSecret ∧
    routeHandler specConstants "undelete" "/v1/store/secrets" = .RouteUndeleteSecret ∧
    routeHandler specConstants "list" "/v1/store/secrets" = .RouteListPaths ∧
    routeHandler specConstants "" "/v1/store/policies" = .RoutePutPolicy ∧
    routeHandler specConstants "get" "/v1/store/policies" = .RouteGetPolicy ∧
    routeHandler specConstants "delete" "/v1/store/policies" = .RouteDeletePolicy ∧
    routeHandler specConstants "list" "/v1/store/policies" = .RouteListPolicies ∧
    routeHandler specConstants "get" "/v1/store/secrets/metadata" = .RouteGetSecretMetadata ∧
    routeHandler specConstants "" "/v1/operator/restore" = .RouteRestore ∧
    routeHandler specConstants "" "/v1/operator/recover" = .RouteRecover ∧
    (∀ cs : List ((String × String) × Handler), cs.Perm (routeCases specConstants) →
      ∀ a p, switchOn cs a p = routeHandler specConstants a p) :=
  routeHandler_documented specConstants (by decide)

/-! ## Buffers of a distribution round -/

theorem sendShardToKeeperBuffers_exit (W : Recovery) (rootKey : List Nat)
    (keeperId keeperApiRoot : String) (e : KeeperExit) (b : RoundBuffers)
    (h : sendShardToKeeperBuffers W rootKey keeperId keeperApiRoot = some (e, b)) :
    (sendShardToKeeper W rootKey keeperId keeperApiRoot).1 = e := by
  unfold sendShardToKeeperBuffers at h
  unfold sendShardToKeeper
  cases hu : W.joinPath keeperApiRoot with
  | none => simp [hu] at h
  | some u =>
    simp only [hu] at h ⊢
    by_cases hc : W.createClient keeperId = false
    · simp [hc] at h
    · rw [if_neg hc] at h ⊢
      by_cases hz : RootKeyZero rootKey = true
      · simp [hz] at h
      · rw [if_neg hz] at h ⊢
        by_cases hs : W.sanityCheck (W.computeShares rootKey).1 (W.computeShares rootKey).2 = false
        · simp only [hs, if_true, Option.some.injEq, Prod.mk.injEq] at h ⊢
          exact h.1
        · rw [if_neg hs] at h ⊢
          cases hshare : findKeeperShare keeperId (W.computeShares rootKey).2 with
          | none =>
            simp only [hshare, Option.some.injEq, Prod.mk.injEq] at h ⊢
            exact h.1
          | some share =>
            simp only [hshare] at h ⊢
            by_cases hid : share.ID = 0
            · simp only [hid, if_true, Option.some.injEq, Prod.mk.injEq] at h ⊢
              exact h.1
            · rw [if_neg hid] at h ⊢
              cases hcontr : W.marshalBinary share.Value with
              | none =>
                simp only [hcontr, Option.some.injEq, Prod.mk.injEq] at h ⊢
                exact h.1
              | some contribution =>
                simp only [hcontr] at h ⊢
                by_cases hlen : contribution.length ≠ 32
                · rw [if_pos hlen] at h ⊢
                  simp only [Option.some.injEq, Prod.mk.injEq] at h
                  exact h.1
                · rw [if_neg hlen] at h ⊢
                  cases hmd : W.jsonMarshal { KeeperId := "", Shard := copy32 contribution } with
                  | none =>
                    simp only [hmd, Option.some.injEq, Prod.mk.injEq] at h ⊢
                    exact h.1
                  | some md =>
                    simp only [hmd, Option.some.injEq, Prod.mk.injEq] at h ⊢
                    exact h.1

theorem sendShardToKeeperBuffers_zeroed (W : Recovery) (rootKey : List Nat)
    (keeperId keeperApiRoot : String) (e : KeeperExit) (b : RoundBuffers)
    (h : sendShardToKeeperBuffers W rootKey keeperId keeperApiRoot = some (e, b))
    (he : e ≠ .sanityCheckFailed ∧ e ≠ .nilShare ∧ e ≠ .shareNotFound) : b.zeroed := by
  have hz0 : ∀ l : List Share, ∀ s ∈ zeroShares l, s.Value = 0 := by
    intro l s hs
    obtain ⟨r, -, rfl⟩ := List.mem_map.mp hs
    rfl
  have hc0 : ∀ l : List Nat, ∀ x ∈ clearBytes l, x = 0 := by
    intro l x hx
    obtain ⟨y, -, rfl⟩ := List.mem_map.mp hx
    rfl
  unfold sendShardToKeeperBuffers at h
  cases hu : W.joinPath keeperApiRoot with
  | none => simp [hu] at h
  | some u =>
    simp only [hu] at h
    by_cases hc : W.createClient keeperId = false
    · simp [hc] at h
    · rw [if_neg hc] at h
      by_cases hz : RootKeyZero rootKey = true
      · simp [hz] at h
      · rw [if_neg hz] at h
        by_cases hs : W.sanityCheck (W.computeShares rootKey).1 (W.computeShares rootKey).2 = false
        · simp only [hs, if_true, Option.some.injEq, Prod.mk.injEq] at h
          exact absurd h.1.symm he.1
        · rw [if_neg hs] at h
          cases hshare : findKeeperShare keeperId (W.computeShares rootKey).2 with
          | none =>
            simp only [hshare, Option.some.injEq, Prod.mk.injEq] at h
            exact absurd h.1.symm he.2.1
          | some share =>
            simp only [hshare] at h
            by_cases hid : share.ID = 0
            · simp only [hid, if_true, Option.some.injEq, Prod.mk.injEq] at h
              exact absurd h.1.symm he.2.2
            · rw [if_neg hid] at h
              cases hcontr : W.marshalBinary share.Value with
              | none =>
                simp only [hcontr, Option.some.injEq, Prod.mk.injEq] at h
                rw [← h.2]
                exact ⟨rfl, hz0 _, by simp, by simp, by simp, by simp⟩
              | some contribution =>
                simp only [hcontr] at h
                by_cases hlen : contribution.length ≠ 32
                · rw [if_pos hlen] at h
                  simp only [Option.some.injEq, Prod.mk.injEq] at h
                  rw [← h.2]
                  exact ⟨rfl, hz0 _, by simp, hc0 _, by simp, by simp⟩
                · rw [if_neg hlen] at h
                  cases hmd : W.jsonMarshal { KeeperId := "", Shard := copy32 contribution } with
                  | none =>
                    simp only [hmd, Option.some.injEq, Prod.mk.injEq] at h
                    rw [← h.2]
                    exact ⟨rfl, hz0 _, by simp, hc0 _, hc0 _, by simp⟩
                  | some md =>
                    simp only [hmd, Option.some.injEq, Prod.mk.injEq] at h
                    rw [← h.2]
                    exact ⟨rfl, hz0 _, by simp, hc0 _, hc0 _, hc0 _⟩

/-- C18, evaluated on the code: a round for a keeper whose id matches no share
(keeper `4`, shares 1 to 3) stops at `share.ID.IsZero()` with the root secret
and every `rootShares[i].Value` still in memory; and on the path that logs
"Failed to find share for keeper" (a selected share whose `ID` is zero) the
`continue` comes before every zeroing statement, so the root secret, the shares
and the selected value are left as computed. -/
theorem sendShardToKeeper_leaves_secrets :
    sendShardToKeeperBuffers demoRecovery demoRootKey "4" "https://keeper4" =
      some (.nilShare,
        { rootSecret := 42,
          rootShares := [{ ID := 1, Value := 91 }, { ID := 2, Value := 140 },
            { ID := 3, Value := 189 }],
          shareValue := none, contribution := [], shard := [], md := [] }) ∧
    sendShardToKeeperBuffers zeroIdRecovery demoRootKey "0" "https://keeper0" =
      some (.shareNotFound,
        { rootSecret := 42, rootShares := [{ ID := 0, Value := 7 }],
          shareValue := some 7, contribution := [], shard := [], md := [] }) := by
  refine ⟨by decide, by decide⟩

/-- C19, evaluated on the code: a keeper whose id is not a decimal integer
(`x`), or whose id matches no share (`4`), leaves `share` unset; the call
`share.ID.IsZero()` on it ends `sendShardsToKeepers`, and the keeper `1` that
comes next in the map is never processed - although alone it is served. -/
theorem sendShardsToKeepers_aborts :
    (sendShardToKeeper demoRecovery demoRootKey "x" "https://keeperx").1 = .nilShare ∧
    (sendShardsToKeepers demoRecovery (fun _ => demoRootKey)
      [("x", "https://keeperx"), ("1", "https://keeper1")]).aborted = true ∧
    (sendShardsToKeepers demoRecovery (fun _ => demoRootKey)
      [("x", "https://keeperx"), ("1", "https://keeper1")]).posts = [] ∧
    (sendShardsToKeepers demoRecovery (fun _ => demoRootKey)
      [("4", "https://keeper4"), ("1", "https://keeper1")]).aborted = true ∧
    (sendShardsToKeepers demoRecovery (fun _ => demoRootKey)
      [("4", "https://keeper4"), ("1", "https://keeper1")]).posts = [] ∧
    ((sendShardsToKeepers demoRecovery (fun _ => demoRootKey)
      [("1", "https://keeper1")]).posts.map (fun ev => ev.keeperId) = ["1"]) := by
  refine ⟨by decide, by decide, by decide, by decide, by decide, by decide⟩

/-! ## Router: pairs outside the twelve cases -/

/-- C21: every `(action, path)` pair that is not one of the twelve cases of the
`switch` inside `Route` - whatever the values of the constants - is sent to
`net.Fallback`. -/
theorem routeHandler_fallback (K : ApiConstants) (a p : String)
    (hm : (a, p) ∉ (routeCases K).map (fun e => e.1)) :
    routeHandler K a p = .Fallback := by
  rw [routeHandler_eq_switchOn]
  exact switchOn_of_not_mem (routeCases K) a p hm

/-- Witness of C21, with the constants of the table of endpoints: action
`undelete` and an unknown action on the policy URL, the default action on the
secrets-metadata URL, action `get` on the two operator URLs, and an unknown
path all reach `net.Fallback`. -/
theorem routeHandler_fallback_witness :
    routeHandler specConstants "undelete" "/v1/store/policies" = .Fallback ∧
    routeHandler specConstants "rotate" "/v1/store/policies" = .Fallback ∧
    routeHandler specConstants "" "/v1/store/secrets/metadata" = .Fallback ∧
    routeHandler specConstants "get" "/v1/operator/restore" = .Fallback ∧
    routeHandler specConstants "get" "/v1/operator/recover" = .Fallback ∧
    routeHandler specConstants "get" "/v1/unknown" = .Fallback :=
  ⟨routeHandler_fallback specConstants "undelete" "/v1/store/policies" (by decide),
    routeHandler_fallback specConstants "rotate" "/v1/store/policies" (by decide),
    routeHandler_fallback specConstants "" "/v1/store/secrets/metadata" (by decide),
    routeHandler_fallback specConstants "get" "/v1/operator/restore" (by decide),
    routeHandler_fallback specConstants "get" "/v1/operator/recover" (by decide),
    routeHandler_fallback specConstants "get" "/v1/unknown" (by decide)⟩

/-! ## Text and bytes -/

theorem toDigitsCore_append (fuel n : Nat) (ds : List Char) :
    Nat.toDigitsCore 10 fuel n ds = Nat.toDigitsCore 10 fuel n [] ++ ds := by
  induction fuel generalizing n ds with
  | zero => simp [Nat.toDigitsCore]
  | succ fuel ih =>
    simp only [Nat.toDigitsCore]
    by_cases h : n / 10 = 0
    · simp [h]
    · rw [if_neg h, if_neg h, ih (n / 10) (Nat.digitChar (n % 10) :: ds),
        ih (n / 10) [Nat.digitChar (n % 10)]]
      simp

theorem digitChar_facts : ∀ k, k < 10 →
    (Nat.digitChar k).isDigit = true ∧ (Nat.digitChar k).toNat - '0'.toNat = k ∧
    Nat.digitChar k ≠ ':' ∧ Nat.digitChar k ≠ '-' ∧ Nat.digitChar k ≠ '+' ∧
    Nat.digitChar k ≠ '.' := by
  decide

/-- One step of the digit fold of `digitsValue`. -/
theorem digitsValue_step (n k : Nat) (hk : k < 10) :
    (some n : Option Nat).bind (fun m =>
      if (Nat.digitChar k).isDigit then some (10 * m + ((Nat.digitChar k).toNat - '0'.toNat))
      else none) = some (10 * n + k) := by
  obtain ⟨h1, h2, -⟩ := digitChar_facts k hk
  simp only [Option.some_bind, h1, if_true, h2]

theorem toDigitsCore_value (fuel n : Nat) (h : n < fuel) :
    Nat.toDigitsCore 10 fuel n [] ≠ [] ∧
    (∀ c ∈ Nat.toDigitsCore 10 fuel n [], c.isDigit = true) ∧
    (Nat.toDigitsCore 10 fuel n []).foldl (fun acc c => acc.bind fun m =>
      if c.isDigit then some (10 * m + (c.toNat - '0'.toNat)) else none) (some 0) = some n := by
  induction fuel generalizing n with
  | zero => omega
  | succ fuel ih =>
    have hk : n % 10 < 10 := Nat.mod_lt _ (by decide)
    simp only [Nat.toDigitsCore]
    by_cases h0 : n / 10 = 0
    · rw [if_pos h0]
      refine ⟨by simp, ?_, ?_⟩
      · intro c hc
        rw [List.mem_singleton] at hc
        rw [hc]
        exact (digitChar_facts _ hk).1
      · rw [List.foldl_cons, List.foldl_nil, digitsValue_step 0 _ hk]
        congr 1
        omega
    · rw [if_neg h0, toDigitsCore_append]
      have hlt : n / 10 < fuel := by omega
      obtain ⟨-, hd, hv⟩ := ih (n / 10) hlt
      refine ⟨by simp, ?_, ?_⟩
      · intro c hc
        rcases List.mem_append.mp hc with hc | hc
        · exact hd c hc
        · rw [List.mem_singleton] at hc
          rw [hc]
          exact (digitChar_facts _ hk).1
      · rw [List.foldl_append, hv, List.foldl_cons, List.foldl_nil, digitsValue_step _ _ hk]
        congr 1
        omega

theorem digitsValue_toDigits (n : Nat) : digitsValue (Nat.toDigits 10 n) = some n := by
  obtain ⟨hne, -, hv⟩ := toDigitsCore_value (n + 1) n (Nat.lt_succ_self n)
  unfold digitsValue Nat.toDigits
  rw [if_neg (by simpa using hne)]
  exact hv

theorem toDigits_isDigit (n : Nat) : ∀ c ∈ Nat.toDigits 10 n, c.isDigit = true :=
  (toDigitsCore_value (n + 1) n (Nat.lt_succ_self n)).2.1

theorem toDigits_ne_nil (n : Nat) : Nat.toDigits 10 n ≠ [] :=
  (toDigitsCore_value (n + 1) n (Nat.lt_succ_self n)).1

theorem isDigit_not_mark (c : Char) (h : c.isDigit = true) :
    c ≠ ':' ∧ c ≠ '-' ∧ c ≠ '+' ∧ c ≠ '.' ∧ c ≠ '/' := by
  refine ⟨?_, ?_, ?_, ?_, ?_⟩ <;> (rintro rfl; revert h; decide)

theorem formatInt_nonneg (i : Int) (hi : 0 ≤ i) :
    (formatInt i).toList = Nat.toDigits 10 i.toNat := by
  unfold formatInt
  rw [if_neg (by omega)]
  rfl

theorem Atoi_formatInt (i : Int) (hi : 0 ≤ i) (hmax : i < 2 ^ 63) :
    Atoi (formatInt i) = some i := by
  unfold Atoi
  rw [formatInt_nonneg i hi]
  have hne := toDigits_ne_nil i.toNat
  have hd := toDigits_isDigit i.toNat
  have hv := digitsValue_toDigits i.toNat
  have hsig : (match Nat.toDigits 10 i.toNat with
      | '-' :: ds => (true, ds)
      | '+' :: ds => (false, ds)
      | ds => (false, ds)) = (false, Nat.toDigits 10 i.toNat) := by
    split
    · rename_i ds heq
      have := hd '-' (by rw [heq]; exact List.mem_cons_self _ _)
      exact absurd this (by decide)
    · rename_i ds heq
      have := hd '+' (by rw [heq]; exact List.mem_cons_self _ _)
      exact absurd this (by decide)
    · rfl
  simp only [hsig, hv]
  have hnat : ((i.toNat : Nat) : Int) = i := Int.toNat_of_nonneg hi
  simp only [Bool.false_eq_true, if_false, hnat]
  rw [if_pos ⟨by omega, hmax⟩]

theorem splitN_piece (sep : Char) (n : Nat) (a rest : List Char) (ha : sep ∉ a) :
    splitN sep (n + 2) (a ++ sep :: rest) = a :: splitN sep (n + 1) rest := by
  induction a with
  | nil => simp [splitN]
  | cons c a ih =>
    have hc : c ≠ sep := fun h => ha (h ▸ List.mem_cons_self _ _)
    have ha2 : sep ∉ a := fun h => ha (List.mem_cons_of_mem _ h)
    rw [List.cons_append, splitN, if_neg hc, ih ha2]

theorem encodeChar_facts : ∀ v, v < 64 →
    decodeChar (encodeChar v) = some v ∧ encodeChar v ≠ '=' ∧ encodeChar v ≠ '\r' ∧
    encodeChar v ≠ '\n' ∧ encodeChar v ≠ ':' := by
  decide

theorem decodeQuanta_encodeBytes (bs : List Nat) (hb : ∀ b ∈ bs, b < 256) :
    decodeQuanta (encodeBytes bs) = some bs := by
  induction bs using encodeBytes.induct with
  | case1 => rfl
  | case2 a =>
    have ha : a < 256 := hb a (by simp)
    obtain ⟨h0, -⟩ := encodeChar_facts (a / 4) (by omega)
    obtain ⟨h1, -⟩ := encodeChar_facts (a % 4 * 16) (by omega)
    simp only [encodeBytes, decodeQuanta, h0, h1, if_true, and_self]
    congr 2
    omega
  | case3 a b =>
    have ha : a < 256 := hb a (by simp)
    have hb2 : b < 256 := hb b (by simp)
    obtain ⟨h0, -⟩ := encodeChar_facts (a / 4) (by omega)
    obtain ⟨h1, -⟩ := encodeChar_facts (a % 4 * 16 + b / 16) (by omega)
    obtain ⟨h2, h2p, -⟩ := encodeChar_facts (b % 16 * 4) (by omega)
    simp only [encodeBytes, decodeQuanta, h0, h1, h2, if_neg h2p, if_true]
    congr 2
    · omega
    · congr 1
      omega
  | case4 a b c rest ih =>
    have ha : a < 256 := hb a (by simp)
    have hb2 : b < 256 := hb b (by simp)
    have hc : c < 256 := hb c (by simp)
    have hrest : ∀ x ∈ rest, x < 256 := fun x hx => hb x (by simp [hx])
    obtain ⟨h0, -⟩ := encodeChar_facts (a / 4) (by omega)
    obtain ⟨h1, -⟩ := encodeChar_facts (a % 4 * 16 + b / 16) (by omega)
    obtain ⟨h2, h2p, -⟩ := encodeChar_facts (b % 16 * 4 + c / 64) (by omega)
    obtain ⟨h3, h3p, -⟩ := encodeChar_facts (c % 64) (by omega)
    simp only [encodeBytes, decodeQuanta, h0, h1, h2, h3, if_neg h2p, if_neg h3p, ih hrest]
    congr 2
    · omega
    · congr 1
      · omega
      · congr 1
        omega

theorem encodeBytes_chars (bs : List Nat) (hb : ∀ b ∈ bs, b < 256) :
    ∀ ch ∈ encodeBytes bs, ch ≠ '\r' ∧ ch ≠ '\n' ∧ ch ≠ ':' := by
  induction bs using encodeBytes.induct with
  | case1 => simp [encodeBytes]
  | case2 a =>
    have ha : a < 256 := hb a (by simp)
    have e0 := (encodeChar_facts (a / 4) (by omega)).2.2
    have e1 := (encodeChar_facts (a % 4 * 16) (by omega)).2.2
    intro ch hch
    simp only [encodeBytes, List.mem_cons, List.mem_singleton, List.not_mem_nil, or_false] at hch
    rcases hch with rfl | rfl | rfl | rfl
    · exact e0
    · exact e1
    · decide
    · decide
  | case3 a b =>
    have ha : a < 256 := hb a (by simp)
    have hb2 : b < 256 := hb b (by simp)
    have e0 := (encodeChar_facts (a / 4) (by omega)).2.2
    have e1 := (encodeChar_facts (a % 4 * 16 + b / 16) (by omega)).2.2
    have e2 := (encodeChar_facts (b % 16 * 4) (by omega)).2.2
    intro ch hch
    simp only [encodeBytes, List.mem_cons, List.mem_singleton, List.not_mem_nil, or_false] at hch
    rcases hch with rfl | rfl | rfl | rfl
    · exact e0
    · exact e1
    · exact e2
    · decide
  | case4 a b c rest ih =>
    have ha : a < 256 := hb a (by simp)
    have hb2 : b < 256 := hb b (by simp)
    have hc : c < 256 := hb c (by simp)
    have hrest : ∀ x ∈ rest, x < 256 := fun x hx => hb x (by simp [hx])
    have e0 := (encodeChar_facts (a / 4) (by omega)).2.2
    have e1 := (encodeChar_facts (a % 4 * 16 + b / 16) (by omega)).2.2
    have e2 := (encodeChar_facts (b % 16 * 4 + c / 64) (by omega)).2.2
    have e3 := (encodeChar_facts (c % 64) (by omega)).2.2
    intro ch hch
    simp only [encodeBytes, List.mem_cons] at hch
    rcases hch with rfl | rfl | rfl | rfl | hch
    · exact e0
    · exact e1
    · exact e2
    · exact e3
    · exact ih hrest ch hch

theorem DecodeString_EncodeToString (bs : List Nat) (hb : ∀ b ∈ bs, b < 256) :
    DecodeString (EncodeToString bs) = some bs := by
  unfold DecodeString EncodeToString
  have hf : (encodeBytes bs).filter (fun c => decide (c ≠ '\r' ∧ c ≠ '\n')) = encodeBytes bs := by
    rw [List.filter_eq_self]
    intro ch hch
    obtain ⟨h1, h2, -⟩ := encodeBytes_chars bs hb ch hch
    simp [h1, h2]
  show decodeQuanta ((encodeBytes bs).filter (fun c => decide (c ≠ '\r' ∧ c ≠ '\n'))) = some bs
  rw [hf]
  exact decodeQuanta_encodeBytes bs hb

/-! ## Recovery file round trip -/

theorem AtoiValue_of_Atoi (s : String) (v : Int) (h : Atoi s = some v) : AtoiValue s = v := by
  unfold Atoi at h
  unfold AtoiValue
  simp only at h ⊢
  generalize (match s.toList with
    | '-' :: ds => (true, ds)
    | '+' :: ds => (false, ds)
    | ds => (false, ds)) = signed at h ⊢
  cases hd : digitsValue signed.2 with
  | none => simp [hd] at h
  | some n =>
    simp only [hd, Option.ite_none_right_eq_some, Option.some.injEq] at h
    obtain ⟨hr, hv⟩ := h
    dsimp only
    rw [hv] at hr ⊢
    obtain ⟨hlo, hhi⟩ := hr
    rw [if_neg (by omega), if_neg (by omega)]

theorem SplitN_recoveryText (i : Int) (s : List Nat) (hi : 0 ≤ i) :
    SplitN (recoveryText i s) ':' 3 = ["spike", formatInt i, EncodeToString s] := by
  have hchars : (recoveryText i s).toList =
      "spike".toList ++ ':' :: ((formatInt i).toList ++ ':' :: encodeBytes s) := by
    simp [recoveryText, EncodeToString, List.asString]
  have h1 : ':' ∉ "spike".toList := by decide
  have h2 : ':' ∉ (formatInt i).toList := by
    rw [formatInt_nonneg i hi]
    intro hmem
    exact (isDigit_not_mark ':' (toDigits_isDigit _ _ hmem)).1 rfl
  unfold SplitN
  rw [hchars, splitN_piece ':' 1 _ _ h1, splitN_piece ':' 0 _ _ h2]
  simp [splitN, EncodeToString, List.asString]

/-- C22: the recovery file round trip. For every index `i` with `0 ≤ i` (a Go
`int`, so below `2 ^ 63`) and every shard `s` of 32 bytes, the text the recover
command writes - `spike:`, the decimal `i`, `:` and the standard base64 of `s` -
is split by the restore command into exactly the three parts `spike`, the
digits and the base64 text; decoding the third part succeeds and gives back
the 32 bytes of `s`; converting the second part gives `i`; and the restore
command calls the API with exactly `(i, s)`. -/
theorem recover_restore_round_trip (i : Int) (s : List Nat) (hi : 0 ≤ i) (hmax : i < 2 ^ 63)
    (hlen : s.length = 32) (hb : ∀ b ∈ s, b < 256) :
    SplitN (recoveryText i s) ':' 3 = ["spike", formatInt i, EncodeToString s] ∧
    (∃ d, DecodeString (EncodeToString s) = some d ∧ d.length = 32 ∧ d = s) ∧
    Atoi (formatInt i) = some i ∧
    restoreRun (recoveryText i s) = .Restore i s := by
  have hsplit := SplitN_recoveryText i s hi
  have hdec := DecodeString_EncodeToString s hb
  have hatoi := Atoi_formatInt i hi hmax
  refine ⟨hsplit, ⟨s, hdec, hlen, rfl⟩, hatoi, ?_⟩
  unfold restoreRun
  rw [hsplit]
  simp only [hdec, AtoiValue_of_Atoi _ _ hatoi, hlen, ne_eq, not_true_eq_false, if_false]
  rw [List.take_of_length_le (by omega)]

/-- Witness of C22: shard number 1 with the bytes `0, 1, ..., 31`. -/
theorem recover_restore_round_trip_witness :
    recoveryText 1 (List.range 32) = "spike:1:AAECAwQFBgcICQoLDA0ODxAREhMUFRYXGBkaGxwdHh8=" ∧
    (SplitN (recoveryText 1 (List.range 32)) ':' 3 =
        ["spike", formatInt 1, EncodeToString (List.range 32)] ∧
      (∃ d, DecodeString (EncodeToString (List.range 32)) = some d ∧ d.length = 32 ∧
        d = List.range 32) ∧
      Atoi (formatInt 1) = some 1 ∧
      restoreRun (recoveryText 1 (List.range 32)) = .Restore 1 (List.range 32)) :=
  ⟨by decide, recover_restore_round_trip 1 (List.range 32) (by decide) (by decide) (by decide)
    (by decide)⟩

/-- The index of an entered shard is whatever number `strconv.Atoi` returns:
digits beyond the range of `int` reach the API as the largest `int`, and an
index that is no number reaches it as 0. -/
theorem restoreRun_index_as_returned :
    AtoiValue "9223372036854775808" = 9223372036854775807 ∧
    AtoiValue "-99999999999999999999" = -9223372036854775808 ∧
    AtoiValue "12x" = 0 ∧
    restoreRun ("spike:9223372036854775808:" ++ EncodeToString (List.range 32)) =
      .Restore 9223372036854775807 (List.range 32) ∧
    restoreRun ("spike:x:" ++ EncodeToString (List.range 32)) = .Restore 0 (List.range 32) := by
  refine ⟨by decide, by decide, by decide, by decide, by decide⟩

/-! ## Restore command: shards of the wrong length -/

theorem zeroLoop_none (indices : List Nat) (buf : List Nat)
    (h : ∃ i ∈ indices, buf.length ≤ i) :
    indices.foldlM (fun buf i => if i < buf.length then some (buf.set i 0) else none) buf
      = none := by
  induction indices generalizing buf with
  | nil => simp at h
  | cons i rest ih =>
    rw [List.foldlM_cons]
    by_cases hi : i < buf.length
    · rw [if_pos hi]
      obtain ⟨j, hj, hle⟩ := h
      have hrest : j ∈ rest := by
        rcases List.mem_cons.mp hj with rfl | hr
        · omega
        · exact hr
      exact ih (buf.set i 0) ⟨j, hrest, by simpa using hle⟩
    · rw [if_neg hi]
      rfl

theorem zeroLoop_some (indices : List Nat) (buf : List Nat)
    (h : ∀ i ∈ indices, i < buf.length) :
    ∃ r, indices.foldlM (fun buf i => if i < buf.length then some (buf.set i 0) else none) buf
      = some r := by
  induction indices generalizing buf with
  | nil => exact ⟨buf, rfl⟩
  | cons i rest ih =>
    rw [List.foldlM_cons, if_pos (h i (List.mem_cons_self _ _))]
    exact ih (buf.set i 0) (fun j hj => by simpa using h j (List.mem_cons_of_mem _ hj))

theorem zeroFirst32_short (d : List Nat) (h : d.length < 32) : zeroFirst32 d = none :=
  zeroLoop_none (List.range 32) d ⟨d.length, List.mem_range.mpr h, le_refl _⟩

theorem zeroFirst32_long (d : List Nat) (h : 32 ≤ d.length) : ∃ r, zeroFirst32 d = some r :=
  zeroLoop_some (List.range 32) d (fun i hi => by have := List.mem_range.mp hi; omega)

theorem SplitN_three (a b c : String) (ha : ':' ∉ a.toList) (hb : ':' ∉ b.toList) :
    SplitN (a ++ ":" ++ b ++ ":" ++ c) ':' 3 = [a, b, c] := by
  have hchars : (a ++ ":" ++ b ++ ":" ++ c).toList =
      a.toList ++ ':' :: (b.toList ++ ':' :: c.toList) := by
    simp
  unfold SplitN
  rw [hchars, splitN_piece ':' 1 _ _ ha, splitN_piece ':' 0 _ _ hb]
  simp [splitN, List.asString]

theorem restoreRun_wrong_length (a b c : String) (d : List Nat) (ha : ':' ∉ a.toList)
    (hb : ':' ∉ b.toList) (hd : DecodeString c = some d) :
    (d.length < 32 → restoreRun (a ++ ":" ++ b ++ ":" ++ c) = .indexOutOfRange) ∧
    (32 < d.length → restoreRun (a ++ ":" ++ b ++ ":" ++ c) = .invalidShardLength d.length) := by
  unfold restoreRun
  rw [SplitN_three a b c ha hb]
  simp only [hd]
  constructor
  · intro h
    rw [if_pos (by omega), zeroFirst32_short d h]
  · intro h
    obtain ⟨r, hr⟩ := zeroFirst32_long d (by omega)
    rw [if_pos (by omega), hr]

/-- C23, evaluated on the code: a third part that is valid base64 of fewer
than 32 bytes - the empty text, `AAAA` (three bytes), or the base64 of 31
bytes - makes the loop that wipes the decoded buffer run over indices 0 to 31
and leave the command by an index out of range, before the fatal error
`Invalid recovery shard length` is reached; only a decoded length above 32
reaches that fatal error (33 bytes here). In every case the API is not
called. -/
theorem restoreRun_short_shard_panics :
    DecodeString "" = some [] ∧
    restoreRun "spike:1:" = .indexOutOfRange ∧
    DecodeString "AAAA" = some [0, 0, 0] ∧
    restoreRun "spike:1:AAAA" = .indexOutOfRange ∧
    (EncodeToString (List.range 31)).length = 44 ∧
    DecodeString (EncodeToString (List.range 31)) = some (List.range 31) ∧
    restoreRun ("spike:1:" ++ EncodeToString (List.range 31)) = .indexOutOfRange ∧
    restoreRun ("spike:1:" ++ EncodeToString (List.range 33)) = .invalidShardLength 33 ∧
    (∀ (a b c : String) (d : List Nat), ':' ∉ a.toList → ':' ∉ b.toList →
      DecodeString c = some d → d.length < 32 →
      restoreRun (a ++ ":" ++ b ++ ":" ++ c) = .indexOutOfRange) := by
  refine ⟨by decide, by decide, by decide, by decide, by decide, by decide, by decide,
    by decide, ?_⟩
  intro a b c d ha hb hd hlt
  exact (restoreRun_wrong_length a b c d ha hb hd).1 hlt

/-! ## Recover command: cleanup of the recovery directory -/

theorem extLoop_found (before suffix r : List Char) (h : extLoop before suffix = r)
    (hr : r ≠ []) :
    ∃ k rest, before = k ++ '.' :: rest ∧ r = '.' :: (k.reverse ++ suffix) := by
  induction before generalizing suffix with
  | nil => exact absurd h.symm hr
  | cons c before ih =>
    rw [extLoop] at h
    by_cases hs : c = '/'
    · rw [if_pos hs] at h
      exact absurd h.symm hr
    · rw [if_neg hs] at h
      by_cases hd : c = '.'
      · rw [if_pos hd] at h
        exact ⟨[], before, by simp [hd], by simp [← h, hd]⟩
      · rw [if_neg hd] at h
        obtain ⟨k, rest, hk, hres⟩ := ih (c :: suffix) h
        exact ⟨c :: k, rest, by simp [hk], by simp [hres]⟩

theorem Ext_txt_iff (name : String) : Ext name = ".txt" ↔ ".txt".toList <:+ name.toList := by
  constructor
  · intro h
    have hl : extLoop name.toList.reverse [] = ".txt".toList := by
      have := congrArg String.toList h
      simpa [Ext, List.asString] using this
    obtain ⟨k, rest, hk, hres⟩ := extLoop_found _ _ _ hl (by decide)
    have hkr : k.reverse = "txt".toList := by
      have : ".txt".toList = '.' :: "txt".toList := rfl
      rw [this] at hres
      simpa using (List.cons.inj hres).2.symm
    refine ⟨rest.reverse, ?_⟩
    have hrev := congrArg List.reverse hk
    rw [List.reverse_reverse] at hrev
    rw [hrev, List.reverse_append, List.reverse_cons, hkr]
    simp
  · rintro ⟨pre, hpre⟩
    have hrev : name.toList.reverse = 't' :: 'x' :: 't' :: '.' :: pre.reverse := by
      rw [← hpre]
      simp
    unfold Ext
    rw [hrev]
    rfl

theorem isOldRecoveryFile_iff (name : String) :
    isOldRecoveryFile name = true ↔
      "spike.recovery".toList <+: name.toList ∧ ".txt".toList <:+ name.toList := by
  unfold isOldRecoveryFile HasPrefix
  simp only [Bool.and_eq_true, decide_eq_true_eq, List.isPrefixOf_iff_prefix, Ext_txt_iff]
  constructor
  · rintro ⟨⟨-, hs⟩, hp⟩
    exact ⟨hp, hs⟩
  · rintro ⟨hp, hs⟩
    refine ⟨⟨?_, hs⟩, hp⟩
    rintro rfl
    obtain ⟨t, ht⟩ := hp
    simp at ht

theorem recoveryFileName_chars (i : Int) :
    (recoveryFileName i).toList =
      "spike.recovery.".toList ++ ((formatInt i).toList ++ ".txt".toList) := by
  simp [recoveryFileName]

theorem isOldRecoveryFile_recoveryFileName (i : Int) :
    isOldRecoveryFile (recoveryFileName i) = true := by
  rw [isOldRecoveryFile_iff, recoveryFileName_chars]
  refine ⟨⟨'.' :: ((formatInt i).toList ++ ".txt".toList), rfl⟩,
    ⟨"spike.recovery.".toList ++ (formatInt i).toList, by simp⟩⟩

theorem recoveryFileName_start (i : Int) :
    (recoveryFileName i).toList.take 15 = "spike.recovery.".toList ∧
    (recoveryFileName i).toList.drop 15 = (formatInt i).toList ++ ".txt".toList := by
  rw [recoveryFileName_chars]
  have hlen : "spike.recovery.".toList.length = 15 := by decide
  exact ⟨List.take_left' hlen, List.drop_left' hlen⟩

/-- C24 as stated fails: in a directory that holds the files of shards 0 and
1 next to other files, the cleanup loop hands to `os.Remove` also
`spike.recovery-notes.txt`, `spike.recoveryX.txt` and `spike.recovery.txt`,
none of which is `spike.recovery.<i>.txt` for any integer `i`. -/
theorem cleanupRemoves_other_names :
    cleanupRemoves demoDirectory =
      ["spike.recovery.0.txt", "spike.recovery-notes.txt", "spike.recoveryX.txt",
        "spike.recovery.1.txt", "spike.recovery.txt"] ∧
    (∀ i : Int, recoveryFileName i ≠ "spike.recovery-notes.txt") ∧
    (∀ i : Int, recoveryFileName i ≠ "spike.recoveryX.txt") ∧
    (∀ i : Int, recoveryFileName i ≠ "spike.recovery.txt") := by
  refine ⟨by decide, ?_, ?_, ?_⟩
  · intro i h
    have h1 := (recoveryFileName_start i).1
    rw [h] at h1
    revert h1
    decide
  · intro i h
    have h1 := (recoveryFileName_start i).1
    rw [h] at h1
    revert h1
    decide
  · intro i h
    have h2 := congrArg List.length (recoveryFileName_start i).2
    rw [h] at h2
    simp at h2

/-- C24, amended: the cleanup loop of the recover command removes a directory
entry exactly when its name starts with `spike.recovery` and ends with the
extension `.txt`. Hence every file named `spike.recovery.<i>.txt` that is in
the directory is removed, and every entry whose name does not start with
`spike.recovery` or does not end with `.txt` is left in place. -/
theorem cleanupRemoves_by_start_and_extension (files : List String) :
    (∀ name, name ∈ cleanupRemoves files ↔
      name ∈ files ∧ "spike.recovery".toList <+: name.toList ∧
        ".txt".toList <:+ name.toList) ∧
    (∀ i : Int, recoveryFileName i ∈ files → recoveryFileName i ∈ cleanupRemoves files) ∧
    (∀ name ∈ files,
      (¬ "spike.recovery".toList <+: name.toList ∨ ¬ ".txt".toList <:+ name.toList) →
      name ∉ cleanupRemoves files) := by
  have hiff : ∀ name, name ∈ cleanupRemoves files ↔
      name ∈ files ∧ "spike.recovery".toList <+: name.toList ∧
        ".txt".toList <:+ name.toList := by
    intro name
    rw [cleanupRemoves, List.mem_filter, isOldRecoveryFile_iff]
  refine ⟨hiff, ?_, ?_⟩
  · intro i hi
    exact List.mem_filter.mpr ⟨hi, isOldRecoveryFile_recoveryFileName i⟩
  · intro name _ hnot hmem
    obtain ⟨-, hp, hs⟩ := (hiff name).mp hmem
    rcases hnot with h | h
    · exact h hp
    · exact h hs

/-! ## Undelete command -/

theorem validateVersions_none_iff (items : List String) :
    validateVersions items = none ↔ ∀ item ∈ items, validVersion item := by
  induction items with
  | nil => simp [validateVersions]
  | cons v rest ih =>
    rw [validateVersions, List.forall_mem_cons, ← ih]
    cases hv : Atoi (TrimSpace v) with
    | none =>
      refine ⟨fun h => absurd h (by simp), fun h => ?_⟩
      obtain ⟨n, hn, -⟩ := h.1
      rw [hv] at hn
      exact absurd hn (by simp)
    | some version =>
      dsimp only
      by_cases hneg : version < 0
      · rw [if_pos hneg]
        refine ⟨fun h => absurd h (by simp), fun h => ?_⟩
        obtain ⟨n, hn, h0⟩ := h.1
        rw [hv, Option.some.injEq] at hn
        omega
      · simp only [if_neg hneg]
        constructor
        · intro h
          exact ⟨⟨version, hv, by omega⟩, h⟩
        · intro h
          exact h.2

theorem validateVersions_message (items : List String) (m : UndeleteRun)
    (h : validateVersions items = some m) :
    ∃ v ∈ items,
      (m = .invalidVersion v ∧ Atoi (TrimSpace v) = none) ∨
      (m = .negativeVersion v ∧ ∃ n, Atoi (TrimSpace v) = some n ∧ n < 0) := by
  induction items with
  | nil => simp [validateVersions] at h
  | cons v rest ih =>
    rw [validateVersions] at h
    cases hv : Atoi (TrimSpace v) with
    | none =>
      rw [hv] at h
      simp only [Option.some.injEq] at h
      exact ⟨v, List.mem_cons_self _ _, Or.inl ⟨h.symm, hv⟩⟩
    | some version =>
      rw [hv] at h
      by_cases hneg : version < 0
      · simp only [if_pos hneg, Option.some.injEq] at h
        exact ⟨v, List.mem_cons_self _ _, Or.inr ⟨h.symm, version, hv, hneg⟩⟩
      · simp only [if_neg hneg] at h
        obtain ⟨w, hw, hres⟩ := ih h
        exact ⟨w, List.mem_cons_of_mem _ hw, hres⟩

/-- C25: the undelete command validates its version list before it calls the
API. Once SPIKE is initialized, with the empty flag read as `0`:
`UndeleteSecret` is called - with the path and the items as split - if and only
if every comma-separated item, trimmed of white space, parses as a decimal
integer that is not negative; otherwise the command returns after the message
for the first item that does not parse or is negative, and makes no call. The
empty flag gives the call with `["0"]`; in `1,,2` the empty item does not
parse; in `1,-2` the second item is negative. -/
theorem undeleteRun_validates (path versions : String) :
    (undeleteRun .initialized path versions = .UndeleteSecret path (versionItems versions) ↔
      ∀ item ∈ versionItems versions, validVersion item) ∧
    ((∃ p l, undeleteRun .initialized path versions = .UndeleteSecret p l) ↔
      ∀ item ∈ versionItems versions, validVersion item) ∧
    (¬ (∀ item ∈ versionItems versions, validVersion item) →
      ∃ v ∈ versionItems versions,
        (undeleteRun .initialized path versions = .invalidVersion v ∧
          Atoi (TrimSpace v) = none) ∨
        (undeleteRun .initialized path versions = .negativeVersion v ∧
          ∃ n, Atoi (TrimSpace v) = some n ∧ n < 0)) ∧
    undeleteRun .initialized path "" = .UndeleteSecret path ["0"] ∧
    undeleteRun .initialized path "1,,2" = .invalidVersion "" ∧
    undeleteRun .initialized path "1,-2" = .negativeVersion "-2" := by
  have hrun : undeleteRun .initialized path versions =
      match validateVersions (versionItems versions) with
      | some message => message
      | none => .UndeleteSecret path (versionItems versions) := rfl
  have hsome : ∀ m, validateVersions (versionItems versions) = some m →
      (∀ p l, m ≠ .UndeleteSecret p l) := by
    intro m hm p l heq
    obtain ⟨v, -, hv | hv⟩ := validateVersions_message _ m hm
    · rw [hv.1] at heq
      exact UndeleteRun.noConfusion heq
    · rw [hv.1] at heq
      exact UndeleteRun.noConfusion heq
  refine ⟨?_, ?_, ?_, rfl, rfl, rfl⟩
  · rw [← validateVersions_none_iff, hrun]
    cases hm : validateVersions (versionItems versions) with
    | none => simp
    | some m =>
      refine ⟨fun h => absurd h (hsome m hm _ _), fun h => absurd h (by simp)⟩
  · rw [← validateVersions_none_iff, hrun]
    cases hm : validateVersions (versionItems versions) with
    | none => simp
    | some m =>
      simp only [reduceCtorEq, iff_false, not_exists]
      intro p l
      exact hsome m hm p l
  · intro hnot
    rw [← validateVersions_none_iff] at hnot
    rw [hrun]
    cases hm : validateVersions (versionItems versions) with
    | none => exact absurd hm hnot
    | some m => exact validateVersions_message _ m hm

/-! ## Restore route: counters over a session -/

theorem RouteRestore_past_two (R : PilotRestore) (shards : List String) (peer : Option String)
    (s : String) (h : 2 ≤ shards.length) :
    (RouteRestore R shards (restoreCall peer s)).response =
      some (200, ⟨(shards.length : Int) + 1, 1 - (shards.length : Int), false⟩) ∧
    (RouteRestore R shards (restoreCall peer s)).shards = shards ++ [s] := by
  have hne : ¬ shards.length + 1 = 2 := by omega
  have hne1 : ¬ shards.length = 1 := by omega
  constructor
  · simp only [RouteRestore, restoreCall, List.length_append, List.length_singleton,
      if_neg hne, if_true]
    congr 3
    · push_cast
      ring
    · simp [hne1]
  · simp only [RouteRestore, restoreCall, List.length_append, List.length_singleton,
      if_neg hne, if_true]

/-- C28, evaluated on the code: three restore requests on an empty session are
answered with `shardsRemaining` 1, 0 and then -1, and with `restored` false,
true and then false again; and whenever the session already holds two shards
or more, the next request is answered with a negative `shardsRemaining` and
`restored = false`. -/
theorem restoreSession_remaining_negative (R : PilotRestore) (a b c : String) :
    (restoreSession R [] [restoreCall none a, restoreCall none b, restoreCall none c]).map
        (fun o => o.response.map (fun r => (r.2.ShardsRemaining, r.2.Restored))) =
      [some (1, false), some (0, true), some (-1, false)] ∧
    (∀ (shards : List String) (peer : Option String) (s : String), 2 ≤ shards.length →
      ∃ st, (RouteRestore R shards (restoreCall peer s)).response = some (200, st) ∧
        st.ShardsRemaining < 0 ∧ st.Restored = false) := by
  constructor
  · have h := R.length_run [a, b]
    simp [restoreSession, RouteRestore, restoreCall, h]
  · intro shards peer s h
    refine ⟨_, (RouteRestore_past_two R shards peer s h).1, ?_, rfl⟩
    show 1 - (shards.length : Int) < 0
    omega

/-! ## Share distribution: the zero root key -/

theorem sendShardToKeeper_zero (W : Recovery) (rootKey : List Nat)
    (keeperId keeperApiRoot : String) (hz : RootKeyZero rootKey = true) :
    (sendShardToKeeper W rootKey keeperId keeperApiRoot).2 = none ∧
    (sendShardToKeeper W rootKey keeperId keeperApiRoot).1.aborts = false ∧
    sendShardToKeeperBuffers W rootKey keeperId keeperApiRoot = none := by
  unfold sendShardToKeeper sendShardToKeeperBuffers
  cases W.joinPath keeperApiRoot with
  | none => exact ⟨rfl, rfl, rfl⟩
  | some u =>
    dsimp only
    by_cases hc : W.createClient keeperId = false
    · rw [if_pos hc, if_pos hc]
      exact ⟨rfl, rfl, rfl⟩
    · rw [if_neg hc, if_neg hc, if_pos hz, if_pos hz]
      exact ⟨rfl, rfl, rfl⟩

theorem sendShardsToKeepers_all_zero (W : Recovery) (rootKeyAt : String → List Nat)
    (keepers : List (String × String))
    (h : ∀ keeper ∈ keepers, RootKeyZero (rootKeyAt keeper.1) = true) :
    (sendShardsToKeepers W rootKeyAt keepers).posts = [] ∧
    (sendShardsToKeepers W rootKeyAt keepers).aborted = false := by
  induction keepers with
  | nil => exact ⟨rfl, rfl⟩
  | cons keeper rest ih =>
    obtain ⟨hp, ha, -⟩ := sendShardToKeeper_zero W (rootKeyAt keeper.1) keeper.1 keeper.2
      (h keeper (List.mem_cons_self _ _))
    obtain ⟨ihp, iha⟩ := ih (fun k hk => h k (List.mem_cons_of_mem _ hk))
    rw [sendShardsToKeepers, ha]
    simp [hp, ihp, iha]

/-- C29: a zero root key is never distributed. For every keepers map, every
environment and every course of the root key: a keeper that is processed while
`state.RootKeyZero()` holds gets no shares computed (the round ends before
`computeShares`) and no request is posted to it in the whole call; and when the
root key is zero while every keeper is processed, the call posts nothing at
all and is not cut short. -/
theorem sendShardsToKeepers_zero_root_key (W : Recovery) (rootKeyAt : String → List Nat)
    (keepers : List (String × String)) :
    (∀ keeper ∈ keepers, RootKeyZero (rootKeyAt keeper.1) = true →
      sendShardToKeeperBuffers W (rootKeyAt keeper.1) keeper.1 keeper.2 = none ∧
      (sendShardToKeeper W (rootKeyAt keeper.1) keeper.1 keeper.2).2 = none ∧
      ∀ ev ∈ (sendShardsToKeepers W rootKeyAt keepers).posts, ev.keeperId ≠ keeper.1) ∧
    ((∀ keeper ∈ keepers, RootKeyZero (rootKeyAt keeper.1) = true) →
      (sendShardsToKeepers W rootKeyAt keepers).posts = [] ∧
      (sendShardsToKeepers W rootKeyAt keepers).aborted = false) := by
  refine ⟨?_, sendShardsToKeepers_all_zero W rootKeyAt keepers⟩
  intro keeper _ hz
  obtain ⟨hp, -, hb⟩ := sendShardToKeeper_zero W (rootKeyAt keeper.1) keeper.1 keeper.2 hz
  refine ⟨hb, hp, ?_⟩
  intro ev hev hid
  obtain ⟨k, -, hstep⟩ := sendShardsToKeepers_posted W rootKeyAt keepers ev hev
  obtain ⟨hk, -, hnz, -⟩ := sendShardToKeeper_posted W _ _ _ ev hstep
  rw [← hk, hid, hz] at hnz
  exact absurd hnz (by simp)

/-- Witness of C29: in the example with three keepers, a root key that is zero
while keeper `2` is processed leaves requests for keepers `1` and `3` only, and
a root key that is zero throughout leaves none. -/
theorem sendShardsToKeepers_zero_root_key_witness :
    (sendShardsToKeepers demoRecovery
        (fun k => if k = "2" then List.replicate 32 0 else demoRootKey) demoKeepers).posts.map
      (fun ev => ev.keeperId) = ["1", "3"] ∧
    (sendShardsToKeepers demoRecovery (fun _ => List.replicate 32 0) demoKeepers).posts = [] ∧
    (sendShardsToKeepers demoRecovery (fun _ => List.replicate 32 0) demoKeepers).aborted
      = false :=
  ⟨by decide,
    (sendShardsToKeepers_zero_root_key demoRecovery (fun _ => List.replicate 32 0)
      demoKeepers).2 (by decide)⟩

/-! ## Compiled expressions of stored policies -/

theorem storeCompiled_mapStore (m : PolicyStore) (key : String) (value : Policy)
    (h : storeCompiled m) (hv : value.compiled) : storeCompiled (mapStore m key value) := by
  intro p hp
  simp only [ListPolicies, mapStore, List.map_append, List.mem_append, List.mem_map,
    List.mem_filter, List.mem_singleton] at hp
  rcases hp with ⟨e, ⟨he, -⟩, rfl⟩ | ⟨e, rfl, rfl⟩
  · exact h e.2 (List.mem_map.mpr ⟨e, he, rfl⟩)
  · exact hv

theorem storeCompiled_mapDelete (m : PolicyStore) (key : String) (h : storeCompiled m) :
    storeCompiled (mapDelete m key) := by
  intro p hp
  simp only [ListPolicies, mapDelete, List.mem_map, List.mem_filter] at hp
  obtain ⟨e, ⟨he, -⟩, rfl⟩ := hp
  exact h e.2 (List.mem_map.mpr ⟨e, he, rfl⟩)

theorem CreatePolicy_storeCompiled (ext : String → Option Regexp) (newId : String) (now : Nat)
    (st : PolicyState) (policy : Policy) (h : storeCompiled st.policies) :
    storeCompiled (CreatePolicy ext newId now st policy).2.policies := by
  unfold CreatePolicy
  by_cases hN : policy.Name = ""
  · rw [if_pos hN]; exact h
  · rw [if_neg hN]
    by_cases hany : (ListPolicies st.policies).any (fun p => decide (p.Name = policy.Name)) = true
    · rw [if_pos hany]; exact h
    · rw [if_neg hany]
      cases h1 : (if policy.SpiffeIdPattern ≠ "*" then
          (Compile ext policy.SpiffeIdPattern).map some else some policy.IdRegex) with
      | none => exact h
      | some idRegex =>
        dsimp only
        cases h2 : (if policy.PathPattern ≠ "*" then
            (Compile ext policy.PathPattern).map some else some policy.PathRegex) with
        | none => exact h
        | some pathRegex =>
          refine storeCompiled_mapStore _ _ _ h ⟨fun hi => ?_, fun hq => ?_⟩
          · rw [if_pos hi] at h1
            cases hc : Compile ext policy.SpiffeIdPattern with
            | none => simp [hc] at h1
            | some r =>
              rw [hc] at h1
              simp only [Option.map_some', Option.some.injEq] at h1
              simp [← h1]
          · rw [if_pos hq] at h2
            cases hc : Compile ext policy.PathPattern with
            | none => simp [hc] at h2
            | some r =>
              rw [hc] at h2
              simp only [Option.map_some', Option.some.injEq] at h2
              simp [← h2]

theorem PolicyOp_apply_storeCompiled (ext : String → Option Regexp) (st : PolicyState)
    (op : PolicyOp) (hop : op.backendCompiled) (h : storeCompiled st.policies) :
    storeCompiled (op.apply ext st).policies := by
  cases op with
  | create newId now policy => exact CreatePolicy_storeCompiled ext newId now st policy h
  | get be id =>
    have hbe : ∀ p, ReadPolicy be id = some p → p.compiled := hop
    simp only [PolicyOp.apply, GetPolicy]
    cases mapLoad st.policies id with
    | some v => exact h
    | none =>
      cases hr : ReadPolicy be id with
      | none => exact h
      | some cachedPolicy => exact storeCompiled_mapStore _ _ _ h (hbe cachedPolicy hr)
  | delete id =>
    simp only [PolicyOp.apply, DeletePolicy]
    cases mapLoad st.policies id with
    | none => exact h
    | some v => exact storeCompiled_mapDelete _ _ h
  | list => exact h
  | listByPath p => exact h
  | listBySpiffeId p => exact h

theorem runPolicyOps_storeCompiled (ext : String → Option Regexp) (ops : List PolicyOp)
    (st : PolicyState) (hops : ∀ op ∈ ops, op.backendCompiled)
    (h : storeCompiled st.policies) :
    storeCompiled (runPolicyOps ext st ops).policies := by
  induction ops generalizing st with
  | nil => exact h
  | cons op rest ih =>
    rw [runPolicyOps, List.foldl_cons]
    exact ih _ (fun o ho => hops o (List.mem_cons_of_mem _ ho))
      (PolicyOp_apply_storeCompiled ext st op (hops op (List.mem_cons_self _ _)) h)

theorem CheckAccess_returns (IsPilot : String → Bool) (policies : PolicyStore)
    (id path : String) (wants : List PolicyPermission) (hc : storeCompiled policies) :
    ∃ b, CheckAccess IsPilot policies id path wants = some b := by
  unfold CheckAccess
  by_cases hp : IsPilot id = true
  · exact ⟨true, by rw [if_pos hp]⟩
  · rw [if_neg hp, checkPolicies_compiled id path wants _ hc]
    exact ⟨_, rfl⟩

/-- C26, evaluated on the code: after `CreatePolicy` of a policy with a
pattern, `GetPolicy` of an id that is not in memory takes the policy the
backend returns and stores it as it is, without compiling anything. With a
policy read back from its record - path pattern `db`, no compiled expression -
the call returns that policy with a `nil` error, the store then holds a policy
whose `PathPattern` is not `"*"` and whose `PathRegex` is `nil`, and
`CheckAccess` for a caller that is not a Pilot reaches `MatchString` on that
`nil` expression: it panics instead of returning. -/
theorem GetPolicy_stores_uncompiled :
    storeCompiled
      (runPolicyOps (fun _ => none) emptyPolicyState [.create "id-1" 1 secretsInput]).policies ∧
    (GetPolicy (some (backendHolding storedRecord))
        (runPolicyOps (fun _ => none) emptyPolicyState [.create "id-1" 1 secretsInput])
        "id-7").1.2 = none ∧
    (ListPolicies (runPolicyOps (fun _ => none) emptyPolicyState warmingOps).policies).map
        (fun p => (p.Id, p.PathPattern, p.PathRegex.isSome)) =
      [("id-1", "secrets", true), ("id-7", "db", false)] ∧
    ¬ storeCompiled (runPolicyOps (fun _ => none) emptyPolicyState warmingOps).policies ∧
    CheckAccess (fun _ => false)
      (runPolicyOps (fun _ => none) emptyPolicyState warmingOps).policies
      "spiffe://x/app" "/foo" [PermissionRead] = none := by
  refine ⟨by decide, by rfl, by decide, by decide, by decide⟩

/-! ## Order of the policies -/

theorem checkPolicies_false_cons (id path : String) (wants : List PolicyPermission)
    (p : Policy) (rest : List Policy)
    (h : checkPolicies id path wants (p :: rest) = some false) :
    loopGrants p id path wants = false ∧ checkPolicies id path wants rest = some false := by
  rw [checkPolicies] at h
  rw [loopGrants]
  by_cases h1 : p.SpiffeIdPattern = "*" ∧ p.PathPattern = "*"
  · rw [if_pos h1] at h ⊢
    cases hh : hasAllPermissions p.Permissions wants
    · simpa [hh] using h
    · simp [hh] at h
  · rw [if_neg h1] at h ⊢
    simp only [patternPasses, matchRegex]
    simp only [matchRegex] at h
    by_cases hi : p.SpiffeIdPattern = "*" <;> by_cases hq : p.PathPattern = "*" <;>
      rcases hr : p.IdRegex with _ | r <;> rcases hr2 : p.PathRegex with _ | r2 <;>
      simp [hi, hq, hr, hr2] at h h1 ⊢ <;>
      (try cases hm : MatchString r id) <;> (try cases hm2 : MatchString r2 path) <;>
      cases hc : contains p.Permissions PermissionSuper <;>
      cases hh : hasAllPermissions p.Permissions wants <;> simp_all

theorem checkPolicies_false_no_grant (id path : String) (wants : List PolicyPermission)
    (ps : List Policy) (h : checkPolicies id path wants ps = some false) :
    ∀ p ∈ ps, loopGrants p id path wants = false := by
  induction ps with
  | nil => simp
  | cons q rest ih =>
    obtain ⟨hq, hrest⟩ := checkPolicies_false_cons id path wants q rest h
    intro p hp
    rcases List.mem_cons.mp hp with rfl | hp
    · exact hq
    · exact ih hrest p hp

theorem checkPolicies_subset (id path : String) (wants : List PolicyPermission)
    (ps rs : List Policy) (hsub : ∀ p ∈ ps, p ∈ rs)
    (h : checkPolicies id path wants ps = some true) :
    checkPolicies id path wants rs ≠ some false ∧
    ((∀ p ∈ rs, p.compiled) → checkPolicies id path wants rs = some true) := by
  obtain ⟨p, hp, hg⟩ := checkPolicies_true_grants id path wants ps h
  constructor
  · intro hf
    have := checkPolicies_false_no_grant id path wants rs hf p (hsub p hp)
    rw [hg] at this
    exact absurd this (by simp)
  · intro hc
    rw [checkPolicies_compiled id path wants rs hc]
    congr 1
    exact List.any_eq_true.mpr ⟨p, hsub p hp, hg⟩

theorem mapStore_fresh (m : PolicyStore) (key : String) (value : Policy)
    (hfresh : ∀ e ∈ m, e.1 ≠ key) : mapStore m key value = m ++ [(key, value)] := by
  unfold mapStore
  rw [List.filter_eq_self.mpr]
  intro e he
  simpa using hfresh e he

/-- C27: `CheckAccess` does not depend on the order in which the store is
visited. For stored policies that carry their compiled expressions, as
`CreatePolicy` leaves them, `CheckAccess` returns, and returns the same boolean
on every permutation of the store, for every id, path and wanted permissions.
Adding never takes a grant away: when `CheckAccess` returns true on a store, it
does not return false on any store that holds the same entries and more, in
any order (it returns true there when the added policies carry their compiled
expressions too); in particular after `Store` of a policy under a fresh key. -/
theorem CheckAccess_order_independent (IsPilot : String → Bool) (ps qs : PolicyStore)
    (id path : String) (wants : List PolicyPermission)
    (hperm : ps.Perm qs) (hc : storeCompiled ps) :
    (∃ b, CheckAccess IsPilot ps id path wants = some b ∧
      CheckAccess IsPilot qs id path wants = some b) ∧
    (∀ rs : PolicyStore, (∀ e ∈ ps, e ∈ rs) →
      CheckAccess IsPilot ps id path wants = some true →
      CheckAccess IsPilot rs id path wants ≠ some false ∧
      (storeCompiled rs → CheckAccess IsPilot rs id path wants = some true)) ∧
    (∀ (key : String) (p : Policy), (∀ e ∈ ps, e.1 ≠ key) → p.compiled →
      CheckAccess IsPilot ps id path wants = some true →
      CheckAccess IsPilot (mapStore ps key p) id path wants = some true) := by
  have hsubset : ∀ rs : PolicyStore, (∀ e ∈ ps, e ∈ rs) →
      CheckAccess IsPilot ps id path wants = some true →
      CheckAccess IsPilot rs id path wants ≠ some false ∧
      (storeCompiled rs → CheckAccess IsPilot rs id path wants = some true) := by
    intro rs hsub h
    unfold CheckAccess at h ⊢
    by_cases hp : IsPilot id = true
    · rw [if_pos hp]
      exact ⟨by simp, fun _ => rfl⟩
    · rw [if_neg hp] at h ⊢
      have hl : ∀ p ∈ ListPolicies ps, p ∈ ListPolicies rs := by
        intro p hpm
        obtain ⟨e, he, rfl⟩ := List.mem_map.mp hpm
        exact List.mem_map.mpr ⟨e, hsub e he, rfl⟩
      exact checkPolicies_subset id path wants _ _ hl h
  refine ⟨?_, hsubset, ?_⟩
  · have hcq : storeCompiled qs := by
      intro p hp
      exact hc p ((hperm.map Prod.snd).mem_iff.mpr hp)
    unfold CheckAccess
    by_cases hp : IsPilot id = true
    · exact ⟨true, by rw [if_pos hp], by rw [if_pos hp]⟩
    · rw [if_neg hp, if_neg hp, checkPolicies_compiled id path wants _ hc,
        checkPolicies_compiled id path wants _ hcq]
      refine ⟨_, rfl, ?_⟩
      congr 1
      have hm : ∀ p, p ∈ ListPolicies qs ↔ p ∈ ListPolicies ps := fun p =>
        (hperm.map Prod.snd).mem_iff.symm
      rw [Bool.eq_iff_iff, List.any_eq_true, List.any_eq_true]
      exact ⟨fun ⟨p, hp, hg⟩ => ⟨p, (hm p).mp hp, hg⟩, fun ⟨p, hp, hg⟩ => ⟨p, (hm p).mpr hp, hg⟩⟩
  · intro key p hfresh hpc h
    have hsub : ∀ e ∈ ps, e ∈ mapStore ps key p := by
      intro e he
      rw [mapStore_fresh ps key p hfresh]
      exact List.mem_append_left _ he
    exact (hsubset _ hsub h).2 (storeCompiled_mapStore ps key p hc hpc)

/-- Witness of C27: the store holding the policy for path pattern `secrets`
and the policy that grants `Write` everywhere, in its two orders; a request
for `Read` below `secrets` is granted in both, and still after a third policy
is stored. -/
theorem CheckAccess_order_independent_witness :
    (∃ b, CheckAccess (fun _ => false) [("id-1", secretsPolicy), ("id-w", writeEverywhere)]
          "spiffe://x/app" "/secrets/db" [PermissionRead] = some b ∧
      CheckAccess (fun _ => false) [("id-w", writeEverywhere), ("id-1", secretsPolicy)]
          "spiffe://x/app" "/secrets/db" [PermissionRead] = some b) ∧
    (∀ rs : PolicyStore,
      (∀ e ∈ [("id-1", secretsPolicy), ("id-w", writeEverywhere)], e ∈ rs) →
      CheckAccess (fun _ => false) [("id-1", secretsPolicy), ("id-w", writeEverywhere)]
          "spiffe://x/app" "/secrets/db" [PermissionRead] = some true →
      CheckAccess (fun _ => false) rs "spiffe://x/app" "/secrets/db" [PermissionRead]
          ≠ some false ∧
      (storeCompiled rs →
        CheckAccess (fun _ => false) rs "spiffe://x/app" "/secrets/db" [PermissionRead]
          = some true)) ∧
    (∀ (key : String) (p : Policy),
      (∀ e ∈ [("id-1", secretsPolicy), ("id-w", writeEverywhere)], e.1 ≠ key) → p.compiled →
      CheckAccess (fun _ => false) [("id-1", secretsPolicy), ("id-w", writeEverywhere)]
          "spiffe://x/app" "/secrets/db" [PermissionRead] = some true →
      CheckAccess (fun _ => false)
          (mapStore [("id-1", secretsPolicy), ("id-w", writeEverywhere)] key p)
          "spiffe://x/app" "/secrets/db" [PermissionRead] = some true) :=
  CheckAccess_order_independent (fun _ => false)
    [("id-1", secretsPolicy), ("id-w", writeEverywhere)]
    [("id-w", writeEverywhere), ("id-1", secretsPolicy)]
    "spiffe://x/app" "/secrets/db" [PermissionRead] (List.Perm.swap _ _ _) (by decide)

end Spike
